import Mathlib

/-!
# ssiglib: multilayer perceptron (`modules/ml/src/ann_mlp.cpp`)

Shallow embedding of `ssig::MultilayerPerceptron`.

Modelling conventions.
* `float` arithmetic is idealised: scalars range over a field `α` with a decidable
  linear order; `exp` and `log` are supplied by the class `ExpLog`.
* `cv::Mat` is a value (dimensions plus rows of entries); a default-constructed
  `cv::Mat` is the `0 × 0` matrix `Mat.empty`.  Buffer sharing between matrix
  headers is outside the model.
* A call that raises `cv::Exception` (size mismatch) or indexes a `std::vector`
  out of range yields `none`.
* The `int` members that count layers, nodes and iterations are natural numbers; indices
  obtained by subtraction (`weightEnd - 1`) are integers.
* The generator `cv::theRNG()` is the sequence of samples it delivers (`RNG`).
-/

namespace ssig

/-- Scalar functions of `<cmath>` / `cv::exp`, `cv::log` that a field does not provide. -/
class ExpLog (α : Type) where
  /-- The exponential `cv::exp`. -/
  exp : α → α
  /-- The natural logarithm `cv::log`. -/
  log : α → α

/-- Host matrix `cv::Mat` (single channel), held by value. -/
structure Mat (α : Type) where
  /-- Number of rows, `Mat::rows`. -/
  rows : Nat
  /-- Number of columns, `Mat::cols`. -/
  cols : Nat
  /-- The entries, one list per row. -/
  data : List (List α)
deriving DecidableEq

section MatOps

variable {α : Type}

/-- The matrix with `r` rows and `c` columns whose entry `(i, j)` is `f i j`. -/
def Mat.ofFn (r c : Nat) (f : Nat → Nat → α) : Mat α :=
  ⟨r, c, (List.range r).map fun i => (List.range c).map fun j => f i j⟩

/-- A default-constructed `cv::Mat`. -/
def Mat.empty : Mat α := ⟨0, 0, []⟩

/-- Entry `(i, j)`; zero outside the stored range. -/
def Mat.get [Zero α] (m : Mat α) (i j : Nat) : α := (m.data.getD i []).getD j 0

/-- Both dimensions agree. -/
def Mat.sameSize (a b : Mat α) : Bool := a.rows == b.rows && a.cols == b.cols

/-- Elementwise image of a matrix. -/
def Mat.map [Zero α] (f : α → α) (m : Mat α) : Mat α :=
  Mat.ofFn m.rows m.cols fun i j => f (m.get i j)

/-- Elementwise combination of two matrices, with the dimensions of the first. -/
def Mat.zipWith [Zero α] (f : α → α → α) (a b : Mat α) : Mat α :=
  Mat.ofFn a.rows a.cols fun i j => f (a.get i j) (b.get i j)

/-- Transpose, `cv::transpose` / `Mat::t()`. -/
def Mat.t [Zero α] (m : Mat α) : Mat α :=
  Mat.ofFn m.cols m.rows fun i j => m.get j i

/-- Sum of `f k` for `k < n`. -/
def sumTo [Zero α] [Add α] (n : Nat) (f : Nat → α) : α :=
  ((List.range n).map f).sum

/-- Plain matrix product; the inner dimension is the column count of the left factor. -/
def Mat.mul [Zero α] [Add α] [Mul α] (a b : Mat α) : Mat α :=
  Mat.ofFn a.rows b.cols fun i j => sumTo a.cols fun k => a.get i k * b.get k j

/-- Elementwise (Hadamard) product. -/
def Mat.hadamard [Zero α] [Mul α] (a b : Mat α) : Mat α :=
  Mat.zipWith (fun x y => x * y) a b

/-- Elementwise difference. -/
def Mat.sub [Zero α] [Sub α] (a b : Mat α) : Mat α :=
  Mat.zipWith (fun x y => x - y) a b

/-- Every entry multiplied by the scalar `s`. -/
def Mat.scale [Zero α] [Mul α] (s : α) (m : Mat α) : Mat α :=
  Mat.map (fun x => s * x) m

/-- Sum of all entries, `cv::sum(m)[0]`. -/
def Mat.sum [Zero α] [Add α] (m : Mat α) : α :=
  sumTo m.rows fun i => sumTo m.cols fun j => m.get i j

/-- Horizontal concatenation `cv::hconcat(a, b, dst)`; fails when the row counts differ. -/
def hconcat [Zero α] (a b : Mat α) : Option (Mat α) :=
  if a.rows = b.rows then
    some (Mat.ofFn a.rows (a.cols + b.cols) fun i j =>
      if j < a.cols then a.get i j else b.get i (j - a.cols))
  else none

/-- Call `cv::gemm(src1, src2, alpha, src3, beta, dst, flags)`:
`dst = alpha * op(src1) * op(src2) + beta * src3`, where `op` transposes when the matching
flag (`GEMM_1_T`, `GEMM_2_T`) is set and `src3 = none` stands for `cv::noArray()`, whose
term is dropped.  Fails when the inner dimensions differ or `src3` has the wrong size. -/
def gemm [Field α] (src1 src2 : Mat α) (alpha : α) (src3 : Option (Mat α)) (beta : α)
    (gemm_1_T gemm_2_T : Bool) : Option (Mat α) :=
  let a := if gemm_1_T then src1.t else src1
  let b := if gemm_2_T then src2.t else src2
  if a.cols = b.rows then
    match src3 with
    | none => some (Mat.map (fun x => alpha * x) (a.mul b))
    | some c =>
      if c.rows = a.rows ∧ c.cols = b.cols then
        some (Mat.zipWith (fun x y => alpha * x + beta * y) (a.mul b) c)
      else none
  else none

/-- Call `cv::multiply(src1, src2, dst)` on two matrices; fails on a size mismatch. -/
def multiply [Field α] (src1 src2 : Mat α) : Option (Mat α) :=
  if src1.sameSize src2 then some (src1.hadamard src2) else none

/-- Call `cv::subtract(src1, src2, dst)` on two matrices; fails on a size mismatch. -/
def subtract [Field α] (src1 src2 : Mat α) : Option (Mat α) :=
  if src1.sameSize src2 then some (src1.sub src2) else none

/-- Call `cv::divide(src1, src2, dst)` on two matrices; fails on a size mismatch. -/
def divide [Field α] (src1 src2 : Mat α) : Option (Mat α) :=
  if src1.sameSize src2 then some (Mat.zipWith (fun x y => x / y) src1 src2) else none

/-- Call `cv::addWeighted(src1, alpha, src2, beta, gamma, dst)`:
`dst = src1 * alpha + src2 * beta + gamma`; fails on a size mismatch. -/
def addWeighted [Field α] (src1 : Mat α) (alpha : α) (src2 : Mat α) (beta gamma : α) :
    Option (Mat α) :=
  if src1.sameSize src2 then
    some (Mat.zipWith (fun x y => x * alpha + y * beta + gamma) src1 src2)
  else none

/-- The constant `FLT_EPSILON` of `<cfloat>`, `2⁻²³`. -/
def FLT_EPSILON [Field α] : α := 1 / 8388608

/-- The constant `DBL_EPSILON` of `<cfloat>`, `2⁻⁵²`. -/
def DBL_EPSILON [Field α] : α := 1 / 4503599627370496

/-- Call `cv::normalize(col, col, 1, 0, cv::NORM_L1)` on column `c` of `m`: the column is
scaled by `1 / norm` when its L1 norm exceeds `DBL_EPSILON` and by `0` otherwise. -/
def normalizeColL1 [Field α] [LinearOrder α] (m : Mat α) (c : Nat) : Mat α :=
  let norm := sumTo m.rows fun i => if m.get i c < 0 then - m.get i c else m.get i c
  let scale : α := if DBL_EPSILON < norm then 1 / norm else 0
  Mat.ofFn m.rows m.cols fun i j => if j = c then m.get i j * scale else m.get i j

/-- The loop `for (c = 0; c < out.cols; ++c) normalize(out.col(c), ...)` of `softmax`. -/
def normalizeCols [Field α] [LinearOrder α] (m : Mat α) : Mat α :=
  (List.range m.cols).foldl normalizeColL1 m

end MatOps

section Activations

variable {α : Type} [Field α] [LinearOrder α] [ExpLog α]

/-- Method `MultilayerPerceptron::relu`: `cv::max(0, inp)`, the same on both backends. -/
def relu (inp : Mat α) : Mat α := inp.map fun x => max 0 x

/-- Method `MultilayerPerceptron::logistic`: `multiply(-1, inp)`, `exp`, `add(1, ·)`,
`divide(1, ·)`, the same on both backends. -/
def logistic (inp : Mat α) : Mat α := inp.map fun x => 1 / (1 + ExpLog.exp (-1 * x))

/-- Method `MultilayerPerceptron::softmax`.  The host branch clamps the exponentials with
`cv::min(out, 1e10, out)`; the `UMat` branch does not. -/
def softmax (isUMat : Bool) (inp : Mat α) : Mat α :=
  if isUMat then
    normalizeCols (inp.map fun x => ExpLog.exp x + FLT_EPSILON)
  else
    normalizeCols (inp.map fun x => min (ExpLog.exp x) 10000000000 + FLT_EPSILON)

/-- Method `MultilayerPerceptron::softplus`.  The `UMat` branch takes `cv::log` of `1 + exp`;
in the host branch that call is commented out. -/
def softplus (isUMat : Bool) (inp : Mat α) : Mat α :=
  if isUMat then inp.map fun x => ExpLog.log (1 + ExpLog.exp x)
  else inp.map fun x => 1 + ExpLog.exp x

/-- Method `MultilayerPerceptron::applyActivation`; `isUMat` is `_inp.isUMat()`. -/
def applyActivation (type : String) (isUMat : Bool) (inp : Mat α) : Mat α :=
  if type = "relu" then relu inp
  else if type = "logistic" then logistic inp
  else if type = "softmax" then softmax isUMat inp
  else if type = "softplus" then softplus isUMat inp
  else inp

/-- Method `MultilayerPerceptron::dRelu`: ones, with zeros copied in where `inp == 0`. -/
def dRelu (inp : Mat α) : Mat α := inp.map fun x => if x = 0 then 0 else 1

/-- Method `MultilayerPerceptron::dSoftplus`. -/
def dSoftplus (inp : Mat α) : Mat α := logistic inp

/-- Method `MultilayerPerceptron::dLogistic`: `out = logistic(inp)`, `aux = 1 - out`,
`multiply(out, aux)`. -/
def dLogistic (inp : Mat α) : Mat α :=
  (logistic inp).hadamard ((logistic inp).map fun x => 1 - x)

/-- Method `MultilayerPerceptron::dSoftmax`: the body is empty, `_out` keeps its previous value. -/
def dSoftmax (_inp : Mat α) (out : Mat α) : Mat α := out

/-- Method `MultilayerPerceptron::applyDerivative`; `out` is the value `_out` holds on entry. -/
def applyDerivative (type : String) (inp : Mat α) (out : Mat α) : Mat α :=
  if type = "relu" then dRelu inp
  else if type = "logistic" then dLogistic inp
  else if type = "softmax" then dSoftmax inp out
  else if type = "softplus" then dSoftplus inp
  else inp

end Activations

section Model

variable {α : Type} [Field α] [LinearOrder α] [ExpLog α]

/-- The data members of `ssig::MultilayerPerceptron` that `ann_mlp.cpp` uses. -/
structure MultilayerPerceptron (α : Type) where
  /-- Weight matrices, one per trainable layer. -/
  mWeights : List (Mat α)
  /-- Pre-sampled dropout masks. -/
  mDropouts : List (Mat α)
  /-- Configured layer count (`setNumLayers`). -/
  mNumLayers : Nat
  /-- Activation kind of each layer. -/
  mActivationsTypes : List String
  /-- Node count of each layer. -/
  mNumNodesConfiguration : List Nat
  /-- Dropout rate of each layer. -/
  mDropoutWeights : List α
  /-- Loss kind. -/
  mLoss : String
  /-- Learning rate. -/
  mLearningRate : α
  /-- Iteration cap. -/
  mMaxIterations : Nat
  /-- Convergence threshold. -/
  mEpsilon : α
  /-- Trained flag. -/
  mIsTrained : Bool
  /-- Backend switch (`setUseOpenCl`). -/
  mOpenClEnabled : Bool

/-- Call `std::vector::resize(n)` on a vector of matrices. -/
def vresize (n : Nat) (v : List (Mat α)) : List (Mat α) :=
  v.take n ++ List.replicate (n - v.length) Mat.empty

/-- Method `MultilayerPerceptron::computeLossDerivative`; `error` is the value the output
argument holds on entry (kept when the loss kind is neither branch). -/
def computeLossDerivative (lossType : String) (activation target error : Mat α) :
    Option (Mat α) :=
  if lossType = "quadratic" then subtract activation target
  else if lossType = "log" then do
    let aux1 ← subtract activation target
    let aux2 := activation.map fun x => 1 - x
    let aux2 ← multiply activation aux2
    let aux2 := aux2.map fun x => x + FLT_EPSILON
    divide aux1 aux2
  else some error

/-- Method `MultilayerPerceptron::computeLoss`. -/
def computeLoss (loss : String) (out target : Mat α) : Option α :=
  if loss = "log" then do
    let m1 := out.map fun x => ExpLog.log (x + FLT_EPSILON)
    let m1 ← multiply target m1
    let avg_loss : α := m1.sum / ((target.rows * target.cols : Nat) : α)
    let m2 := out.map fun x => ExpLog.log (1 - x + FLT_EPSILON)
    let aux := target.map fun x => 1 - x
    let m2 ← multiply aux m2
    let avg_loss := avg_loss + m2.sum / ((target.rows * target.cols : Nat) : α)
    some (-avg_loss)
  else if loss = "quadratic" then do
    let aux ← subtract out target
    let aux := aux.map fun x => x ^ 2
    some (aux.sum / ((target.rows * target.cols : Nat) : α))
  else some 0

/-- Body of the loop of `doForwardPass` for layer `l`, on the pair
`(outputs, activations)`.  The assignment `outputs[l] = layerResponse` copies the header of
`layerResponse`, not its data: `applyActivation(…, layerResponse, layerResponse)` and
`cv::multiply(mDropouts[l], layerResponse, layerResponse)` then write into that same buffer
(their destination already has the size and type they ask for, so it is not reallocated), and
`activations[l + 1] = layerResponse` shares it as well.  When the body ends, `outputs[l]`
therefore holds the final value of `layerResponse`, the same matrix as `activations[l + 1]`. -/
def forwardLayer (m : MultilayerPerceptron α) (isUMat : Bool) (weights : List (Mat α))
    (activationTypes : List String) (dropout : List α)
    (st : List (Mat α) × List (Mat α)) (l : Nat) : Option (List (Mat α) × List (Mat α)) := do
  let w ← weights[l]?
  let a ← st.2[l]?
  let layerResponse ← gemm w a 1 none 0 false false
  let type ← activationTypes[l]?
  let layerResponse := applyActivation type isUMat layerResponse
  let d ← dropout[l]?
  let layerResponse ←
    if 0.05 < d ∧ d < 0.8 then do
      let mask ← m.mDropouts[l]?
      multiply mask layerResponse
    else some layerResponse
  some (st.1.set l layerResponse, st.2.set (l + 1) layerResponse)

/-- Method `MultilayerPerceptron::doForwardPass`; `outputs` and `activations` are the vectors the
caller passes by reference, the result is their final value. -/
def doForwardPass (m : MultilayerPerceptron α) (isUMat : Bool) (input : Mat α)
    (weights : List (Mat α)) (activationTypes : List String) (dropout : List α)
    (outputs activations : List (Mat α)) : Option (List (Mat α) × List (Mat α)) :=
  let numLayers := m.mNumLayers
  let outputs := (vresize (numLayers + 1) outputs).set 0 input
  let activations := (vresize (numLayers + 1) activations).set 0 input
  (List.range numLayers).foldlM (forwardLayer m isUMat weights activationTypes dropout)
    (outputs, activations)

/-- Body of the loop of `computeErrors` for index `L`. -/
def errorLayer (activationTypes : List String) (weights outputs errors : List (Mat α))
    (L : Nat) : Option (List (Mat α)) := do
  let w ← weights[L]?
  let e ← errors[L + 1]?
  let aux ← gemm w e 1 none 0 true false
  let type ← activationTypes[L - 1]?
  let o ← outputs[L - 1]?
  let derivative := applyDerivative type o Mat.empty
  let eL ← multiply aux derivative
  if L < errors.length then some (errors.set L eL) else none

/-- The loop `for (L = n; L > 0; --L)` of `computeErrors`. -/
def errorLoop (activationTypes : List String) (weights outputs : List (Mat α)) :
    Nat → List (Mat α) → Option (List (Mat α))
  | 0, errors => some errors
  | L + 1, errors => do
    let errors ← errorLayer activationTypes weights outputs errors (L + 1)
    errorLoop activationTypes weights outputs L errors

/-- Method `MultilayerPerceptron::computeErrors`; `errors` is the vector passed by reference. -/
def computeErrors (m : MultilayerPerceptron α) (target : Mat α) (activationTypes : List String)
    (weights outputs activations errors : List (Mat α)) : Option (List (Mat α)) := do
  let numLayers := m.mNumLayers
  let errors := vresize (numLayers + 1) errors
  let back ← activations.getLast?
  let eBack ← errors.getLast?
  let seed ← computeLossDerivative m.mLoss back target eBack
  let errors := errors.set numLayers seed
  errorLoop activationTypes weights outputs (numLayers - 1) errors

/-- Body of the loop of `gradientUpdate` for index `i`, on `newWeights`. -/
def gradientLayer (learningRate : α) (activations errors weights : List (Mat α))
    (newWeights : List (Mat α)) (i : Nat) : Option (List (Mat α)) := do
  let e ← errors[i]?
  let a ← activations[i - 1]?
  let G_l ← gemm e a 1 none 1 false true
  let w ← weights[i - 1]?
  let nw ← addWeighted w 1 G_l (-learningRate) 0
  some (newWeights.set (i - 1) nw)

/-- Method `MultilayerPerceptron::gradientUpdate`; the result is the final value of `weights`. -/
def gradientUpdate (learningRate : α) (activations errors weights : List (Mat α)) :
    Option (List (Mat α)) :=
  let len := weights.length
  let newWeights : List (Mat α) := List.replicate weights.length Mat.empty
  ((List.range len).map (· + 1)).foldlM
    (gradientLayer learningRate activations errors weights) newWeights

/-- Method `MultilayerPerceptron::learnWeights`; returns the final `(activations, weights)`. -/
def learnWeights (m : MultilayerPerceptron α) (isUMat : Bool) (inputs labels : Mat α)
    (activationTypes : List String) (dropout : List α)
    (activations weights : List (Mat α)) : Option (List (Mat α) × List (Mat α)) :=
  let numLayers := weights.length + 1
  if weights.length = numLayers - 1 ∧ activationTypes.length = numLayers - 1
      ∧ dropout.length = numLayers - 1 then do
    let (net_out, activations) ←
      doForwardPass m isUMat inputs weights activationTypes dropout [] activations
    let errors ← computeErrors m labels activationTypes weights net_out activations []
    let weights ← gradientUpdate m.mLearningRate activations errors weights
    some (activations, weights)
  else none

/-- The global generator `cv::theRNG()`: the sequence of normal samples it will deliver and
the number already consumed. -/
structure RNG (α : Type) where
  /-- The samples, in the order in which they are drawn. -/
  samples : Nat → α
  /-- How many samples have been drawn. -/
  pos : Nat

/-- A fresh `rows × cols` matrix (`cv::Mat::zeros`) filled by `cv::randn(·, 0, 1)`, row by
row, with the generator advanced past the samples used. -/
def randn (g : RNG α) (rows cols : Nat) : Mat α × RNG α :=
  (Mat.ofFn rows cols fun i j => g.samples (g.pos + i * cols + j),
    { g with pos := g.pos + rows * cols })

/-- Element `v[i]` of a `std::vector` for an `int` index; out of range is `none`. -/
def vget {β : Type} (v : List β) (i : Int) : Option β :=
  if 0 ≤ i then v[i.toNat]? else none

/-- Assignment `v[i] = x` on a `std::vector` for an `int` index; out of range is `none`. -/
def vset {β : Type} (v : List β) (i : Int) (x : β) : Option (List β) :=
  if 0 ≤ i ∧ i.toNat < v.length then some (v.set i.toNat x) else none

/-- Body of the loop of `setWeights(const int)` for index `i`. -/
def setWeightsLayer (nodes : List Nat) (st : List (Mat α) × RNG α) (i : Int) :
    Option (List (Mat α) × RNG α) := do
  let ncols := (← vget nodes (i - 1)) + 1
  let nrows := (← vget nodes i) + 1
  let (w, g) := randn st.2 nrows ncols
  let ws ← vset st.1 i w
  some (ws, g)

/-- Method `MultilayerPerceptron::setWeights(const int startNodes)`, with the generator threaded
through.  The loop runs over `i = 1, …, weightEnd - 2`. -/
def setWeights (m : MultilayerPerceptron α) (g : RNG α) (startNodes : Nat) :
    Option (MultilayerPerceptron α × RNG α) := do
  let mWeights := vresize m.mActivationsTypes.length m.mWeights
  let numWeights : Int := mWeights.length
  let weightEnd : Int := numWeights - 1
  let n0 ← vget m.mNumNodesConfiguration 0
  let (w0, g) := randn g (n0 + 1) startNodes
  let mWeights ← vset mWeights 0 w0
  let (mWeights, g) ←
    ((List.range (weightEnd - 1 - 1).toNat).map fun k => (k : Int) + 1).foldlM
      (setWeightsLayer m.mNumNodesConfiguration) (mWeights, g)
  let nEnd ← vget m.mNumNodesConfiguration weightEnd
  let wPrev ← vget mWeights (weightEnd - 1)
  let (wEnd, g) := randn g nEnd wPrev.rows
  let mWeights ← vset mWeights weightEnd wEnd
  some ({ m with mWeights := mWeights }, g)

/-- Body of the training loop of `_learn`: one call of `learnWeights`, then the mean loss of
`activations.back()`; returns the final `activations`, `weights` and `avg_loss`. -/
def learnIteration (m : MultilayerPerceptron α) (isUMat : Bool) (input target : Mat α)
    (activations weights : List (Mat α)) : Option (List (Mat α) × List (Mat α) × α) := do
  let (activations, weights) ← learnWeights m isUMat input target m.mActivationsTypes
    m.mDropoutWeights activations weights
  let out ← activations.getLast?
  let avg_loss ← computeLoss m.mLoss out target
  some (activations, weights, avg_loss)

/-- The loop `for (it = 0; it < mMaxIterations; ++it)` of `_learn`, by the number of
iterations still allowed; returns the final `weights` and the number of calls of
`learnWeights` made. -/
def learnLoop (m : MultilayerPerceptron α) (isUMat : Bool) (input target : Mat α) :
    Nat → List (Mat α) → List (Mat α) → Option (List (Mat α) × Nat)
  | 0, _, weights => some (weights, 0)
  | n + 1, activations, weights => do
    let (activations, weights, avg_loss) ←
      learnIteration m isUMat input target activations weights
    if avg_loss < m.mEpsilon then some (weights, 1)
    else do
      let (weights, steps) ← learnLoop m isUMat input target n activations weights
      some (weights, steps + 1)

/-- The final loop of `_learn`: `weights[i].copyTo(mWeights[i])` for every `i`. -/
def copyBack (weights mWeights : List (Mat α)) : Option (List (Mat α)) :=
  if weights.length ≤ mWeights.length then some (weights ++ mWeights.drop weights.length)
  else none

/-- Method `MultilayerPerceptron::_learn`; `isUMat` says which instantiation of the template runs.
Returns the model, the generator and the number of calls of `learnWeights`. -/
def _learn (m : MultilayerPerceptron α) (g : RNG α) (isUMat : Bool) (_input labels : Mat α) :
    Option (MultilayerPerceptron α × RNG α × Nat) := do
  let target := labels.t
  let ones : Mat α := Mat.ofFn _input.rows 1 fun _ _ => 1
  let input ← hconcat _input ones
  let input := input.t
  let (m, g) ← setWeights m g input.rows
  let weights := m.mWeights
  let (weights, steps) ← learnLoop m isUMat input target m.mMaxIterations [] weights
  let mWeights ← copyBack weights m.mWeights
  some ({ m with mWeights := mWeights }, g, steps)

/-- Method `MultilayerPerceptron::learn`. -/
def learn (m : MultilayerPerceptron α) (g : RNG α) (_input labels : Mat α) :
    Option (MultilayerPerceptron α × RNG α × Nat) := do
  let m := { m with mIsTrained := false }
  let (m, g, steps) ← _learn m g m.mOpenClEnabled _input labels
  some ({ m with mIsTrained := true }, g, steps)

/-- Method `MultilayerPerceptron::empty`. -/
def MultilayerPerceptron.empty (m : MultilayerPerceptron α) : Bool := m.mWeights.isEmpty

/-- Method `MultilayerPerceptron::isTrained`. -/
def MultilayerPerceptron.isTrained (m : MultilayerPerceptron α) : Bool := m.mIsTrained

/-- Column index that `cv::minMaxIdx(row, nullptr, nullptr, nullptr, maxIdx)` stores in
`maxIdx[1]`: the first position holding the maximum, scanning left to right, and `-1`
for a row without entries.  `best` is the running `(index, value)`. -/
def maxIdxFrom : List α → Nat → Option (Nat × α) → Int
  | [], _, none => -1
  | [], _, some (i, _) => i
  | x :: xs, k, none => maxIdxFrom xs (k + 1) (some (k, x))
  | x :: xs, k, some (i, v) =>
    if v < x then maxIdxFrom xs (k + 1) (some (k, x)) else maxIdxFrom xs (k + 1) (some (i, v))

/-- The labels loop of `predict`: one `maxIdx[1]` per row of `resp`. -/
def argmaxLabels (resp : Mat α) : List Int :=
  (List.range resp.rows).map fun r => maxIdxFrom (resp.data.getD r []) 0 none

/-- Method `MultilayerPerceptron::predict(inp, resp, labels, activations, outputs)`; returns
`(resp, labels, activations, outputs)`. -/
def predictFull (m : MultilayerPerceptron α) (inp : Mat α)
    (activations outputs : List (Mat α)) :
    Option (Mat α × List Int × List (Mat α) × List (Mat α)) := do
  let (outputs, activations) ← doForwardPass m false inp m.mWeights m.mActivationsTypes
    m.mDropoutWeights outputs activations
  let back ← activations.getLast?
  let resp := back.t
  some (resp, argmaxLabels resp, activations, outputs)

/-- Method `MultilayerPerceptron::predict(_inp, resp, labels)`; returns `(resp, labels)`. -/
def predict (m : MultilayerPerceptron α) (_inp : Mat α) : Option (Mat α × List Int) := do
  let ones : Mat α := Mat.ofFn _inp.rows 1 fun _ _ => 1
  let inp ← hconcat _inp ones
  let inp := inp.t
  let (resp, labels, _, _) ← predictFull m inp [] []
  some (resp, labels)

end Model


section Examples

/-- Rational stand-ins for `exp` and `log` (their first-order expansions at `0` and `1`), so
that the embedding runs on rational inputs.  No general theorem depends on them. -/
instance ratExpLog : ExpLog ℚ := ⟨fun x => 1 + x, fun x => x - 1⟩

/-- A model over the rationals with quadratic loss, learning rate `1/10`, threshold `1/100`
and host backend; the remaining members are the arguments. -/
def exampleModel (numLayers : Nat) (activationTypes : List String) (nodes : List Nat)
    (dropoutWeights : List ℚ) (dropouts weights : List (Mat ℚ)) (maxIterations : Nat) :
    MultilayerPerceptron ℚ :=
  { mWeights := weights, mDropouts := dropouts, mNumLayers := numLayers,
    mActivationsTypes := activationTypes, mNumNodesConfiguration := nodes,
    mDropoutWeights := dropoutWeights, mLoss := "quadratic", mLearningRate := 1 / 10,
    mMaxIterations := maxIterations, mEpsilon := 1 / 100, mIsTrained := false,
    mOpenClEnabled := false }

/-- A generator delivering the samples `-1, 0, 1, -1, 0, 1, …`. -/
def exampleRNG : RNG ℚ := ⟨fun n => ((n % 3 : Nat) : ℚ) - 1, 0⟩

/-- Weights of a two-layer example network. -/
def fwdWeights : List (Mat ℚ) := [⟨2, 2, [[1, 2], [-3, 1]]⟩, ⟨1, 2, [[1, 1]]⟩]

/-- A bias-augmented single-sample input. -/
def fwdInput : Mat ℚ := ⟨2, 1, [[1], [1]]⟩

/-- Two layers, `relu` then pass-through, dropout rate `1/2` with a mask on layer `0`. -/
def fwdModel : MultilayerPerceptron ℚ :=
  exampleModel 2 ["relu", ""] [2, 1] [1 / 2, 0] [⟨2, 1, [[1], [0]]⟩] fwdWeights 1

/-- The products `weights[l] * activations[l]` of the forward pass of `fwdModel` on `fwdInput`
(the pre-activations of its two layers), as an `outputs` vector for the backward pass. -/
def fwdOutputs : List (Mat ℚ) := [⟨2, 1, [[3], [-2]]⟩, ⟨1, 1, [[3]]⟩, Mat.empty]

/-- Activations of the forward pass of `fwdModel` on `fwdInput`. -/
def fwdActivations : List (Mat ℚ) := [fwdInput, ⟨2, 1, [[3], [0]]⟩, ⟨1, 1, [[3]]⟩]

/-- Errors that `computeErrors` returns for `fwdModel` against the target `1` on `fwdOutputs`
and `fwdActivations`. -/
def bwdErrors : List (Mat ℚ) := [Mat.empty, ⟨2, 1, [[2], [2]]⟩, ⟨1, 1, [[2]]⟩]

/-- Two pass-through layers with one node each, no dropout, untrained and without weights. -/
def trainModel (maxIterations : Nat) : MultilayerPerceptron ℚ :=
  exampleModel 2 ["", ""] [1, 1] [0, 0] [] [] maxIterations

/-- One training sample with one feature. -/
def trainInput : Mat ℚ := ⟨1, 1, [[1]]⟩

/-- The bias-augmented, transposed `trainInput`. -/
def trainInputAug : Mat ℚ := ⟨2, 1, [[1], [1]]⟩

/-- The weights `setWeights` draws for `trainModel` from `exampleRNG`. -/
def trainWeights : List (Mat ℚ) := [⟨2, 2, [[-1, 0], [1, -1]]⟩, ⟨1, 2, [[0, 1]]⟩]

/-- Three pass-through layers with node counts `2, 2, 1`; `weights` are the matrices the
model holds before `learn`. -/
def threeLayerModel (weights : List (Mat ℚ)) : MultilayerPerceptron ℚ :=
  exampleModel 3 ["", "", ""] [2, 2, 1] [0, 0, 0] [] weights 1

/-- Previously held weights whose middle matrix is the `3 × 3` identity. -/
def staleWeightsA : List (Mat ℚ) :=
  [Mat.empty, ⟨3, 3, [[1, 0, 0], [0, 1, 0], [0, 0, 1]]⟩, Mat.empty]

/-- Previously held weights whose middle matrix is twice the `3 × 3` identity. -/
def staleWeightsB : List (Mat ℚ) :=
  [Mat.empty, ⟨3, 3, [[2, 0, 0], [0, 2, 0], [0, 0, 2]]⟩, Mat.empty]

/-- A single pass-through layer with dropout rate `1/2` and an all-zero mask. -/
def dropoutModel : MultilayerPerceptron ℚ :=
  exampleModel 1 [""] [1] [1 / 2] [⟨1, 1, [[0]]⟩] [⟨1, 2, [[1, 1]]⟩] 1

/-- A single pass-through layer with dropout rate `0`. -/
def noDropoutModel : MultilayerPerceptron ℚ :=
  exampleModel 1 [""] [1] [0] [] [⟨1, 2, [[1, 1]]⟩] 1

end Examples

section SpecDefs

variable {α : Type} [Field α] [LinearOrder α] [ExpLog α]

/-- Layer `l` of a finished forward pass with the shared buffer of the code:
`activations[l + 1]` is the activation of the product `weights[l] * activations[l]`, multiplied
elementwise by the mask `mDropouts[l]` exactly when `0.05 < dropout[l] < 0.8`, and `outputs[l]`
holds that same matrix (not the product). -/
def ForwardLayerShared (m : MultilayerPerceptron α) (isUMat : Bool) (weights : List (Mat α))
    (activationTypes : List String) (dropout : List α) (outputs activations : List (Mat α))
    (l : Nat) : Prop :=
  ∃ W a type d, weights[l]? = some W ∧ activations[l]? = some a ∧
    activationTypes[l]? = some type ∧ dropout[l]? = some d ∧
    outputs[l]? = activations[l + 1]? ∧
    if 0.05 < d ∧ d < 0.8 then
      ∃ mask, m.mDropouts[l]? = some mask ∧
        activations[l + 1]? = some (mask.hadamard (applyActivation type isUMat (W.mul a)))
    else activations[l + 1]? = some (applyActivation type isUMat (W.mul a))

/-- Row count of `activations[l]` in a forward pass: that of the input for `l = 0`, that of
`weights[l - 1]` afterwards. -/
def activationRows (input : Mat α) (weights : List (Mat α)) : Nat → Nat
  | 0 => input.rows
  | l + 1 => (weights[l]?.map fun W => W.rows).getD 0

/-- Compatible shapes for a forward pass over `mNumLayers` layers: every layer has a weight
matrix, an activation kind and a dropout rate, the column count of `weights[l]` is the row
count of `activations[l]`, and a layer with active dropout has a mask of the shape of its
activation. -/
def ForwardCompatible (m : MultilayerPerceptron α) (input : Mat α) (weights : List (Mat α))
    (activationTypes : List String) (dropout : List α) : Prop :=
  ∀ l, l < m.mNumLayers → ∃ W type d, weights[l]? = some W ∧
    activationTypes[l]? = some type ∧ dropout[l]? = some d ∧
    W.cols = activationRows input weights l ∧
    (0.05 < d ∧ d < 0.8 →
      ∃ mask, m.mDropouts[l]? = some mask ∧ mask.rows = W.rows ∧ mask.cols = input.cols)

/-- Row count of `errors[l]` in a backward pass over `L` layers: that of the target for
`l = L`, that of `outputs[l - 1]` below. -/
def errorRows (target : Mat α) (outputs : List (Mat α)) (L l : Nat) : Nat :=
  if l = L then target.rows else (outputs[l - 1]?.map fun o => o.rows).getD 0

/-- Compatible shapes for `computeErrors` over `L = mNumLayers` layers: there are `L + 1`
activations, the loss kind is one of the two implemented, `activations[L]` has the shape of
the target, and for `l` from `L - 1` down to `1` the operands exist, the activation kind of
layer `l - 1` has a derivative (`softmax` has none), `weights[l]` has as many rows as
`errors[l + 1]` and as many columns as `outputs[l - 1]` has rows, and `outputs[l - 1]` has
the column count of the target. -/
def BackwardCompatible (m : MultilayerPerceptron α) (target : Mat α)
    (activationTypes : List String) (weights outputs activations : List (Mat α)) : Prop :=
  activations.length = m.mNumLayers + 1 ∧
  (m.mLoss = "quadratic" ∨ m.mLoss = "log") ∧
  (∃ aL, activations[m.mNumLayers]? = some aL ∧ aL.rows = target.rows ∧
    aL.cols = target.cols) ∧
  ∀ l, 1 ≤ l → l < m.mNumLayers → ∃ W type o, weights[l]? = some W ∧
    activationTypes[l - 1]? = some type ∧ type ≠ "softmax" ∧ outputs[l - 1]? = some o ∧
    W.rows = errorRows target outputs m.mNumLayers (l + 1) ∧ W.cols = o.rows ∧
    o.cols = target.cols

/-- Compatible shapes for `gradientUpdate`: for every `l` in `1..L` the operands exist,
`errors[l]` and `activations[l - 1]` have equally many columns, and `weights[l - 1]` has the
shape of `errors[l] * transpose(activations[l - 1])`. -/
def UpdateCompatible (activations errors weights : List (Mat α)) : Prop :=
  ∀ l, 1 ≤ l → l ≤ weights.length → ∃ W e a, weights[l - 1]? = some W ∧
    errors[l]? = some e ∧ activations[l - 1]? = some a ∧
    e.cols = a.cols ∧ W.rows = e.rows ∧ W.cols = a.rows

/-- The mean loss monitored in iteration `i` of the training loop started from
`(activations, weights)`, when no earlier iteration stops the loop. -/
def lossAt (m : MultilayerPerceptron α) (isUMat : Bool) (input target : Mat α) :
    Nat → List (Mat α) → List (Mat α) → Option α
  | 0, activations, weights =>
    (learnIteration m isUMat input target activations weights).map fun r => r.2.2
  | i + 1, activations, weights => do
    let (activations, weights, _) ← learnIteration m isUMat input target activations weights
    lossAt m isUMat input target i activations weights

/-- The mean loss of the forward output that the given `weights` produce: a forward pass
(with `activations` as the vector passed by reference), then `computeLoss` on
`activations.back()`. -/
def forwardLoss (m : MultilayerPerceptron α) (isUMat : Bool) (input target : Mat α)
    (activations weights : List (Mat α)) : Option α := do
  let (_, activations) ← doForwardPass m isUMat input weights m.mActivationsTypes
    m.mDropoutWeights [] activations
  let out ← activations.getLast?
  computeLoss m.mLoss out target

/-- The mean loss monitored in iteration `i` of `learn m g _input labels`, when no earlier
iteration stops the loop: the set-up of `_learn` followed by `lossAt`. -/
def learnLossAt (m : MultilayerPerceptron α) (g : RNG α) (_input labels : Mat α) (i : Nat) :
    Option α := do
  let input ← hconcat _input (Mat.ofFn _input.rows 1 fun _ _ => 1)
  let (m1, _) ← setWeights { m with mIsTrained := false } g input.t.rows
  lossAt m1 m.mOpenClEnabled input.t labels.t i [] m1.mWeights

/-- The early-exit rule: `steps = min(maxIterations, k + 1)` for the least iteration index
`k < maxIterations` whose loss is strictly below `eps`, and `steps = maxIterations` when
there is no such index. -/
def StepsOK (loss : Nat → Option α) (eps : α) (maxIterations steps : Nat) : Prop :=
  (∃ k, k < maxIterations ∧ (∃ v, loss k = some v ∧ v < eps) ∧
    (∀ j, j < k → ∃ v, loss j = some v ∧ ¬ v < eps) ∧ steps = min maxIterations (k + 1)) ∨
  ((∀ j, j < maxIterations → ∃ v, loss j = some v ∧ ¬ v < eps) ∧ steps = maxIterations)

/-- One layer of a forward pass in which no dropout mask is applied: the body of the loop
of `doForwardPass` without its dropout branch. -/
def forwardLayerNoMask (isUMat : Bool) (weights : List (Mat α))
    (activationTypes : List String) (st : List (Mat α) × List (Mat α)) (l : Nat) :
    Option (List (Mat α) × List (Mat α)) := do
  let w ← weights[l]?
  let a ← st.2[l]?
  let layerResponse ← gemm w a 1 none 0 false false
  let type ← activationTypes[l]?
  let layerResponse := applyActivation type isUMat layerResponse
  some (st.1.set l layerResponse, st.2.set (l + 1) layerResponse)

/-- A forward pass over `numLayers` layers in which no dropout mask is applied to any layer. -/
def forwardPassNoMask (numLayers : Nat) (isUMat : Bool) (input : Mat α)
    (weights : List (Mat α)) (activationTypes : List String)
    (outputs activations : List (Mat α)) : Option (List (Mat α) × List (Mat α)) :=
  (List.range numLayers).foldlM (forwardLayerNoMask isUMat weights activationTypes)
    ((vresize (numLayers + 1) outputs).set 0 input,
      (vresize (numLayers + 1) activations).set 0 input)

/-- The transposed final activation of a finished pass. -/
def responsesOf (pass : Option (List (Mat α) × List (Mat α))) : Option (Mat α) :=
  pass.bind fun p => p.2.getLast?.map Mat.t

end SpecDefs

section Examples2

/-- One pass-through layer whose two output nodes always agree. -/
def tieModel : MultilayerPerceptron ℚ :=
  exampleModel 1 [""] [2] [0] [] [⟨2, 2, [[1, 1], [1, 1]]⟩] 1

/-- Weights of three one-node layers. -/
def boundaryWeights : List (Mat ℚ) := [⟨1, 1, [[2]]⟩, ⟨1, 1, [[3]]⟩, ⟨1, 1, [[5]]⟩]

/-- Three pass-through layers with the dropout rates `0.05`, `0.5` and `0.8` and the mask
`1/2` on every layer. -/
def boundaryModel : MultilayerPerceptron ℚ :=
  exampleModel 3 ["", "", ""] [1, 1, 1] [0.05, 0.5, 0.8]
    [⟨1, 1, [[1 / 2]]⟩, ⟨1, 1, [[1 / 2]]⟩, ⟨1, 1, [[1 / 2]]⟩] boundaryWeights 1

end Examples2

section RealInstance

/-- The real exponential and natural logarithm, for statements about the functions that
the activations compute. -/
noncomputable instance realExpLog : ExpLog ℝ := ⟨Real.exp, Real.log⟩

end RealInstance

section Examples3

/-- The model `trainModel 1` with a third entry in the node-count list: the activation-kind
and dropout-rate lists have length `2`, the node-count list has length `3`. -/
def longNodeListModel : MultilayerPerceptron ℚ :=
  exampleModel 2 ["", ""] [1, 1, 7] [0, 0] [] [] 1

/-- The model `trainModel 1` with a single dropout rate against two activation kinds. -/
def shortDropoutModel : MultilayerPerceptron ℚ :=
  exampleModel 2 ["", ""] [1, 1] [0] [] [] 1

end Examples3

section Copy

variable {α : Type}

/-- The copy constructor `MultilayerPerceptron(const MultilayerPerceptron& rhs)`.  Its body is
empty and it has no member initialiser list, so no member is taken from `rhs`: the new object
is the default-initialised one.  The class declaration with the default member initialisers
is not among the sources, so that object is the parameter `init`. -/
def copyConstruct (init : MultilayerPerceptron α) (_rhs : MultilayerPerceptron α) :
    MultilayerPerceptron α := init

/-- Method `MultilayerPerceptron::clone`: `new MultilayerPerceptron(*this)`. -/
def MultilayerPerceptron.clone (init : MultilayerPerceptron α) (m : MultilayerPerceptron α) :
    MultilayerPerceptron α := copyConstruct init m

end Copy

section Persistence

variable {α : Type}

/-- A node of the tree a `cv::FileStorage` holds: absent (`FileNode()`), an integer, a real,
a string, a matrix (the user object `opencv-matrix`), a sequence, or a map from element names
to nodes. -/
inductive FileNode (α : Type) where
  /-- The node `FileNode()` that a failed lookup returns. -/
  | empty : FileNode α
  /-- An integer scalar. -/
  | int (i : Int) : FileNode α
  /-- A real scalar. -/
  | real (f : α) : FileNode α
  /-- A string. -/
  | str (s : String) : FileNode α
  /-- A stored matrix. -/
  | mat (m : Mat α) : FileNode α
  /-- A sequence ("[" … "]"). -/
  | seq (elems : List (FileNode α)) : FileNode α
  /-- A map ("{" … "}") with its entries in the order written. -/
  | map (entries : List (String × FileNode α)) : FileNode α

/-- Lookup `node[key]` (`FileNode::operator[](const String&)`): the entry of a map with that
name, and the absent node when there is none.  Only lookups in maps occur in `read`; on any
other node the result is taken to be the absent node. -/
def FileNode.getKey (n : FileNode α) (key : String) : FileNode α :=
  match n with
  | .map entries => (entries.lookup key).getD .empty
  | _ => .empty

/-- Method `FileNode::size`: the number of elements of a collection, `0` for the absent node
and `1` for a scalar. -/
def FileNode.size : FileNode α → Nat
  | .empty => 0
  | .seq elems => elems.length
  | .map entries => entries.length
  | _ => 1

/-- Lookup `node[i]` (`FileNode::operator[](int)`): element `i` of a sequence; on any other
node the node itself for `i = 0` and the absent node otherwise. -/
def FileNode.getIdx (n : FileNode α) (i : Nat) : FileNode α :=
  match n with
  | .seq elems => elems.getD i .empty
  | _ => if i = 0 then n else .empty

/-- The nodes a `FileNodeIterator` over `n` visits: the elements of a collection, nothing for
the absent node, the node itself for a scalar. -/
def FileNode.elems : FileNode α → List (FileNode α)
  | .empty => []
  | .seq elems => elems
  | .map entries => entries.map fun e => e.2
  | n => [n]

/-- Reading `node >> value` into an `int`: `0` for the absent node, the rounded value
(`cvRound`, supplied by the caller of the model) of a real, `INT_MAX` for any other kind. -/
def readInt (cvRound : α → Int) : FileNode α → Int
  | .empty => 0
  | .int i => i
  | .real f => cvRound f
  | _ => 2147483647

/-- Reading `node >> value` into a `float`: `0` for the absent node, `1e30` for a node that
is not a number. -/
def readReal [Field α] : FileNode α → α
  | .empty => 0
  | .int i => (i : α)
  | .real f => f
  | _ => 1000000000000000000000000000000

/-- Reading `node >> value` into a string: empty unless the node is a string. -/
def readString : FileNode α → String
  | .str s => s
  | _ => ""

/-- Reading `node >> mat`: the default (empty) matrix for the absent node, the stored matrix
for a matrix node, an error for any other node. -/
def readMat : FileNode α → Option (Mat α)
  | .empty => some Mat.empty
  | .mat m => some m
  | _ => none

/-- The state of a `cv::FileStorage` opened for writing: the structures opened with "{" and
not yet closed (innermost first, each with its name and the entries written so far) and the
entries of the top-level map. -/
structure FileStorage (α : Type) where
  /-- Open structures, innermost first. -/
  structs : List (String × List (String × FileNode α))
  /-- Entries of the top-level map. -/
  top : List (String × FileNode α)

/-- Statement `fs << name << value`: the value is appended, under that name, to the innermost
open structure, or to the top-level map when none is open. -/
def FileStorage.writeNode (fs : FileStorage α) (name : String) (value : FileNode α) :
    FileStorage α :=
  match fs.structs with
  | [] => { fs with top := fs.top ++ [(name, value)] }
  | (n, es) :: rest => { fs with structs := (n, es ++ [(name, value)]) :: rest }

/-- Statement `fs << name << "{"` (`cvStartWriteStruct`): a map of that name is opened inside
the current structure. -/
def FileStorage.startWriteStruct (fs : FileStorage α) (name : String) : FileStorage α :=
  { fs with structs := (name, []) :: fs.structs }

/-- Call `cvEndWriteStruct` (`fs << "}"`): the innermost open structure is closed and becomes
an entry of the structure around it. -/
def FileStorage.endWriteStruct (fs : FileStorage α) : FileStorage α :=
  match fs.structs with
  | [] => fs
  | (n, es) :: rest =>
    FileStorage.writeNode { fs with structs := rest } n (.map es)

/-- The loop `while (write_stack->total > 0) cvEndWriteStruct(fs)` run when a storage is
released, by the number of structures still open. -/
def FileStorage.closeAll : Nat → FileStorage α → FileStorage α
  | 0, fs => fs
  | k + 1, fs => FileStorage.closeAll k fs.endWriteStruct

/-- Method `FileStorage::release` followed by reopening for reading: every structure still
open is closed, and the root node is the top-level map. -/
def FileStorage.release (fs : FileStorage α) : FileNode α :=
  .map (FileStorage.closeAll fs.structs.length fs).top

/-- Method `MultilayerPerceptron::write`.  The map opened by `fs << "weights" << "{"` is not
closed by the method, so everything written after it goes into that map. -/
def write (m : MultilayerPerceptron α) (fs : FileStorage α) : FileStorage α :=
  let numWeights := m.mWeights.length
  let fs := fs.writeNode "numWeights" (.int (numWeights : Int))
  let fs := fs.startWriteStruct "weights"
  let fs := (List.range numWeights).foldl
    (fun fs i => FileStorage.writeNode fs ("weight_" ++ toString i)
      (.mat (m.mWeights.getD i Mat.empty))) fs
  let fs := fs.writeNode "numLayers" (.int (m.mNumLayers : Int))
  let fs := fs.writeNode "activations" (.seq (m.mActivationsTypes.map .str))
  let fs := fs.writeNode "learningRate" (.real m.mLearningRate)
  let fs := fs.writeNode "numNodesConfig"
    (.seq (m.mNumNodesConfiguration.map fun (n : Nat) => .int (n : Int)))
  let fs := fs.writeNode "dropoutWeights" (.seq (m.mDropoutWeights.map .real))
  let fs := fs.writeNode "dropouts" (.seq (m.mDropouts.map .mat))
  fs.writeNode "loss" (.str m.mLoss)

/-- Body of the loop of `read` over the weights: `node["weight_" + to_string(i)] >> mWeights[i]`. -/
def readWeight (node : FileNode α) (ws : List (Mat α)) (i : Nat) : Option (List (Mat α)) := do
  let w ← readMat (node.getKey ("weight_" ++ toString i))
  some (ws.set i w)

/-- Method `MultilayerPerceptron::read` on the object `r`; `cvRound` is the rounding OpenCV
applies when an `int` is read from a real node.  A negative `numWeights` makes
`mWeights.resize` fail. -/
def read [Field α] (cvRound : α → Int) (r : MultilayerPerceptron α) (fn : FileNode α) :
    Option (MultilayerPerceptron α) :=
  let numWeights := readInt cvRound (fn.getKey "numWeights")
  let node := fn.getKey "weights"
  if numWeights < 0 then none
  else do
    let mWeights ← (List.range numWeights.toNat).foldlM (readWeight node)
      (vresize numWeights.toNat r.mWeights)
    let mNumLayers := readInt cvRound (fn.getKey "numLayers")
    let node := fn.getKey "activations"
    let len := node.size
    let mActivationsTypes := (List.range len).foldl
      (fun v i => v.set i (readString (node.getIdx i)))
      (r.mActivationsTypes.take len ++ List.replicate (len - r.mActivationsTypes.length) "")
    let mLearningRate := readReal (fn.getKey "learningRate")
    let mNumNodesConfiguration :=
      (fn.getKey "numNodesConfig").elems.map fun e => (readInt cvRound e).toNat
    let mDropoutWeights := (fn.getKey "dropoutWeights").elems.map readReal
    let mDropouts ← (fn.getKey "dropouts").elems.mapM readMat
    let mLoss := readString (fn.getKey "loss")
    some { r with
      mWeights := mWeights, mNumLayers := mNumLayers.toNat,
      mActivationsTypes := mActivationsTypes, mLearningRate := mLearningRate,
      mNumNodesConfiguration := mNumNodesConfiguration,
      mDropoutWeights := mDropoutWeights, mDropouts := mDropouts, mLoss := mLoss }

/-- The node tree that `write` leaves in a storage opened empty and then released. -/
def writtenTree (m : MultilayerPerceptron α) : FileNode α :=
  (write m ⟨[], []⟩).release

/-- The object `read` leaves after a round trip through `write`, as the source produces it:
the weights of the written model, and defaults for every member that `read` looks up at the
top level of the tree. -/
def roundTrip [Field α] (r m : MultilayerPerceptron α) : MultilayerPerceptron α :=
  { r with
    mWeights := m.mWeights, mNumLayers := 0, mActivationsTypes := [],
    mLearningRate := 0, mNumNodesConfiguration := [], mDropoutWeights := [],
    mDropouts := [], mLoss := "" }

end Persistence

section Examples4

/-- A model without weights, layers or lists, standing for the object `read` fills. -/
def freshModel : MultilayerPerceptron ℚ := exampleModel 0 [] [] [] [] [] 0

end Examples4

section ResultsModel

/-- Assignment `m[k] = v` on a `std::unordered_map<int, int>`, held as a list of key–value
pairs with distinct keys (the iteration order of the map is not used). -/
def umapSet (mp : List (Int × Nat)) (k : Int) (v : Nat) : List (Int × Nat) :=
  (k, v) :: mp.filter fun e => !(e.1 == k)

/-- Read access `m[k]` on a `std::unordered_map<int, int>`: the stored value, and `0` (the
value-initialised entry `operator[]` creates) when the key is absent. -/
def umapGet (mp : List (Int × Nat)) (k : Int) : Nat :=
  (mp.lookup k).getD 0

/-- Algorithm `std::unique` on a vector of `int`: of every run of equal neighbours one element
is kept. -/
def unique : List Int → List Int
  | [] => []
  | [x] => [x]
  | x :: y :: rest => if x = y then unique (y :: rest) else x :: unique (y :: rest)

/-- Method `Results::computeLabelsVec`: the labels of both column vectors are collected,
sorted increasingly (`std::sort` with `a < b`), stripped of duplicates (`std::unique` and
`erase`), and `labelsMap[labelsVec[i]] = i` is stored for every position `i`. -/
def computeLabelsVec (labelMat gtLabelMat : List Int) (labelsMap : List (Int × Nat)) :
    List (Int × Nat) :=
  let labelsVec := labelMat ++ gtLabelMat
  let labelsVec := labelsVec.insertionSort (· ≤ ·)
  let labelsVec := unique labelsVec
  (List.range labelsVec.length).foldl (fun mp i => umapSet mp (labelsVec.getD i 0) i) labelsMap

/-- Statement `confusionMatrix[r][c] += 1`; an index outside the matrix is an error. -/
def increment (confusionMatrix : Mat Int) (r c : Nat) : Option (Mat Int) :=
  if r < confusionMatrix.rows ∧ c < confusionMatrix.cols then
    some (Mat.ofFn confusionMatrix.rows confusionMatrix.cols fun i j =>
      if i = r ∧ j = c then confusionMatrix.get i j + 1 else confusionMatrix.get i j)
  else none

/-- Body of the loop of `Results::compute` for position `i`; reading past the end of `labels`
is an error. -/
def computeStep (groundTruth labels : List Int) (labelsVec : List (Int × Nat))
    (confusionMatrix : Mat Int) (i : Nat) : Option (Mat Int) := do
  let value ← labels[i]?
  let gt ← groundTruth[i]?
  increment confusionMatrix (umapGet labelsVec gt) (umapGet labelsVec value)

/-- Method `Results::compute`; returns the label map and the confusion matrix. -/
def compute (groundTruth labels : List Int) (labelsVec : List (Int × Nat)) :
    Option (List (Int × Nat) × Mat Int) := do
  let labelsVec := computeLabelsVec labels groundTruth labelsVec
  let len := labelsVec.length
  let confusionMatrix : Mat Int := Mat.ofFn len len fun _ _ => 0
  let confusionMatrix ← (List.range groundTruth.length).foldlM
    (computeStep groundTruth labels labelsVec) confusionMatrix
  some (labelsVec, confusionMatrix)

/-- The data members of `ssig::Results` that `results.cpp` uses for the confusion matrix; the
label vectors are column vectors of `int`. -/
structure Results where
  /-- Expected labels. -/
  mGroundTruth : List Int
  /-- Predicted labels. -/
  mLabels : List Int
  /-- Label to row/column index. -/
  mLabelMap : List (Int × Nat)
  /-- The confusion matrix, empty until computed. -/
  mConfusionMatrix : Mat Int

/-- Constructor `Results(actualLabels, expectedLabels)`. -/
def Results.create (actualLabels expectedLabels : List Int) : Results :=
  { mGroundTruth := expectedLabels, mLabels := actualLabels, mLabelMap := [],
    mConfusionMatrix := Mat.empty }

/-- Method `cv::Mat::empty`. -/
def Mat.isEmpty {α : Type} (m : Mat α) : Bool := m.rows == 0 || m.cols == 0

/-- Function `cv::trace`: the sum of the diagonal entries. -/
def Mat.trace (m : Mat Int) : Int := sumTo (min m.rows m.cols) fun i => m.get i i

/-- The guard `if (mConfusionMatrix.empty()) compute(...)` that opens `getAccuracy` and
`getConfusionMatrix`. -/
def Results.ensureComputed (r : Results) : Option Results :=
  if r.mConfusionMatrix.isEmpty then do
    let (labelMap, confusionMatrix) ← compute r.mGroundTruth r.mLabels r.mLabelMap
    some { r with mLabelMap := labelMap, mConfusionMatrix := confusionMatrix }
  else some r

/-- Method `Results::getAccuracy`; returns the value and the object with its cached matrix.
The quotient `accrcy / cv::sum(...)` is the division of `cv::Scalar`, `a * (1 / b)` with
`1 / b = b.conj() * (1 / (b[0]² + b[1]² + b[2]² + b[3]²))`; only the components `[0]` are
non-zero here, so component `[0]` of the result is `a[0] * (b[0] * (1 / (b[0] * b[0])))`. -/
def Results.getAccuracy {α : Type} [Field α] (r : Results) : Option (α × Results) := do
  let r ← r.ensureComputed
  let accrcy : α := ((r.mConfusionMatrix.trace : Int) : α)
  let total : α := ((r.mConfusionMatrix.sum : Int) : α)
  some (accrcy * (total * (1 / (total * total))), r)

/-- Method `Results::getConfusionMatrix`; returns the matrix and the object with its cached
matrix. -/
def Results.getConfusionMatrix (r : Results) : Option (Mat Int × Results) := do
  let r ← r.ensureComputed
  some (r.mConfusionMatrix, r)

end ResultsModel

section ResultsSpec

/-- The number of positions `i < n` at which `p` holds. -/
def countPositions (n : Nat) (p : Nat → Bool) : Nat := (List.range n).countP p

end ResultsSpec

section LogLossGuards

variable {α : Type} [Field α]

end LogLossGuards

section Examples5

/-- A single pass-through layer with one node, no dropout and no weights yet. -/
def singleLayerModel : MultilayerPerceptron ℚ := exampleModel 1 [""] [1] [0] [] [] 1

end Examples5

section ResultsMean

variable {α : Type} [Field α] [LinearOrder α]

/-- Body of the loop of `Results::getMeanAccuracy` for row `r`: the class accuracy
`mConfusionMatrix(r, r) / sum(row r)` is added to `ans` when `r < ncols` and the row sum is
positive, and `0` otherwise. -/
def meanAccuracyStep (confusionMatrix : Mat Int) (ans : α) (r : Nat) : α :=
  let ncols := confusionMatrix.cols
  let accuracy : α :=
    if r < ncols then
      let sum : α := ((sumTo ncols fun c => confusionMatrix.get r c : Int) : α)
      if 0 < sum then ((confusionMatrix.get r r : Int) : α) / sum else 0
    else 0
  ans + accuracy

/-- Method `Results::getMeanAccuracy`.  The method reads the cached confusion matrix as it
is, without the guard `if (mConfusionMatrix.empty()) compute(...)` of `getAccuracy`.  The
final quotient `ans / mConfusionMatrix.rows` of a matrix without rows is `0.f / 0`, which is
not a number: `none`. -/
def Results.getMeanAccuracy (r : Results) : Option α :=
  let ans : α := (List.range r.mConfusionMatrix.rows).foldl
    (meanAccuracyStep r.mConfusionMatrix) 0
  if r.mConfusionMatrix.rows = 0 then none
  else some (ans / (r.mConfusionMatrix.rows : α))

end ResultsMean

section CrossValidation

/-- Body of the loop over the samples in `Results::crossValidation`, on the state
`(test, train, testIndex)`: sample `i` is pushed to `test` when
`testIndex < foldOrdering.rows && i == foldOrdering.at<int>(testIndex)` and to `train`
otherwise.  The rows pushed are recorded by their sample index. -/
def foldStep (foldOrdering : List Nat) (st : List Nat × List Nat × Nat) (i : Nat) :
    List Nat × List Nat × Nat :=
  if st.2.2 < foldOrdering.length ∧ foldOrdering[st.2.2]? = some i then
    (st.1 ++ [i], st.2.1, st.2.2 + 1)
  else (st.1, st.2.1 ++ [i], st.2.2)

/-- The loop `for (i = 0; i < len; ++i)` of one fold; returns `(test, train)`. -/
def splitFold (len : Nat) (foldOrdering : List Nat) : List Nat × List Nat :=
  let st := (List.range len).foldl (foldStep foldOrdering) ([], [], 0)
  (st.1, st.2.1)

/-- The partition that `Results::crossValidation` builds for fold number `fold`; `ordering`
is the vector `0, …, len - 1` after `cv::randShuffle`.  `foldLen` is
`static_cast<int>(len / static_cast<float>(nfolds))`, the integer quotient (for sample counts
that single precision holds exactly); the rows `offset … offset + foldLen - 1` of `ordering`
are cloned and sorted increasingly (`cv::sort`), and a row range outside `ordering` is an
error. -/
def crossValidationFold (len nfolds : Nat) (ordering : List Nat) (fold : Nat) :
    Option (List Nat × List Nat) :=
  if nfolds = 0 then none
  else
    let foldLen := len / nfolds
    let offset := foldLen * fold
    if foldLen + offset ≤ ordering.length then
      let foldOrdering := ((ordering.drop offset).take foldLen).insertionSort (· ≤ ·)
      some (splitFold len foldOrdering)
    else none

end CrossValidation

section GradientSpec

end GradientSpec

section ValueSemantics

variable {α : Type} [Field α] [LinearOrder α] [ExpLog α]

/-- The body of the loop of `doForwardPass` read with value semantics, as the gradient claim
stipulates: every matrix assignment copies the data, so `outputs[l]` keeps the product
`weights[l] * activations[l]` that `cv::gemm` delivered, and only `activations[l + 1]` receives
the activation (and the mask).  It differs from `forwardLayer` in the value stored in
`outputs[l]` only. -/
def forwardLayerByValue (m : MultilayerPerceptron α) (isUMat : Bool) (weights : List (Mat α))
    (activationTypes : List String) (dropout : List α)
    (st : List (Mat α) × List (Mat α)) (l : Nat) : Option (List (Mat α) × List (Mat α)) := do
  let w ← weights[l]?
  let a ← st.2[l]?
  let layerResponse ← gemm w a 1 none 0 false false
  let outputs := st.1.set l layerResponse
  let type ← activationTypes[l]?
  let layerResponse := applyActivation type isUMat layerResponse
  let d ← dropout[l]?
  let layerResponse ←
    if 0.05 < d ∧ d < 0.8 then do
      let mask ← m.mDropouts[l]?
      multiply mask layerResponse
    else some layerResponse
  some (outputs, st.2.set (l + 1) layerResponse)

/-- Method `doForwardPass` read with value semantics: the loop of `doForwardPass` over
`forwardLayerByValue`. -/
def doForwardPassByValue (m : MultilayerPerceptron α) (isUMat : Bool) (input : Mat α)
    (weights : List (Mat α)) (activationTypes : List String) (dropout : List α)
    (outputs activations : List (Mat α)) : Option (List (Mat α) × List (Mat α)) :=
  let numLayers := m.mNumLayers
  let outputs := (vresize (numLayers + 1) outputs).set 0 input
  let activations := (vresize (numLayers + 1) activations).set 0 input
  (List.range numLayers).foldlM (forwardLayerByValue m isUMat weights activationTypes dropout)
    (outputs, activations)

/-- Method `learnWeights` read with value semantics: the forward pass is
`doForwardPassByValue`; `computeErrors` and `gradientUpdate` are those of the code. -/
def learnWeightsByValue (m : MultilayerPerceptron α) (isUMat : Bool) (inputs labels : Mat α)
    (activationTypes : List String) (dropout : List α)
    (activations weights : List (Mat α)) : Option (List (Mat α) × List (Mat α)) :=
  let numLayers := weights.length + 1
  if weights.length = numLayers - 1 ∧ activationTypes.length = numLayers - 1
      ∧ dropout.length = numLayers - 1 then do
    let (net_out, activations) ←
      doForwardPassByValue m isUMat inputs weights activationTypes dropout [] activations
    let errors ← computeErrors m labels activationTypes weights net_out activations []
    let weights ← gradientUpdate m.mLearningRate activations errors weights
    some (activations, weights)
  else none

end ValueSemantics

section MatLemmas

variable {α : Type}

theorem Mat.ofFn_rows (r c : Nat) (f : Nat → Nat → α) : (Mat.ofFn r c f).rows = r := rfl

theorem Mat.ofFn_cols (r c : Nat) (f : Nat → Nat → α) : (Mat.ofFn r c f).cols = c := rfl

theorem Mat.get_ofFn [Zero α] (r c : Nat) (f : Nat → Nat → α) {i j : Nat}
    (hi : i < r) (hj : j < c) : (Mat.ofFn r c f).get i j = f i j := by
  simp [Mat.get, Mat.ofFn, List.getD, hi, hj]

theorem Mat.ofFn_ext (r c : Nat) (f g : Nat → Nat → α)
    (h : ∀ i j, i < r → j < c → f i j = g i j) : Mat.ofFn r c f = Mat.ofFn r c g := by
  unfold Mat.ofFn
  congr 1
  apply List.map_congr_left
  intro i hi
  apply List.map_congr_left
  intro j hj
  exact h i j (List.mem_range.mp hi) (List.mem_range.mp hj)

theorem Mat.map_ofFn [Zero α] (g : α → α) (r c : Nat) (f : Nat → Nat → α) :
    Mat.map g (Mat.ofFn r c f) = Mat.ofFn r c fun i j => g (f i j) := by
  unfold Mat.map
  apply Mat.ofFn_ext
  intro i j hi hj
  rw [Mat.get_ofFn r c f hi hj]

theorem Mat.map_one_mul_mul [Field α] (a b : Mat α) :
    Mat.map (fun x => 1 * x) (a.mul b) = a.mul b := by
  unfold Mat.mul
  rw [Mat.map_ofFn]
  apply Mat.ofFn_ext
  intro i j _ _
  simp

theorem gemm_plain [Field α] {w a x : Mat α}
    (h : gemm w a 1 none 0 false false = some x) : x = w.mul a := by
  unfold gemm at h
  simp only [Bool.false_eq_true, if_false] at h
  split at h
  · simp only [Option.some.injEq] at h
    rw [← h, Mat.map_one_mul_mul]
  · simp at h

theorem gemm_1_T [Field α] {w e x : Mat α}
    (h : gemm w e 1 none 0 true false = some x) : x = w.t.mul e := by
  unfold gemm at h
  simp only [Bool.false_eq_true, if_false, if_true] at h
  split at h
  · simp only [Option.some.injEq] at h
    rw [← h, Mat.map_one_mul_mul]
  · simp at h

theorem gemm_2_T [Field α] {e a x : Mat α}
    (h : gemm e a 1 none 1 false true = some x) : x = e.mul a.t := by
  unfold gemm at h
  simp only [Bool.false_eq_true, if_false, if_true] at h
  split at h
  · simp only [Option.some.injEq] at h
    rw [← h, Mat.map_one_mul_mul]
  · simp at h

theorem multiply_eq [Field α] {a b x : Mat α} (h : multiply a b = some x) :
    x = a.hadamard b := by
  unfold multiply at h
  split at h
  · simp only [Option.some.injEq] at h
    exact h.symm
  · simp at h

theorem vresize_length (n : Nat) (v : List (Mat α)) : (vresize n v).length = n := by
  simp [vresize]
  omega

end MatLemmas

section Forward

variable {α : Type} [Field α] [LinearOrder α] [ExpLog α]

theorem forwardLayer_spec {m : MultilayerPerceptron α} {isUMat : Bool}
    {weights : List (Mat α)} {activationTypes : List String} {dropout : List α}
    {st st1 : List (Mat α) × List (Mat α)} {l : Nat}
    (h : forwardLayer m isUMat weights activationTypes dropout st l = some st1) :
    ∃ W a type d r, weights[l]? = some W ∧ st.2[l]? = some a ∧
      activationTypes[l]? = some type ∧ dropout[l]? = some d ∧
      st1 = (st.1.set l r, st.2.set (l + 1) r) ∧
      if 0.05 < d ∧ d < 0.8 then
        ∃ mask, m.mDropouts[l]? = some mask ∧
          r = mask.hadamard (applyActivation type isUMat (W.mul a))
      else r = applyActivation type isUMat (W.mul a) := by
  unfold forwardLayer at h
  simp only [Option.bind_eq_bind] at h
  obtain ⟨W, hW, h⟩ := Option.bind_eq_some.mp h
  obtain ⟨a, ha, h⟩ := Option.bind_eq_some.mp h
  obtain ⟨x, hx, h⟩ := Option.bind_eq_some.mp h
  obtain ⟨ty, hty, h⟩ := Option.bind_eq_some.mp h
  obtain ⟨d, hd, h⟩ := Option.bind_eq_some.mp h
  have hx2 := gemm_plain hx
  subst hx2
  by_cases hc : 0.05 < d ∧ d < 0.8
  · rw [if_pos hc] at h
    obtain ⟨mask, hmask, h⟩ := Option.bind_eq_some.mp h
    obtain ⟨r, hr, hst⟩ := Option.bind_eq_some.mp h
    refine ⟨W, a, ty, d, r, hW, ha, hty, hd, ?_, ?_⟩
    · simpa using hst.symm
    · rw [if_pos hc]
      exact ⟨mask, hmask, multiply_eq hr⟩
  · rw [if_neg hc] at h
    refine ⟨W, a, ty, d, applyActivation ty isUMat (W.mul a), hW, ha, hty, hd, ?_, ?_⟩
    · simpa using h.symm
    · rw [if_neg hc]

theorem forward_fold_inv (m : MultilayerPerceptron α) (isUMat : Bool)
    (weights : List (Mat α)) (activationTypes : List String) (dropout : List α)
    (N : Nat) (init : List (Mat α) × List (Mat α))
    (hlo : init.1.length = N + 1) (hla : init.2.length = N + 1) :
    ∀ n, n ≤ N → ∀ st,
      (List.range n).foldlM (forwardLayer m isUMat weights activationTypes dropout) init
        = some st →
      st.1.length = N + 1 ∧ st.2.length = N + 1 ∧ st.2[0]? = init.2[0]? ∧
      (∀ k, n ≤ k → st.1[k]? = init.1[k]?) ∧
      ∀ l, l < n → ForwardLayerShared m isUMat weights activationTypes dropout st.1 st.2 l := by
  intro n
  induction n with
  | zero =>
    intro _ st h
    simp only [List.range_zero, List.foldlM_nil, Option.pure_def, Option.some.injEq] at h
    subst h
    exact ⟨hlo, hla, rfl, fun _ _ => rfl, fun l hl => absurd hl (Nat.not_lt_zero l)⟩
  | succ n ih =>
    intro hn st h
    rw [List.range_succ, List.foldlM_append] at h
    simp only [Option.bind_eq_bind, Option.bind_eq_some, List.foldlM_cons, List.foldlM_nil,
      Option.pure_def] at h
    obtain ⟨mid, hmid, st1, hstep, hst⟩ := h
    simp only [Option.some.injEq] at hst
    subst hst
    obtain ⟨h1, h2, h0, hk, hl⟩ := ih (by omega) mid hmid
    obtain ⟨W, a, ty, d, r, hW, ha, hty, hd, hst1, hr⟩ := forwardLayer_spec hstep
    subst hst1
    refine ⟨by simpa using h1, by simpa using h2, ?_, ?_, ?_⟩
    · simp only [List.getElem?_set]
      simpa using h0
    · intro k hk2
      simp only [List.getElem?_set]
      rw [if_neg (by omega)]
      exact hk k (by omega)
    · intro l hl2
      by_cases hln : l = n
      · subst hln
        refine ⟨W, a, ty, d, hW, ?_, hty, hd, ?_, ?_⟩
        · simp only [List.getElem?_set]
          rw [if_neg (by omega)]
          exact ha
        · simp only [List.getElem?_set]
          simp only [↓reduceIte]
          rw [if_pos (by omega), if_pos (by omega)]
        · have hlen : l + 1 < mid.2.length := by omega
          by_cases hc : 0.05 < d ∧ d < 0.8
          · rw [if_pos hc] at hr ⊢
            obtain ⟨mask, hmask, hreq⟩ := hr
            refine ⟨mask, hmask, ?_⟩
            simp only [List.getElem?_set]
            simp only [↓reduceIte]
            rw [if_pos hlen, hreq]
          · rw [if_neg hc] at hr ⊢
            simp only [List.getElem?_set]
            simp only [↓reduceIte]
            rw [if_pos hlen, hr]
      · have hlt : l < n := by omega
        obtain ⟨W2, a2, ty2, d2, hW2, ha2, hty2, hd2, ho2, hact2⟩ := hl l hlt
        refine ⟨W2, a2, ty2, d2, hW2, ?_, hty2, hd2, ?_, ?_⟩
        · simp only [List.getElem?_set]
          rw [if_neg (by omega)]
          exact ha2
        · simp only [List.getElem?_set]
          rw [if_neg (by omega), if_neg (by omega)]
          exact ho2
        · by_cases hc : 0.05 < d2 ∧ d2 < 0.8
          · rw [if_pos hc] at hact2 ⊢
            obtain ⟨mask, hmask, hreq⟩ := hact2
            refine ⟨mask, hmask, ?_⟩
            simp only [List.getElem?_set]
            rw [if_neg (by omega)]
            exact hreq
          · rw [if_neg hc] at hact2 ⊢
            simp only [List.getElem?_set]
            rw [if_neg (by omega)]
            exact hact2

end Forward

section Backward

variable {α : Type} [Field α] [LinearOrder α] [ExpLog α]

theorem errorLayer_spec {activationTypes : List String} {weights outputs errors res : List (Mat α)}
    {L : Nat} (h : errorLayer activationTypes weights outputs errors L = some res) :
    ∃ W e type o, weights[L]? = some W ∧ errors[L + 1]? = some e ∧
      activationTypes[L - 1]? = some type ∧ outputs[L - 1]? = some o ∧ L < errors.length ∧
      res = errors.set L ((W.t.mul e).hadamard (applyDerivative type o Mat.empty)) := by
  unfold errorLayer at h
  simp only [Option.bind_eq_bind] at h
  obtain ⟨W, hW, h⟩ := Option.bind_eq_some.mp h
  obtain ⟨e, he, h⟩ := Option.bind_eq_some.mp h
  obtain ⟨aux, haux, h⟩ := Option.bind_eq_some.mp h
  obtain ⟨ty, hty, h⟩ := Option.bind_eq_some.mp h
  obtain ⟨o, ho, h⟩ := Option.bind_eq_some.mp h
  obtain ⟨eL, heL, h⟩ := Option.bind_eq_some.mp h
  have h1 := gemm_1_T haux
  have h2 := multiply_eq heL
  subst h1
  subst h2
  by_cases hlt : L < errors.length
  · rw [if_pos hlt] at h
    exact ⟨W, e, ty, o, hW, he, hty, ho, hlt, by simpa using h.symm⟩
  · rw [if_neg hlt] at h
    simp at h

theorem errorLoop_inv (activationTypes : List String) (weights outputs : List (Mat α)) :
    ∀ (n : Nat) (errors res : List (Mat α)),
      errorLoop activationTypes weights outputs n errors = some res →
      res.length = errors.length ∧ res[0]? = errors[0]? ∧
      (∀ k, n < k → res[k]? = errors[k]?) ∧
      ∀ l, 1 ≤ l → l ≤ n → ∃ W e type o, weights[l]? = some W ∧ res[l + 1]? = some e ∧
        activationTypes[l - 1]? = some type ∧ outputs[l - 1]? = some o ∧
        res[l]? = some ((W.t.mul e).hadamard (applyDerivative type o Mat.empty)) := by
  intro n
  induction n with
  | zero =>
    intro errors res h
    simp only [errorLoop, Option.some.injEq] at h
    subst h
    exact ⟨rfl, rfl, fun _ _ => rfl, fun l h1 h0 => absurd h1 (by omega)⟩
  | succ n ih =>
    intro errors res h
    simp only [errorLoop, Option.bind_eq_bind] at h
    obtain ⟨mid, hmid, hres⟩ := Option.bind_eq_some.mp h
    obtain ⟨W, e, ty, o, hW, he, hty, ho, hlt, hset⟩ := errorLayer_spec hmid
    obtain ⟨hlen, h0, hk, hl⟩ := ih mid res hres
    subst hset
    refine ⟨by simpa using hlen, ?_, ?_, ?_⟩
    · rw [h0, List.getElem?_set]
      rw [if_neg (by omega)]
    · intro k hk2
      rw [hk k (by omega), List.getElem?_set]
      rw [if_neg (by omega)]
    · intro l h1 h2
      by_cases hln : l = n + 1
      · subst hln
        refine ⟨W, e, ty, o, hW, ?_, hty, ho, ?_⟩
        · rw [hk (n + 1 + 1) (by omega), List.getElem?_set]
          rw [if_neg (by omega)]
          exact he
        · rw [hk (n + 1) (by omega), List.getElem?_set]
          simp only [↓reduceIte]
          rw [if_pos hlt]
      · exact hl l h1 (by omega)

theorem getLast?_of_length {β : Type} (l : List β) (n : Nat) (h : l.length = n + 1) :
    l.getLast? = l[n]? := by
  rw [List.getLast?_eq_getElem?, h]
  rfl

end Backward

section Update

variable {α : Type} [Field α]

theorem addWeighted_descent {w g x : Mat α} {learningRate : α}
    (h : addWeighted w 1 g (-learningRate) 0 = some x) :
    x = w.sub (Mat.scale learningRate g) := by
  unfold addWeighted at h
  split at h
  · rename_i hs
    simp only [Option.some.injEq] at h
    simp only [Mat.sameSize, Bool.and_eq_true, beq_iff_eq] at hs
    rw [← h]
    unfold Mat.sub Mat.scale Mat.zipWith
    apply Mat.ofFn_ext
    intro i j hi hj
    have hg : (Mat.map (fun y => learningRate * y) g).get i j = learningRate * g.get i j := by
      unfold Mat.map
      rw [Mat.get_ofFn _ _ _ (by omega) (by omega)]
    rw [hg]
    ring
  · simp at h

theorem gradientLayer_spec {learningRate : α} {activations errors weights nw res : List (Mat α)}
    {i : Nat} (h : gradientLayer learningRate activations errors weights nw i = some res) :
    ∃ W e a, weights[i - 1]? = some W ∧ errors[i]? = some e ∧ activations[i - 1]? = some a ∧
      res = nw.set (i - 1) (W.sub (Mat.scale learningRate (e.mul a.t))) := by
  unfold gradientLayer at h
  simp only [Option.bind_eq_bind] at h
  obtain ⟨e, he, h⟩ := Option.bind_eq_some.mp h
  obtain ⟨a, ha, h⟩ := Option.bind_eq_some.mp h
  obtain ⟨G, hG, h⟩ := Option.bind_eq_some.mp h
  obtain ⟨W, hW, h⟩ := Option.bind_eq_some.mp h
  obtain ⟨x, hx, h⟩ := Option.bind_eq_some.mp h
  have h1 := gemm_2_T hG
  subst h1
  have h2 := addWeighted_descent hx
  subst h2
  exact ⟨W, e, a, hW, he, ha, by simpa using h.symm⟩

theorem gradient_fold_inv (learningRate : α) (activations errors weights : List (Mat α))
    (init : List (Mat α)) :
    ∀ n, n ≤ init.length → ∀ res,
      ((List.range n).map (· + 1)).foldlM
        (gradientLayer learningRate activations errors weights) init = some res →
      res.length = init.length ∧
      ∀ l, 1 ≤ l → l ≤ n → ∃ W e a, weights[l - 1]? = some W ∧ errors[l]? = some e ∧
        activations[l - 1]? = some a ∧
        res[l - 1]? = some (W.sub (Mat.scale learningRate (e.mul a.t))) := by
  intro n
  induction n with
  | zero =>
    intro _ res h
    simp only [List.range_zero, List.map_nil, List.foldlM_nil, Option.pure_def,
      Option.some.injEq] at h
    subst h
    exact ⟨rfl, fun l h1 h0 => absurd h1 (by omega)⟩
  | succ n ih =>
    intro hn res h
    rw [List.range_succ, List.map_append, List.foldlM_append] at h
    simp only [Option.bind_eq_bind, List.map_cons, List.map_nil, List.foldlM_cons,
      List.foldlM_nil, Option.pure_def] at h
    obtain ⟨mid, hmid, h⟩ := Option.bind_eq_some.mp h
    obtain ⟨res1, hstep, h⟩ := Option.bind_eq_some.mp h
    simp only [Option.some.injEq] at h
    subst h
    obtain ⟨hlen, hl⟩ := ih (by omega) mid hmid
    obtain ⟨W, e, a, hW, he, ha, hset⟩ := gradientLayer_spec hstep
    subst hset
    simp only [Nat.add_sub_cancel] at hW ha ⊢
    refine ⟨by simpa using hlen, ?_⟩
    intro l h1 h2
    by_cases hln : l = n + 1
    · subst hln
      refine ⟨W, e, a, by simpa using hW, he, by simpa using ha, ?_⟩
      simp only [Nat.add_sub_cancel, List.getElem?_set, ↓reduceIte]
      rw [if_pos (by omega)]
    · obtain ⟨W2, e2, a2, hW2, he2, ha2, hr2⟩ := hl l h1 (by omega)
      refine ⟨W2, e2, a2, hW2, he2, ha2, ?_⟩
      rw [List.getElem?_set, if_neg (by omega)]
      exact hr2

end Update

section Trainer

variable {α : Type} [Field α] [LinearOrder α] [ExpLog α]

theorem learnLoop_steps (m : MultilayerPerceptron α) (isUMat : Bool) (input target : Mat α) :
    ∀ (n : Nat) (activations weights res : List (Mat α)) (steps : Nat),
      learnLoop m isUMat input target n activations weights = some (res, steps) →
      (∃ k, k < n ∧ steps = k + 1 ∧
        (∃ v, lossAt m isUMat input target k activations weights = some v ∧ v < m.mEpsilon) ∧
        ∀ j, j < k → ∃ v, lossAt m isUMat input target j activations weights = some v ∧
          ¬ v < m.mEpsilon) ∨
      (steps = n ∧ ∀ j, j < n → ∃ v,
        lossAt m isUMat input target j activations weights = some v ∧ ¬ v < m.mEpsilon) := by
  intro n
  induction n with
  | zero =>
    intro activations weights res steps h
    simp only [learnLoop, Option.some.injEq, Prod.mk.injEq] at h
    exact Or.inr ⟨h.2.symm, fun j hj => absurd hj (Nat.not_lt_zero j)⟩
  | succ n ih =>
    intro activations weights res steps h
    simp only [learnLoop, Option.bind_eq_bind] at h
    obtain ⟨⟨acts1, ws1, loss⟩, hit, h⟩ := Option.bind_eq_some.mp h
    simp only at h
    by_cases hc : loss < m.mEpsilon
    · rw [if_pos hc] at h
      simp only [Option.some.injEq, Prod.mk.injEq] at h
      refine Or.inl ⟨0, by omega, h.2.symm, ⟨loss, ?_, hc⟩, fun j hj => absurd hj (by omega)⟩
      simp [lossAt, hit]
    · rw [if_neg hc] at h
      obtain ⟨⟨ws2, steps2⟩, hrec, h⟩ := Option.bind_eq_some.mp h
      simp only [Option.some.injEq, Prod.mk.injEq] at h
      obtain ⟨_, hsteps⟩ := h
      have hshift : ∀ j, lossAt m isUMat input target (j + 1) activations weights
          = lossAt m isUMat input target j acts1 ws1 := by
        intro j
        simp [lossAt, hit]
      have h0 : lossAt m isUMat input target 0 activations weights = some loss := by
        simp [lossAt, hit]
      rcases ih acts1 ws1 ws2 steps2 hrec with ⟨k, hk, hs, ⟨v, hv, hlt⟩, hbelow⟩ | ⟨hs, hall⟩
      · refine Or.inl ⟨k + 1, by omega, by omega, ⟨v, by rw [hshift]; exact hv, hlt⟩, ?_⟩
        intro j hj
        cases j with
        | zero => exact ⟨loss, h0, hc⟩
        | succ j =>
          rw [hshift]
          exact hbelow j (by omega)
      · refine Or.inr ⟨by omega, ?_⟩
        intro j hj
        cases j with
        | zero => exact ⟨loss, h0, hc⟩
        | succ j =>
          rw [hshift]
          exact hall j (by omega)

end Trainer

section WeightSetup

variable {α : Type}

theorem setWeights_fields {m m1 : MultilayerPerceptron α} {g g1 : RNG α} {n : Nat}
    (h : setWeights m g n = some (m1, g1)) : m1 = { m with mWeights := m1.mWeights } := by
  unfold setWeights at h
  simp only [Option.bind_eq_bind] at h
  obtain ⟨n0, _, h⟩ := Option.bind_eq_some.mp h
  obtain ⟨ws0, _, h⟩ := Option.bind_eq_some.mp h
  obtain ⟨st, _, h⟩ := Option.bind_eq_some.mp h
  obtain ⟨nEnd, _, h⟩ := Option.bind_eq_some.mp h
  obtain ⟨wPrev, _, h⟩ := Option.bind_eq_some.mp h
  obtain ⟨wsEnd, _, h⟩ := Option.bind_eq_some.mp h
  simp only [Option.some.injEq, Prod.mk.injEq] at h
  rw [← h.1]

end WeightSetup

section TrainerSetup

variable {α : Type} [Field α] [LinearOrder α] [ExpLog α]

theorem learnWeights_spec {m : MultilayerPerceptron α} {isUMat : Bool} {inputs labels : Mat α}
    {activationTypes : List String} {dropout : List α}
    {activations0 weights activations newWeights : List (Mat α)}
    (h : learnWeights m isUMat inputs labels activationTypes dropout activations0 weights
      = some (activations, newWeights)) :
    ∃ net_out errors,
      doForwardPass m isUMat inputs weights activationTypes dropout [] activations0
        = some (net_out, activations) ∧
      computeErrors m labels activationTypes weights net_out activations [] = some errors ∧
      gradientUpdate m.mLearningRate activations errors weights = some newWeights := by
  unfold learnWeights at h
  simp only [] at h
  by_cases hc : weights.length = weights.length + 1 - 1 ∧
      activationTypes.length = weights.length + 1 - 1 ∧
      dropout.length = weights.length + 1 - 1
  · rw [if_pos hc] at h
    simp only [Option.bind_eq_bind] at h
    obtain ⟨⟨outs, acts2⟩, hfw, h⟩ := Option.bind_eq_some.mp h
    obtain ⟨errs, herr, h⟩ := Option.bind_eq_some.mp h
    obtain ⟨ws2, hgu, h⟩ := Option.bind_eq_some.mp h
    simp only [Option.some.injEq, Prod.mk.injEq] at h
    obtain ⟨h1, h2⟩ := h
    subst h1 h2
    exact ⟨outs, errs, hfw, herr, hgu⟩
  · rw [if_neg hc] at h
    simp at h

theorem learn_unfold {m m2 : MultilayerPerceptron α} {g g2 : RNG α} {_input labels : Mat α}
    {steps : Nat} (h : learn m g _input labels = some (m2, g2, steps)) :
    ∃ input m1 g1 ws wsBack,
      hconcat _input (Mat.ofFn _input.rows 1 fun _ _ => 1) = some input ∧
      setWeights { m with mIsTrained := false } g input.t.rows = some (m1, g1) ∧
      learnLoop m1 m.mOpenClEnabled input.t labels.t m1.mMaxIterations [] m1.mWeights
        = some (ws, steps) ∧
      copyBack ws m1.mWeights = some wsBack ∧
      m2 = { m1 with mWeights := wsBack, mIsTrained := true } ∧ g2 = g1 := by
  unfold learn at h
  simp only [Option.bind_eq_bind] at h
  obtain ⟨⟨m3, g3, steps3⟩, hl, h⟩ := Option.bind_eq_some.mp h
  simp only [Option.some.injEq, Prod.mk.injEq] at h
  obtain ⟨hm, hg, hs⟩ := h
  subst hs
  unfold _learn at hl
  simp only [Option.bind_eq_bind] at hl
  obtain ⟨input, hin, hl⟩ := Option.bind_eq_some.mp hl
  obtain ⟨⟨m1, g1⟩, hsw, hl⟩ := Option.bind_eq_some.mp hl
  obtain ⟨⟨ws, st⟩, hloop, hl⟩ := Option.bind_eq_some.mp hl
  obtain ⟨wsBack, hcb, hl⟩ := Option.bind_eq_some.mp hl
  simp only [Option.some.injEq, Prod.mk.injEq] at hl
  obtain ⟨h1, h2, h3⟩ := hl
  subst h3
  refine ⟨input, m1, g1, ws, wsBack, hin, hsw, hloop, hcb, ?_, ?_⟩
  · rw [← hm, ← h1]
  · rw [← hg, ← h2]

end TrainerSetup

section Predict

variable {α : Type} [Field α] [LinearOrder α] [ExpLog α]

theorem foldlM_option_congr {σ β : Type} (f g : σ → β → Option σ) :
    ∀ (xs : List β), (∀ x, x ∈ xs → ∀ s, f s x = g s x) → ∀ init,
      xs.foldlM f init = xs.foldlM g init := by
  intro xs
  induction xs with
  | nil => intro _ _; rfl
  | cons x xs ih =>
    intro h init
    simp only [List.foldlM_cons, Option.bind_eq_bind]
    rw [h x (List.mem_cons_self x xs) init]
    cases g init x with
    | none => rfl
    | some s =>
      simp only [Option.some_bind]
      exact ih (fun y hy => h y (List.mem_cons_of_mem x hy)) s

theorem forwardLayer_eq_noMask (m : MultilayerPerceptron α) (isUMat : Bool)
    (weights : List (Mat α)) (activationTypes : List String) (dropout : List α)
    (st : List (Mat α) × List (Mat α)) (l : Nat) (d : α)
    (hd : dropout[l]? = some d) (hc : ¬ (0.05 < d ∧ d < 0.8)) :
    forwardLayer m isUMat weights activationTypes dropout st l
      = forwardLayerNoMask isUMat weights activationTypes st l := by
  unfold forwardLayer forwardLayerNoMask
  simp only [Option.bind_eq_bind, hd, Option.some_bind, if_neg hc]

end Predict

section NormalizeShapes

variable {α : Type} [Field α] [LinearOrder α]

theorem normalizeCols_fold_shape (cs : List Nat) :
    ∀ m : Mat α, (cs.foldl normalizeColL1 m).rows = m.rows ∧
      (cs.foldl normalizeColL1 m).cols = m.cols := by
  induction cs with
  | nil => intro m; exact ⟨rfl, rfl⟩
  | cons c cs ih =>
    intro m
    simp only [List.foldl_cons]
    obtain ⟨h1, h2⟩ := ih (normalizeColL1 m c)
    exact ⟨h1, h2⟩

end NormalizeShapes

section GemmShapes

variable {α : Type} [Field α]

theorem gemm_plain_some (w a : Mat α) (h : w.cols = a.rows) :
    gemm w a 1 none 0 false false = some (w.mul a) := by
  unfold gemm
  simp only [Bool.false_eq_true, if_false, h, if_true, Mat.map_one_mul_mul]

end GemmShapes

section Shapes

variable {α : Type} [Field α] [LinearOrder α] [ExpLog α]

theorem applyActivation_shape (type : String) (isUMat : Bool) (x : Mat α) :
    (applyActivation type isUMat x).rows = x.rows ∧
      (applyActivation type isUMat x).cols = x.cols := by
  unfold applyActivation
  split
  · exact ⟨rfl, rfl⟩
  · split
    · exact ⟨rfl, rfl⟩
    · split
      · unfold softmax normalizeCols
        split
        · exact normalizeCols_fold_shape _ _
        · exact normalizeCols_fold_shape _ _
      · split
        · unfold softplus
          split <;> exact ⟨rfl, rfl⟩
        · exact ⟨rfl, rfl⟩

theorem forwardLayer_some (m : MultilayerPerceptron α) (isUMat : Bool) (input : Mat α)
    (weights : List (Mat α)) (activationTypes : List String) (dropout : List α)
    (hc : ForwardCompatible m input weights activationTypes dropout)
    (st : List (Mat α) × List (Mat α)) (l : Nat) (hl : l < m.mNumLayers) (a : Mat α)
    (ha : st.2[l]? = some a) (hrows : a.rows = activationRows input weights l)
    (hcols : a.cols = input.cols) :
    ∃ W r, weights[l]? = some W ∧ r.rows = W.rows ∧ r.cols = input.cols ∧
      forwardLayer m isUMat weights activationTypes dropout st l
        = some (st.1.set l r, st.2.set (l + 1) r) := by
  obtain ⟨W, ty, d, hW, hty, hd, hWc, hmask⟩ := hc l hl
  have hg := gemm_plain_some W a (by rw [hWc, hrows])
  obtain ⟨hr, hcl⟩ := applyActivation_shape ty isUMat (W.mul a)
  by_cases hdrop : 0.05 < d ∧ d < 0.8
  · obtain ⟨mask, hm, hmr, hmc⟩ := hmask hdrop
    refine ⟨W, mask.hadamard (applyActivation ty isUMat (W.mul a)), hW, hmr, hmc, ?_⟩
    have hsame : mask.sameSize (applyActivation ty isUMat (W.mul a)) = true := by
      simp only [Mat.sameSize, Bool.and_eq_true, beq_iff_eq]
      refine ⟨?_, ?_⟩
      · rw [hmr, hr]
        rfl
      · rw [hmc, hcl, ← hcols]
        rfl
    unfold forwardLayer
    simp only [Option.bind_eq_bind, hW, ha, hg, hty, hd, Option.some_bind, if_pos hdrop, hm,
      multiply, hsame, if_true]
  · refine ⟨W, applyActivation ty isUMat (W.mul a), hW, ?_, ?_, ?_⟩
    · rw [hr]
      rfl
    · rw [hcl, ← hcols]
      rfl
    · unfold forwardLayer
      simp only [Option.bind_eq_bind, hW, ha, hg, hty, hd, Option.some_bind, if_neg hdrop]

theorem forward_fold_some (m : MultilayerPerceptron α) (isUMat : Bool) (input : Mat α)
    (weights : List (Mat α)) (activationTypes : List String) (dropout : List α)
    (hc : ForwardCompatible m input weights activationTypes dropout)
    (init : List (Mat α) × List (Mat α)) (hla : init.2.length = m.mNumLayers + 1)
    (h0 : init.2[0]? = some input) :
    ∀ n, n ≤ m.mNumLayers → ∃ st,
      (List.range n).foldlM (forwardLayer m isUMat weights activationTypes dropout) init
        = some st ∧
      st.2.length = m.mNumLayers + 1 ∧
      ∃ a, st.2[n]? = some a ∧ a.rows = activationRows input weights n ∧
        a.cols = input.cols := by
  intro n
  induction n with
  | zero =>
    intro _
    exact ⟨init, rfl, hla, input, h0, rfl, rfl⟩
  | succ n ih =>
    intro hn
    obtain ⟨st, hst, hlen, a, ha, hrows, hcols⟩ := ih (by omega)
    obtain ⟨W, r, hW, hrr, hrc, hstep⟩ :=
      forwardLayer_some m isUMat input weights activationTypes dropout hc st n (by omega) a ha
        hrows hcols
    refine ⟨(st.1.set n r, st.2.set (n + 1) r), ?_, by simpa using hlen, r, ?_, ?_, hrc⟩
    · rw [List.range_succ, List.foldlM_append, hst]
      simp only [Option.bind_eq_bind, Option.some_bind, List.foldlM_cons, List.foldlM_nil,
        hstep, Option.pure_def]
    · simp only [List.getElem?_set, ↓reduceIte]
      rw [if_pos (by omega)]
    · rw [hrr]
      simp [activationRows, hW]

theorem doForwardPass_some (m : MultilayerPerceptron α) (isUMat : Bool) (input : Mat α)
    (weights : List (Mat α)) (activationTypes : List String) (dropout : List α)
    (outputs0 activations0 : List (Mat α))
    (hc : ForwardCompatible m input weights activationTypes dropout) :
    ∃ outputs activations,
      doForwardPass m isUMat input weights activationTypes dropout outputs0 activations0
        = some (outputs, activations) := by
  obtain ⟨st, hst, _⟩ := forward_fold_some m isUMat input weights activationTypes dropout hc
    ((vresize (m.mNumLayers + 1) outputs0).set 0 input,
      (vresize (m.mNumLayers + 1) activations0).set 0 input)
    (by simp [vresize_length]) (by simp [vresize_length]) m.mNumLayers (Nat.le_refl _)
  exact ⟨st.1, st.2, hst⟩

end Shapes

section UpdateShapes

variable {α : Type} [Field α]

theorem gradientLayer_some (learningRate : α) (activations errors weights : List (Mat α))
    (hc : UpdateCompatible activations errors weights) (nw : List (Mat α)) (i : Nat)
    (h1 : 1 ≤ i) (h2 : i ≤ weights.length) :
    ∃ res, gradientLayer learningRate activations errors weights nw i = some res ∧
      res.length = nw.length := by
  obtain ⟨W, e, a, hW, he, ha, hea, hWr, hWc⟩ := hc i h1 h2
  have hg : gemm e a 1 none 1 false true = some (e.mul a.t) := by
    unfold gemm
    have hdim : e.cols = a.t.rows := by
      rw [hea]
      rfl
    simp only [Bool.false_eq_true, if_false, if_true, hdim, Mat.map_one_mul_mul]
  have hsame : W.sameSize (e.mul a.t) = true := by
    simp only [Mat.sameSize, Bool.and_eq_true, beq_iff_eq]
    exact ⟨by rw [hWr]; rfl, by rw [hWc]; rfl⟩
  refine ⟨nw.set (i - 1)
    (Mat.zipWith (fun x y => x * 1 + y * (-learningRate) + 0) W (e.mul a.t)), ?_, ?_⟩
  · unfold gradientLayer
    simp only [Option.bind_eq_bind, he, ha, hg, hW, Option.some_bind, addWeighted, hsame,
      if_true]
  · simp

theorem gradient_fold_some (learningRate : α) (activations errors weights : List (Mat α))
    (hc : UpdateCompatible activations errors weights) (init : List (Mat α)) :
    ∀ n, n ≤ weights.length → ∃ res,
      ((List.range n).map (· + 1)).foldlM
        (gradientLayer learningRate activations errors weights) init = some res := by
  intro n
  induction n with
  | zero =>
    intro _
    exact ⟨init, rfl⟩
  | succ n ih =>
    intro hn
    obtain ⟨mid, hmid⟩ := ih (by omega)
    obtain ⟨res, hres, _⟩ := gradientLayer_some learningRate activations errors weights hc mid
      (n + 1) (by omega) hn
    refine ⟨res, ?_⟩
    rw [List.range_succ, List.map_append, List.foldlM_append, hmid]
    simp only [Option.bind_eq_bind, Option.some_bind, List.map_cons, List.map_nil,
      List.foldlM_cons, List.foldlM_nil, hres, Option.pure_def]

end UpdateShapes

section LossShapes

variable {α : Type} [Field α]

theorem computeLossDerivative_some (lossType : String) (aL target error : Mat α)
    (hl : lossType = "quadratic" ∨ lossType = "log")
    (hr : aL.rows = target.rows) (hc : aL.cols = target.cols) :
    ∃ seed, computeLossDerivative lossType aL target error = some seed ∧
      seed.rows = target.rows ∧ seed.cols = target.cols := by
  have hsame : aL.sameSize target = true := by
    simp [Mat.sameSize, hr, hc]
  unfold computeLossDerivative
  rcases hl with hq | hlog
  · refine ⟨aL.sub target, ?_, hr, hc⟩
    simp [hq, subtract, hsame]
  · have hne : ¬ lossType = "quadratic" := by
      rw [hlog]
      decide
    rw [if_neg hne, if_pos hlog]
    refine ⟨Mat.zipWith (fun x y => x / y) (aL.sub target)
      (Mat.map (fun x => x + FLT_EPSILON) (aL.hadamard (aL.map fun x => 1 - x))), ?_, hr, hc⟩
    have hs2 : aL.sameSize (aL.map fun x => 1 - x) = true := by
      simp [Mat.sameSize, Mat.map, Mat.ofFn]
    have hs3 : (aL.sub target).sameSize
        (Mat.map (fun x => x + FLT_EPSILON) (aL.hadamard (aL.map fun x => 1 - x))) = true := by
      simp [Mat.sameSize, Mat.map, Mat.ofFn, Mat.sub, Mat.hadamard, Mat.zipWith]
    simp only [Option.bind_eq_bind, subtract, hsame, if_true, Option.some_bind, multiply, hs2,
      divide, hs3]

end LossShapes

section BackwardShapes

variable {α : Type} [Field α] [LinearOrder α] [ExpLog α]

theorem applyDerivative_shape (type : String) (x : Mat α) (h : type ≠ "softmax") :
    (applyDerivative type x Mat.empty).rows = x.rows ∧
      (applyDerivative type x Mat.empty).cols = x.cols := by
  unfold applyDerivative
  rw [if_neg h]
  split_ifs <;> exact ⟨rfl, rfl⟩

theorem errorLayer_some (m : MultilayerPerceptron α) (target : Mat α)
    (activationTypes : List String) (weights outputs activations : List (Mat α))
    (hc : BackwardCompatible m target activationTypes weights outputs activations)
    (errors : List (Mat α)) (l : Nat) (h1 : 1 ≤ l) (h2 : l < m.mNumLayers)
    (hlen : errors.length = m.mNumLayers + 1) (e : Mat α) (he : errors[l + 1]? = some e)
    (her : e.rows = errorRows target outputs m.mNumLayers (l + 1))
    (hec : e.cols = target.cols) :
    ∃ eL, errorLayer activationTypes weights outputs errors l = some (errors.set l eL) ∧
      eL.rows = errorRows target outputs m.mNumLayers l ∧ eL.cols = target.cols := by
  obtain ⟨_, _, _, hall⟩ := hc
  obtain ⟨W, ty, o, hW, hty, hns, ho, hWr, hWc, hoc⟩ := hall l h1 h2
  obtain ⟨hdr, hdc⟩ := applyDerivative_shape ty o hns
  have hg : gemm W e 1 none 0 true false = some (W.t.mul e) := by
    unfold gemm
    have hdim : W.t.cols = e.rows := by
      rw [her, ← hWr]
      rfl
    simp only [Bool.false_eq_true, if_false, if_true, hdim, Mat.map_one_mul_mul]
  have hsame : (W.t.mul e).sameSize (applyDerivative ty o Mat.empty) = true := by
    simp only [Mat.sameSize, Bool.and_eq_true, beq_iff_eq]
    refine ⟨?_, ?_⟩
    · rw [hdr, ← hWc]
      rfl
    · rw [hdc, hoc, ← hec]
      rfl
  refine ⟨(W.t.mul e).hadamard (applyDerivative ty o Mat.empty), ?_, ?_, ?_⟩
  · unfold errorLayer
    have hlt : l < errors.length := by omega
    simp only [Option.bind_eq_bind, hW, he, hg, hty, ho, Option.some_bind, multiply, hsame,
      if_true, hlt]
  · have hne : ¬ l = m.mNumLayers := by omega
    simp only [errorRows, if_neg hne, ho, Option.map_some', Option.getD_some]
    rw [← hWc]
    rfl
  · rw [← hec]
    rfl

theorem errorLoop_some (m : MultilayerPerceptron α) (target : Mat α)
    (activationTypes : List String) (weights outputs activations : List (Mat α))
    (hc : BackwardCompatible m target activationTypes weights outputs activations) :
    ∀ n, n < m.mNumLayers → ∀ errors : List (Mat α), errors.length = m.mNumLayers + 1 →
      (∃ e, errors[n + 1]? = some e ∧
        e.rows = errorRows target outputs m.mNumLayers (n + 1) ∧ e.cols = target.cols) →
      ∃ res, errorLoop activationTypes weights outputs n errors = some res := by
  intro n
  induction n with
  | zero =>
    intro _ errors _ _
    exact ⟨errors, rfl⟩
  | succ n ih =>
    intro hn errors hlen ⟨e, he, her, hec⟩
    obtain ⟨eL, hstep, hr, hcl⟩ := errorLayer_some m target activationTypes weights outputs
      activations hc errors (n + 1) (by omega) hn hlen e he her hec
    obtain ⟨res, hres⟩ := ih (by omega) (errors.set (n + 1) eL) (by simpa using hlen)
      ⟨eL, by
        simp only [List.getElem?_set, ↓reduceIte]
        rw [if_pos (by omega)], hr, hcl⟩
    refine ⟨res, ?_⟩
    simp only [errorLoop, Option.bind_eq_bind, hstep, Option.some_bind]
    exact hres

theorem computeErrors_some (m : MultilayerPerceptron α) (target : Mat α)
    (activationTypes : List String) (weights outputs activations errors0 : List (Mat α))
    (hc : BackwardCompatible m target activationTypes weights outputs activations) :
    ∃ errors, computeErrors m target activationTypes weights outputs activations errors0
      = some errors := by
  obtain ⟨hlen, hloss, ⟨aL, haL, har, hac⟩, _⟩ := id hc
  have hback : activations.getLast? = some aL := by
    rw [getLast?_of_length activations m.mNumLayers hlen]
    exact haL
  have hlenr : m.mNumLayers < (vresize (m.mNumLayers + 1) errors0).length := by
    rw [vresize_length]
    omega
  obtain ⟨eB, heB⟩ : ∃ eB, (vresize (m.mNumLayers + 1) errors0).getLast? = some eB := by
    rw [getLast?_of_length _ m.mNumLayers (vresize_length _ _)]
    exact ⟨_, List.getElem?_eq_getElem hlenr⟩
  obtain ⟨seed, hseed, hsr, hsc⟩ := computeLossDerivative_some m.mLoss aL target eB hloss har hac
  by_cases hz : m.mNumLayers = 0
  · refine ⟨(vresize (m.mNumLayers + 1) errors0).set m.mNumLayers seed, ?_⟩
    have hidx : m.mNumLayers - 1 = 0 := by omega
    unfold computeErrors
    simp only [Option.bind_eq_bind, hback, heB, hseed, Option.some_bind, hidx, errorLoop]
  · obtain ⟨res, hres⟩ := errorLoop_some m target activationTypes weights outputs activations hc
      (m.mNumLayers - 1) (by omega)
      ((vresize (m.mNumLayers + 1) errors0).set m.mNumLayers seed)
      (by simp [vresize_length])
      ⟨seed, by
        have hidx : m.mNumLayers - 1 + 1 = m.mNumLayers := by omega
        rw [hidx]
        simp only [List.getElem?_set, ↓reduceIte]
        rw [if_pos hlenr], by
        have hidx : m.mNumLayers - 1 + 1 = m.mNumLayers := by omega
        rw [hidx]
        simp [errorRows, hsr], hsc⟩
    refine ⟨res, ?_⟩
    unfold computeErrors
    simp only [Option.bind_eq_bind, hback, heB, hseed, Option.some_bind]
    exact hres

end BackwardShapes

section OfSome

variable {α : Type} [Field α] [LinearOrder α] [ExpLog α]

theorem forward_layers_of_some (m : MultilayerPerceptron α) (isUMat : Bool) (input : Mat α)
    (weights : List (Mat α)) (activationTypes : List String) (dropout : List α)
    (outputs0 activations0 outputs activations : List (Mat α))
    (h : doForwardPass m isUMat input weights activationTypes dropout outputs0 activations0
      = some (outputs, activations)) :
    activations[0]? = some input ∧
    ∀ l, l < m.mNumLayers →
      ForwardLayerShared m isUMat weights activationTypes dropout outputs activations l := by
  unfold doForwardPass at h
  have hinv := forward_fold_inv m isUMat weights activationTypes dropout m.mNumLayers
    ((vresize (m.mNumLayers + 1) outputs0).set 0 input,
      (vresize (m.mNumLayers + 1) activations0).set 0 input)
    (by simp [vresize_length]) (by simp [vresize_length]) m.mNumLayers (Nat.le_refl _)
    (outputs, activations) h
  obtain ⟨_, _, h0, _, hl⟩ := hinv
  refine ⟨?_, hl⟩
  rw [h0]
  simp [vresize_length]


theorem backward_layers_of_some (m : MultilayerPerceptron α) (target : Mat α)
    (activationTypes : List String) (weights outputs activations errors0 errors : List (Mat α))
    (hlen : activations.length = m.mNumLayers + 1)
    (h : computeErrors m target activationTypes weights outputs activations errors0
      = some errors) :
    (∃ aL eL seed, activations[m.mNumLayers]? = some aL ∧
      (vresize (m.mNumLayers + 1) errors0)[m.mNumLayers]? = some eL ∧
      computeLossDerivative m.mLoss aL target eL = some seed ∧
      errors[m.mNumLayers]? = some seed) ∧
    (∀ l, 1 ≤ l → l < m.mNumLayers → ∃ W e type o, weights[l]? = some W ∧
      errors[l + 1]? = some e ∧ activationTypes[l - 1]? = some type ∧
      outputs[l - 1]? = some o ∧
      errors[l]? = some ((W.t.mul e).hadamard (applyDerivative type o Mat.empty))) ∧
    (1 ≤ m.mNumLayers → errors[0]? = (vresize (m.mNumLayers + 1) errors0)[0]?) := by
  unfold computeErrors at h
  simp only [Option.bind_eq_bind] at h
  obtain ⟨back, hback, h⟩ := Option.bind_eq_some.mp h
  obtain ⟨eBack, heBack, h⟩ := Option.bind_eq_some.mp h
  obtain ⟨seed, hseed, h⟩ := Option.bind_eq_some.mp h
  rw [getLast?_of_length activations m.mNumLayers hlen] at hback
  rw [getLast?_of_length _ m.mNumLayers (vresize_length _ _)] at heBack
  obtain ⟨hl, h0, hk, hrec⟩ := errorLoop_inv activationTypes weights outputs _ _ _ h
  have hlenr : m.mNumLayers < (vresize (m.mNumLayers + 1) errors0).length := by
    rw [vresize_length]
    omega
  refine ⟨⟨back, eBack, seed, hback, heBack, hseed, ?_⟩, ?_, ?_⟩
  · by_cases hz : m.mNumLayers = 0
    · rw [hz] at h0 hlenr ⊢
      rw [h0, List.getElem?_set]
      simp only [↓reduceIte]
      rw [if_pos hlenr]
    · rw [hk m.mNumLayers (by omega), List.getElem?_set]
      simp only [↓reduceIte]
      rw [if_pos hlenr]
  · intro l h1 h2
    exact hrec l h1 (by omega)
  · intro h1
    rw [h0, List.getElem?_set]
    rw [if_neg (by omega)]


end OfSome

section OfSomeUpdate

variable {α : Type} [Field α]

theorem update_layers_of_some (learningRate : α)
    (activations errors weights newWeights : List (Mat α))
    (h : gradientUpdate learningRate activations errors weights = some newWeights) :
    newWeights.length = weights.length ∧
    ∀ l, 1 ≤ l → l ≤ weights.length → ∃ W e a, weights[l - 1]? = some W ∧
      errors[l]? = some e ∧ activations[l - 1]? = some a ∧
      newWeights[l - 1]? = some (W.sub (Mat.scale learningRate (e.mul a.t))) := by
  unfold gradientUpdate at h
  have hinv := gradient_fold_inv learningRate activations errors weights
    (List.replicate weights.length Mat.empty) weights.length (by simp) newWeights h
  simpa using hinv


end OfSomeUpdate

section AllocationLemmas

variable {α : Type}

theorem vresize_two (ws : List (Mat α)) : ∃ a b, vresize 2 ws = [a, b] := by
  match ws with
  | [] => exact ⟨Mat.empty, Mat.empty, rfl⟩
  | [a] => exact ⟨a, Mat.empty, rfl⟩
  | a :: b :: rest => exact ⟨a, b, by simp [vresize]⟩

/-- For a two-layer topology `setWeights` succeeds and returns `W[0]` of shape
`(nodes[0] + 1) × startNodes` and `W[1]` of shape `nodes[1] × (nodes[0] + 1)`, both drawn
from the generator, whatever weights the model held before. -/
theorem setWeights_two_layers (m : MultilayerPerceptron α) (g : RNG α) (startNodes : Nat)
    (n0 n1 : Nat) (rest : List Nat) (hA : m.mActivationsTypes.length = 2)
    (hN : m.mNumNodesConfiguration = n0 :: n1 :: rest) :
    setWeights m g startNodes
      = some ({ m with mWeights :=
          [(randn g (n0 + 1) startNodes).1,
            (randn (randn g (n0 + 1) startNodes).2 n1 (n0 + 1)).1] },
        (randn (randn g (n0 + 1) startNodes).2 n1 (n0 + 1)).2) := by
  obtain ⟨a, b, hab⟩ := vresize_two m.mWeights
  unfold setWeights
  rw [hA, hab, hN]
  simp [vget, vset, randn, Mat.ofFn]

end AllocationLemmas

section ReturnLemmas

variable {α : Type}

theorem vset_length_pos {β : Type} {v res : List β} {i : Int} {x : β}
    (h : vset v i x = some res) : 0 < res.length := by
  unfold vset at h
  split at h
  · rename_i hc
    simp only [Option.some.injEq] at h
    rw [← h, List.length_set]
    omega
  · simp at h

theorem setWeights_nonempty {m m1 : MultilayerPerceptron α} {g g1 : RNG α} {n : Nat}
    (h : setWeights m g n = some (m1, g1)) : 0 < m1.mWeights.length := by
  unfold setWeights at h
  simp only [Option.bind_eq_bind] at h
  obtain ⟨n0, _, h⟩ := Option.bind_eq_some.mp h
  obtain ⟨ws0, _, h⟩ := Option.bind_eq_some.mp h
  obtain ⟨st, _, h⟩ := Option.bind_eq_some.mp h
  obtain ⟨nEnd, _, h⟩ := Option.bind_eq_some.mp h
  obtain ⟨wPrev, _, h⟩ := Option.bind_eq_some.mp h
  obtain ⟨wsEnd, hEnd, h⟩ := Option.bind_eq_some.mp h
  simp only [Option.some.injEq, Prod.mk.injEq] at h
  rw [← h.1]
  exact vset_length_pos hEnd

end ReturnLemmas

section ReturnTheorems

variable {α : Type} [Field α] [LinearOrder α] [ExpLog α]

/-- Whenever `learn` returns, it has made at most `mMaxIterations` calls of `learnWeights`,
`isTrained()` is true and `empty()` is false. -/
theorem learn_returns_trained (m m2 : MultilayerPerceptron α) (g g2 : RNG α)
    (_input labels : Mat α) (steps : Nat)
    (h : learn m g _input labels = some (m2, g2, steps)) :
    steps ≤ m.mMaxIterations ∧ m2.isTrained = true ∧ m2.empty = false := by
  obtain ⟨input, m1, g1, ws, wsBack, _, hsw, hloop, hcb, hm2, _⟩ := learn_unfold h
  have hf := setWeights_fields hsw
  have hmax : m1.mMaxIterations = m.mMaxIterations := by rw [hf]
  have hpos := setWeights_nonempty hsw
  refine ⟨?_, ?_, ?_⟩
  · rcases learnLoop_steps m1 m.mOpenClEnabled input.t labels.t _ _ _ _ _ hloop with
      ⟨k, hk, hs, _, _⟩ | ⟨hs, _⟩ <;> omega
  · rw [hm2]
    rfl
  · rw [hm2]
    unfold copyBack at hcb
    split at hcb
    · simp only [Option.some.injEq] at hcb
      simp only [MultilayerPerceptron.empty, ← hcb, List.isEmpty_eq_false]
      intro hnil
      have hlen := congrArg List.length hnil
      simp only [List.length_append, List.length_drop, List.length_nil] at hlen
      omega
    · simp at hcb

end ReturnTheorems

section ContractClaims

variable {α : Type} [Field α] [LinearOrder α] [ExpLog α]

/-- C2: for a network of `L = mNumLayers` layers and compatible shapes, `computeErrors`
returns errors with `errors[L]` the loss derivative of `activations[L]` against the target,
`errors[l] = (transpose(weights[l]) * errors[l + 1]) ⊙ applyDerivative(types[l-1],
outputs[l-1])` for every `l` from `L - 1` down to `1`, and index `0` left as the resized
vector held it (no error is computed there). -/
theorem computeErrors_recurrence (m : MultilayerPerceptron α) (target : Mat α)
    (activationTypes : List String) (weights outputs activations errors0 : List (Mat α))
    (hc : BackwardCompatible m target activationTypes weights outputs activations) :
    ∃ errors,
      computeErrors m target activationTypes weights outputs activations errors0
        = some errors ∧
      (∃ aL eL seed, activations[m.mNumLayers]? = some aL ∧
        (vresize (m.mNumLayers + 1) errors0)[m.mNumLayers]? = some eL ∧
        computeLossDerivative m.mLoss aL target eL = some seed ∧
        errors[m.mNumLayers]? = some seed) ∧
      (∀ l, 1 ≤ l → l < m.mNumLayers → ∃ W e type o, weights[l]? = some W ∧
        errors[l + 1]? = some e ∧ activationTypes[l - 1]? = some type ∧
        outputs[l - 1]? = some o ∧
        errors[l]? = some ((W.t.mul e).hadamard (applyDerivative type o Mat.empty))) ∧
      (1 ≤ m.mNumLayers → errors[0]? = (vresize (m.mNumLayers + 1) errors0)[0]?) := by
  obtain ⟨errors, h⟩ := computeErrors_some m target activationTypes weights outputs
    activations errors0 hc
  exact ⟨errors, h, backward_layers_of_some m target activationTypes weights outputs
    activations errors0 errors hc.1 h⟩

/-- Witness for C2: `computeErrors` for `fwdModel` against the target `1`, on the outputs
`fwdOutputs` and the activations `fwdActivations`. -/
theorem computeErrors_recurrence_witness :
    BackwardCompatible fwdModel ⟨1, 1, [[1]]⟩ ["relu", ""] fwdWeights fwdOutputs
      fwdActivations ∧
    computeErrors fwdModel ⟨1, 1, [[1]]⟩ ["relu", ""] fwdWeights fwdOutputs fwdActivations []
      = some bwdErrors ∧
    ∃ errors,
      computeErrors fwdModel ⟨1, 1, [[1]]⟩ ["relu", ""] fwdWeights fwdOutputs
        fwdActivations [] = some errors ∧
      (∃ aL eL seed, fwdActivations[fwdModel.mNumLayers]? = some aL ∧
        (vresize (fwdModel.mNumLayers + 1) ([] : List (Mat ℚ)))[fwdModel.mNumLayers]?
          = some eL ∧
        computeLossDerivative fwdModel.mLoss aL ⟨1, 1, [[1]]⟩ eL = some seed ∧
        errors[fwdModel.mNumLayers]? = some seed) ∧
      (∀ l, 1 ≤ l → l < fwdModel.mNumLayers → ∃ W e type o, fwdWeights[l]? = some W ∧
        errors[l + 1]? = some e ∧ (["relu", ""] : List String)[l - 1]? = some type ∧
        fwdOutputs[l - 1]? = some o ∧
        errors[l]? = some ((W.t.mul e).hadamard (applyDerivative type o Mat.empty))) ∧
      (1 ≤ fwdModel.mNumLayers →
        errors[0]? = (vresize (fwdModel.mNumLayers + 1) ([] : List (Mat ℚ)))[0]?) :=
  have hc : BackwardCompatible fwdModel ⟨1, 1, [[1]]⟩ ["relu", ""] fwdWeights fwdOutputs
      fwdActivations := by
    refine ⟨rfl, Or.inl rfl, ⟨⟨1, 1, [[3]]⟩, rfl, rfl, rfl⟩, ?_⟩
    intro l h1 hl
    have h2 : l < 2 := hl
    have hl1 : l = 1 := by omega
    subst hl1
    exact ⟨⟨1, 2, [[1, 1]]⟩, "relu", ⟨2, 1, [[3], [-2]]⟩, rfl, rfl, by decide, rfl, rfl, rfl,
      rfl⟩
  ⟨hc, by decide!, computeErrors_recurrence fwdModel ⟨1, 1, [[1]]⟩ ["relu", ""] fwdWeights
    fwdOutputs fwdActivations [] hc⟩

end ContractClaims

section UpdateClaims

variable {α : Type} [Field α]

/-- C3: `gradientUpdate` is a function of the learning rate, the activations, the errors
and the weights alone; for compatible shapes it returns, for every `l` in `1..L` (`L` the
number of weight matrices), `newWeights[l-1] = weights[l-1] - learningRate * (errors[l] *
transpose(activations[l-1]))`. -/
theorem gradientUpdate_descent (learningRate : α) (activations errors weights : List (Mat α))
    (hc : UpdateCompatible activations errors weights) :
    ∃ newWeights, gradientUpdate learningRate activations errors weights = some newWeights ∧
      newWeights.length = weights.length ∧
      ∀ l, 1 ≤ l → l ≤ weights.length → ∃ W e a, weights[l - 1]? = some W ∧
        errors[l]? = some e ∧ activations[l - 1]? = some a ∧
        newWeights[l - 1]? = some (W.sub (Mat.scale learningRate (e.mul a.t))) := by
  obtain ⟨newWeights, h⟩ := gradient_fold_some learningRate activations errors weights hc
    (List.replicate weights.length Mat.empty) weights.length (Nat.le_refl _)
  exact ⟨newWeights, h, update_layers_of_some learningRate activations errors weights
    newWeights h⟩

/-- Witness for C3: the update of `fwdWeights` with learning rate `1/10`. -/
theorem gradientUpdate_descent_witness :
    UpdateCompatible fwdActivations bwdErrors fwdWeights ∧
    gradientUpdate (1 / 10) fwdActivations bwdErrors fwdWeights
      = some [⟨2, 2, [[4 / 5, 9 / 5], [-16 / 5, 4 / 5]]⟩, ⟨1, 2, [[2 / 5, 1]]⟩] ∧
    ∃ newWeights, gradientUpdate (1 / 10) fwdActivations bwdErrors fwdWeights
        = some newWeights ∧
      newWeights.length = fwdWeights.length ∧
      ∀ l, 1 ≤ l → l ≤ fwdWeights.length → ∃ W e a, fwdWeights[l - 1]? = some W ∧
        bwdErrors[l]? = some e ∧ fwdActivations[l - 1]? = some a ∧
        newWeights[l - 1]? = some (W.sub (Mat.scale (1 / 10) (e.mul a.t))) :=
  have hc : UpdateCompatible fwdActivations bwdErrors fwdWeights := by
    intro l h1 hl
    have h2 : l ≤ 2 := hl
    have hcases : l = 1 ∨ l = 2 := by omega
    rcases hcases with h | h
    · subst h
      exact ⟨⟨2, 2, [[1, 2], [-3, 1]]⟩, ⟨2, 1, [[2], [2]]⟩, ⟨2, 1, [[1], [1]]⟩, rfl, rfl, rfl,
        rfl, rfl, rfl⟩
    · subst h
      exact ⟨⟨1, 2, [[1, 1]]⟩, ⟨1, 1, [[2]]⟩, ⟨2, 1, [[3], [0]]⟩, rfl, rfl, rfl, rfl, rfl,
        rfl⟩
  ⟨hc, by decide!, gradientUpdate_descent (1 / 10) fwdActivations bwdErrors fwdWeights hc⟩

end UpdateClaims

section TrainerClaims

variable {α : Type} [Field α] [LinearOrder α] [ExpLog α]

/-- C4 (amended): in a training iteration the mean loss that is compared with the
convergence epsilon is the loss of the forward output computed with the weights the
iteration started from, before that iteration's gradient update. -/
theorem learnIteration_loss_of_start_weights (m : MultilayerPerceptron α) (isUMat : Bool)
    (input target : Mat α) (activations0 weights activations newWeights : List (Mat α))
    (avg_loss : α)
    (h : learnIteration m isUMat input target activations0 weights
      = some (activations, newWeights, avg_loss)) :
    forwardLoss m isUMat input target activations0 weights = some avg_loss := by
  unfold learnIteration at h
  simp only [Option.bind_eq_bind] at h
  obtain ⟨⟨acts, ws⟩, hlw, h⟩ := Option.bind_eq_some.mp h
  obtain ⟨out, hout, h⟩ := Option.bind_eq_some.mp h
  obtain ⟨loss, hloss, h⟩ := Option.bind_eq_some.mp h
  simp only [Option.some.injEq, Prod.mk.injEq] at h
  obtain ⟨h1, h2, h3⟩ := h
  subst h1 h2 h3
  obtain ⟨outs, errs, hfw, _, _⟩ := learnWeights_spec hlw
  unfold forwardLoss
  simp [hfw, hout, hloss]

/-- Witness for C4: the first iteration of `trainModel` against the target `1/2` monitors
the loss `1/4` of the initial weights. -/
theorem learnIteration_loss_of_start_weights_witness :
    learnIteration (trainModel 2) false trainInputAug ⟨1, 1, [[1 / 2]]⟩ [] trainWeights
      = some ([trainInputAug, ⟨2, 1, [[-1], [0]]⟩, ⟨1, 1, [[0]]⟩],
          [⟨2, 2, [[-1, 0], [1, -1]]⟩, ⟨1, 2, [[-1 / 20, 1]]⟩], 1 / 4) ∧
    forwardLoss (trainModel 2) false trainInputAug ⟨1, 1, [[1 / 2]]⟩ [] trainWeights
      = some (1 / 4) :=
  ⟨by decide!, learnIteration_loss_of_start_weights (trainModel 2) false trainInputAug
    ⟨1, 1, [[1 / 2]]⟩ [] trainWeights [trainInputAug, ⟨2, 1, [[-1], [0]]⟩, ⟨1, 1, [[0]]⟩]
    [⟨2, 2, [[-1, 0], [1, -1]]⟩, ⟨1, 2, [[-1 / 20, 1]]⟩] (1 / 4) (by decide!)⟩

/-- C4 as stated fails: in the first iteration of `trainModel` against the target `1/2` the
monitored loss is `1/4`, while the forward output of the freshly updated weights has loss
`81/400`. -/
theorem learnIteration_monitors_updated_weights_counterexample :
    (learnIteration (trainModel 2) false trainInputAug ⟨1, 1, [[1 / 2]]⟩ [] trainWeights).map
      (fun r => r.2.2) = some (1 / 4) ∧
    ((learnIteration (trainModel 2) false trainInputAug ⟨1, 1, [[1 / 2]]⟩ [] trainWeights).bind
      fun r => forwardLoss (trainModel 2) false trainInputAug ⟨1, 1, [[1 / 2]]⟩ r.1 r.2.1)
      = some (81 / 400) ∧
    (1 / 4 : ℚ) ≠ 81 / 400 := by
  decide!

/-- C5: the number of weight-update steps `learn` performs is `min(maxIterations, k + 1)`
for the least iteration index `k < maxIterations` whose monitored mean loss is strictly below
epsilon, and `maxIterations` when no such index exists; a loss that is not strictly below
epsilon (in particular one equal to it) does not stop training. -/
theorem learn_step_count (m : MultilayerPerceptron α) (g : RNG α) (_input labels : Mat α)
    (steps : Nat)
    (h : (learn m g _input labels).map (fun r => r.2.2) = some steps) :
    StepsOK (learnLossAt m g _input labels) m.mEpsilon m.mMaxIterations steps := by
  obtain ⟨⟨m2, g2, steps2⟩, hl, hs⟩ := Option.map_eq_some'.mp h
  simp only at hs
  subst hs
  obtain ⟨input, m1, g1, ws, wsBack, hin, hsw, hloop, _, _, _⟩ := learn_unfold hl
  have hf := setWeights_fields hsw
  have hmax : m1.mMaxIterations = m.mMaxIterations := by rw [hf]
  have heps : m1.mEpsilon = m.mEpsilon := by rw [hf]
  have hloss : ∀ i, learnLossAt m g _input labels i
      = lossAt m1 m.mOpenClEnabled input.t labels.t i [] m1.mWeights := by
    intro i
    simp [learnLossAt, hin, hsw]
  rw [hmax] at hloop
  rcases learnLoop_steps m1 m.mOpenClEnabled input.t labels.t _ _ _ _ _ hloop with
    ⟨k, hk, hsteps, ⟨v, hv, hlt⟩, hbelow⟩ | ⟨hsteps, hall⟩
  · refine Or.inl ⟨k, hk, ⟨v, by rw [hloss]; exact hv, by rw [← heps]; exact hlt⟩, ?_, ?_⟩
    · intro j hj
      obtain ⟨w, hw, hnlt⟩ := hbelow j hj
      exact ⟨w, by rw [hloss]; exact hw, by rw [← heps]; exact hnlt⟩
    · rw [hsteps]
      omega
  · refine Or.inr ⟨?_, hsteps⟩
    intro j hj
    obtain ⟨w, hw, hnlt⟩ := hall j hj
    exact ⟨w, by rw [hloss]; exact hw, by rw [← heps]; exact hnlt⟩

/-- Witness for C5: with cap `5` and target `21/200` the loop of `trainModel` stops after
two steps. -/
theorem learn_step_count_witness :
    (learn (trainModel 5) exampleRNG trainInput ⟨1, 1, [[21 / 200]]⟩).map (fun r => r.2.2)
      = some 2 ∧
    StepsOK (learnLossAt (trainModel 5) exampleRNG trainInput ⟨1, 1, [[21 / 200]]⟩)
      (trainModel 5).mEpsilon (trainModel 5).mMaxIterations 2 :=
  ⟨by decide!, learn_step_count (trainModel 5) exampleRNG trainInput ⟨1, 1, [[21 / 200]]⟩ 2
    (by decide!)⟩

end TrainerClaims

section PredictClaims

variable {α : Type} [Field α] [LinearOrder α] [ExpLog α]

/-- C10 (amended): for every model, also one with active dropout, the responses of
`predict` are the transposed final activation of the forward pass under the configured dropout
rates `mDropoutWeights`; in every such pass that returns, layer `l` multiplies its activation
by the mask `mDropouts[l]` when its rate lies strictly inside `(0.05, 0.8)` and leaves it
un-masked otherwise; and when no configured rate of a layer lies strictly inside
`(0.05, 0.8)` the responses equal the transposed final activation of a forward pass in which
no dropout mask is applied. -/
theorem predict_responses (m : MultilayerPerceptron α) (inp : Mat α)
    (activations outputs : List (Mat α)) :
    (predictFull m inp activations outputs).map (fun r => r.1)
      = responsesOf (doForwardPass m false inp m.mWeights m.mActivationsTypes
          m.mDropoutWeights outputs activations) ∧
    (∀ outs acts, doForwardPass m false inp m.mWeights m.mActivationsTypes
        m.mDropoutWeights outputs activations = some (outs, acts) →
      ∀ l, l < m.mNumLayers → ∃ W a type d, m.mWeights[l]? = some W ∧
        acts[l]? = some a ∧ m.mActivationsTypes[l]? = some type ∧
        m.mDropoutWeights[l]? = some d ∧
        ((0.05 < d ∧ d < 0.8) → ∃ mask, m.mDropouts[l]? = some mask ∧
          acts[l + 1]? = some (mask.hadamard (applyActivation type false (W.mul a)))) ∧
        (¬ (0.05 < d ∧ d < 0.8) →
          acts[l + 1]? = some (applyActivation type false (W.mul a)))) ∧
    ((∀ l, l < m.mNumLayers →
        ∃ d, m.mDropoutWeights[l]? = some d ∧ ¬ (0.05 < d ∧ d < 0.8)) →
      (predictFull m inp activations outputs).map (fun r => r.1)
        = responsesOf (forwardPassNoMask m.mNumLayers false inp m.mWeights
            m.mActivationsTypes outputs activations)) := by
  have h1 : (predictFull m inp activations outputs).map (fun r => r.1)
      = responsesOf (doForwardPass m false inp m.mWeights m.mActivationsTypes
          m.mDropoutWeights outputs activations) := by
    unfold predictFull responsesOf
    cases doForwardPass m false inp m.mWeights m.mActivationsTypes m.mDropoutWeights
        outputs activations with
    | none => rfl
    | some p =>
      obtain ⟨outs, acts⟩ := p
      cases hb : acts.getLast? with
      | none => simp [hb]
      | some back => simp [hb]
  refine ⟨h1, ?_, ?_⟩
  · intro outs acts hpass l hl
    obtain ⟨_, hall⟩ := forward_layers_of_some m false inp m.mWeights m.mActivationsTypes
      m.mDropoutWeights outputs activations outs acts hpass
    obtain ⟨W, a, ty, d, hW, ha, hty, hd, _, hact⟩ := hall l hl
    refine ⟨W, a, ty, d, hW, ha, hty, hd, ?_, ?_⟩
    · intro hdrop
      rw [if_pos hdrop] at hact
      exact hact
    · intro hdrop
      rw [if_neg hdrop] at hact
      exact hact
  · intro h
    rw [h1]
    unfold doForwardPass forwardPassNoMask
    congr 1
    apply foldlM_option_congr
    intro l hl st
    obtain ⟨d, hd, hc⟩ := h l (List.mem_range.mp hl)
    exact forwardLayer_eq_noMask m false m.mWeights m.mActivationsTypes m.mDropoutWeights st l
      d hd hc

/-- Witness for C10: the one-layer model `dropoutModel` with rate `1/2`, strictly inside
`(0.05, 0.8)`, and an all-zero mask, whose response `0` is the masked final activation of the
forward pass under the configured rate; and the one-layer model `noDropoutModel` with rate `0`,
whose response `2` is also that of the pass without masks. -/
theorem predict_responses_witness :
    (((0.05 : ℚ) < 1 / 2 ∧ (1 / 2 : ℚ) < 0.8) ∧
      dropoutModel.mDropoutWeights[0]? = some (1 / 2) ∧
      (predictFull dropoutModel trainInputAug [] []).map (fun r => r.1)
        = some ⟨1, 1, [[0]]⟩ ∧
      (predictFull dropoutModel trainInputAug [] []).map (fun r => r.1)
        = responsesOf (doForwardPass dropoutModel false trainInputAug dropoutModel.mWeights
            dropoutModel.mActivationsTypes dropoutModel.mDropoutWeights [] []) ∧
      ∃ W a type d mask, dropoutModel.mWeights[0]? = some W ∧
        dropoutModel.mActivationsTypes[0]? = some type ∧
        dropoutModel.mDropoutWeights[0]? = some d ∧ dropoutModel.mDropouts[0]? = some mask ∧
        ([trainInputAug, ⟨1, 1, [[0]]⟩] : List (Mat ℚ))[0]? = some a ∧
        ([trainInputAug, ⟨1, 1, [[0]]⟩] : List (Mat ℚ))[0 + 1]?
          = some (mask.hadamard (applyActivation type false (W.mul a)))) ∧
    ((∀ l, l < noDropoutModel.mNumLayers →
        ∃ d, noDropoutModel.mDropoutWeights[l]? = some d ∧ ¬ (0.05 < d ∧ d < 0.8)) ∧
      (predictFull noDropoutModel trainInputAug [] []).map (fun r => r.1)
        = some ⟨1, 1, [[2]]⟩ ∧
      (predictFull noDropoutModel trainInputAug [] []).map (fun r => r.1)
        = responsesOf (forwardPassNoMask noDropoutModel.mNumLayers false trainInputAug
            noDropoutModel.mWeights noDropoutModel.mActivationsTypes [] [])) :=
  have hin : (0.05 : ℚ) < 1 / 2 ∧ (1 / 2 : ℚ) < 0.8 := by constructor <;> norm_num
  have hpass : doForwardPass dropoutModel false trainInputAug dropoutModel.mWeights
      dropoutModel.mActivationsTypes dropoutModel.mDropoutWeights [] []
      = some ([⟨1, 1, [[0]]⟩, Mat.empty], [trainInputAug, ⟨1, 1, [[0]]⟩]) := by decide!
  have hlayer := (predict_responses dropoutModel trainInputAug [] []).2.1
    [⟨1, 1, [[0]]⟩, Mat.empty] [trainInputAug, ⟨1, 1, [[0]]⟩] hpass 0 (by decide)
  have hrate : ∀ l, l < noDropoutModel.mNumLayers →
      ∃ d, noDropoutModel.mDropoutWeights[l]? = some d ∧ ¬ (0.05 < d ∧ d < 0.8) := by
    intro l hl
    have hl0 : l = 0 := by
      have : l < 1 := hl
      omega
    subst hl0
    exact ⟨0, rfl, by norm_num⟩
  ⟨⟨hin, rfl, by decide!, (predict_responses dropoutModel trainInputAug [] []).1,
      by
        obtain ⟨W, a, ty, d, hW, ha, hty, hd, hmasked, _⟩ := hlayer
        have hd2 : d = 1 / 2 := (Option.some.inj hd).symm
        subst hd2
        obtain ⟨mask, hmask, hact⟩ := hmasked hin
        exact ⟨W, a, ty, 1 / 2, mask, hW, hty, hd, hmask, ha, hact⟩⟩,
    ⟨hrate, by decide!, (predict_responses noDropoutModel trainInputAug [] []).2.2 hrate⟩⟩

/-- C10 as stated fails: with rate `1/2` (strictly inside `(0.05, 0.8)`) and an all-zero
mask, `predict` answers `0`, while the pass without masks ends in `2`. -/
theorem predict_applies_dropout_counterexample :
    ((0.05 : ℚ) < 1 / 2 ∧ (1 / 2 : ℚ) < 0.8) ∧
    dropoutModel.mDropoutWeights = [1 / 2] ∧
    (predict dropoutModel trainInput).map (fun r => r.1) = some ⟨1, 1, [[0]]⟩ ∧
    responsesOf (forwardPassNoMask dropoutModel.mNumLayers false trainInputAug
      dropoutModel.mWeights dropoutModel.mActivationsTypes [] []) = some ⟨1, 1, [[2]]⟩ ∧
    (predictFull dropoutModel trainInputAug [] []).map (fun r => r.1)
      ≠ responsesOf (forwardPassNoMask dropoutModel.mNumLayers false trainInputAug
          dropoutModel.mWeights dropoutModel.mActivationsTypes [] []) := by
  decide!

end PredictClaims

section AllocationClaims

/-- C6, failing input: `learn` on a fresh three-layer model (node counts `2, 2, 1`,
`mNumLayers = 3`) fails instead of returning a trained model. -/
theorem learn_three_layers_fails :
    learn (threeLayerModel []) exampleRNG trainInput ⟨1, 1, [[1]]⟩ = none :=
  Option.isNone_iff_eq_none.mp (by decide!)

/-- C7, failing input: for a fresh three-layer model with node counts `2, 2, 1` and
`startNodes = 2`, `setWeights` returns matrices of shapes `3 × 2`, `0 × 0` and `1 × 0`:
the interior matrix `W[1]` is never allocated. -/
theorem setWeights_three_layers_shapes :
    (setWeights (threeLayerModel []) exampleRNG 2).map
      (fun r => r.1.mWeights.map fun w => (w.rows, w.cols))
      = some [(3, 2), (0, 0), (1, 0)] := by
  decide!

/-- C8, failing input: after `setWeights` on the fresh three-layer model there are three
weight matrices, `W[1]` has `0` columns while `activations[1]` has `3` rows, and the forward
pass fails. -/
theorem setWeights_three_layers_forward_fails :
    (setWeights (threeLayerModel []) exampleRNG 2).map (fun r => r.1.mWeights.length)
      = some 3 ∧
    (setWeights (threeLayerModel []) exampleRNG 2).map
      (fun r => r.1.mWeights[1]?.map fun w => w.cols) = some (some 0) ∧
    ((setWeights (threeLayerModel []) exampleRNG 2).bind fun r =>
      forwardLayer r.1 false r.1.mWeights r.1.mActivationsTypes r.1.mDropoutWeights
        ((vresize 4 []).set 0 trainInputAug, (vresize 4 []).set 0 trainInputAug) 0).map
      (fun st => st.2[1]?.map fun a => a.rows) = some (some 3) ∧
    ((setWeights (threeLayerModel []) exampleRNG 2).bind fun r =>
      doForwardPass r.1 false trainInputAug r.1.mWeights r.1.mActivationsTypes
        r.1.mDropoutWeights [] []) = none := by
  decide!

/-- C9, failing input: two three-layer models that differ only in the weight matrices held
before the call, trained with the same generator, input and labels, end with different
weight matrices. -/
theorem learn_keeps_stale_weights :
    { threeLayerModel staleWeightsA with mWeights := staleWeightsB }
      = threeLayerModel staleWeightsB ∧
    (learn (threeLayerModel staleWeightsA) exampleRNG trainInput ⟨1, 1, [[1]]⟩).isSome
      = true ∧
    (learn (threeLayerModel staleWeightsB) exampleRNG trainInput ⟨1, 1, [[1]]⟩).isSome
      = true ∧
    (learn (threeLayerModel staleWeightsA) exampleRNG trainInput ⟨1, 1, [[1]]⟩).map
        (fun r => r.1.mWeights)
      ≠ (learn (threeLayerModel staleWeightsB) exampleRNG trainInput ⟨1, 1, [[1]]⟩).map
        (fun r => r.1.mWeights) := by
  refine ⟨rfl, ?_, ?_, ?_⟩ <;> decide!

end AllocationClaims

section ArgmaxLemmas

variable {α : Type} [LinearOrder α]

theorem maxIdxFrom_scan :
    ∀ (xs pre : List α) (i : Nat) (v : α), pre[i]? = some v →
      (∀ (j : Nat) (x : α), pre[j]? = some x → x ≤ v) →
      (∀ (j : Nat) (x : α), j < i → pre[j]? = some x → x < v) →
      ∃ (c : Nat) (w : α), maxIdxFrom xs pre.length (some (i, v)) = (c : Int) ∧
        (pre ++ xs)[c]? = some w ∧
        (∀ (j : Nat) (x : α), (pre ++ xs)[j]? = some x → x ≤ w) ∧
        (∀ (j : Nat) (x : α), j < c → (pre ++ xs)[j]? = some x → x < w) := by
  intro xs
  induction xs with
  | nil =>
    intro pre i v hi hmax hfirst
    refine ⟨i, v, rfl, by simpa using hi, ?_, ?_⟩
    · intro j x hx
      exact hmax j x (by simpa using hx)
    · intro j x hj hx
      exact hfirst j x hj (by simpa using hx)
  | cons y ys ih =>
    intro pre i v hi hmax hfirst
    have hlen : (pre ++ [y]).length = pre.length + 1 := by simp
    have happ : pre ++ y :: ys = (pre ++ [y]) ++ ys := by simp
    have hsplit : ∀ (j : Nat) (x : α), (pre ++ [y])[j]? = some x →
        (j < pre.length ∧ pre[j]? = some x) ∨ (j = pre.length ∧ x = y) := by
      intro j x hx
      by_cases hj : j < pre.length
      · left
        rw [List.getElem?_append_left hj] at hx
        exact ⟨hj, hx⟩
      · right
        have hj2 : pre.length ≤ j := Nat.le_of_not_lt hj
        rw [List.getElem?_append_right hj2] at hx
        by_cases hz : j - pre.length = 0
        · rw [hz] at hx
          simp only [List.getElem?_cons_zero, Option.some.injEq] at hx
          exact ⟨by omega, hx.symm⟩
        · obtain ⟨k, hk⟩ := Nat.exists_eq_succ_of_ne_zero hz
          rw [hk] at hx
          simp at hx
    have hilt : i < pre.length := by
      by_contra hge
      rw [List.getElem?_eq_none (Nat.le_of_not_lt hge)] at hi
      exact absurd hi (by simp)
    by_cases hlt : v < y
    · have hstep : maxIdxFrom (y :: ys) pre.length (some (i, v))
          = maxIdxFrom ys (pre ++ [y]).length (some (pre.length, y)) := by
        rw [hlen]
        simp only [maxIdxFrom, if_pos hlt]
      rw [hstep, happ]
      apply ih (pre ++ [y]) pre.length y
      · simp
      · intro j x hx
        rcases hsplit j x hx with ⟨_, hp⟩ | ⟨_, he⟩
        · exact le_of_lt (lt_of_le_of_lt (hmax j x hp) hlt)
        · rw [he]
      · intro j x hj hx
        rcases hsplit j x hx with ⟨_, hp⟩ | ⟨hje, _⟩
        · exact lt_of_le_of_lt (hmax j x hp) hlt
        · omega
    · have hstep : maxIdxFrom (y :: ys) pre.length (some (i, v))
          = maxIdxFrom ys (pre ++ [y]).length (some (i, v)) := by
        rw [hlen]
        simp only [maxIdxFrom, if_neg hlt]
      rw [hstep, happ]
      apply ih (pre ++ [y]) i v
      · rw [List.getElem?_append_left hilt]
        exact hi
      · intro j x hx
        rcases hsplit j x hx with ⟨_, hp⟩ | ⟨_, he⟩
        · exact hmax j x hp
        · rw [he]
          exact le_of_not_lt hlt
      · intro j x hj hx
        rcases hsplit j x hx with ⟨_, hp⟩ | ⟨hje, _⟩
        · exact hfirst j x hj hp
        · omega

theorem maxIdxFrom_first_max (y : α) (ys : List α) :
    ∃ (c : Nat) (w : α), maxIdxFrom (y :: ys) 0 none = (c : Int) ∧
      (y :: ys)[c]? = some w ∧
      (∀ (j : Nat) (x : α), (y :: ys)[j]? = some x → x ≤ w) ∧
      (∀ (j : Nat) (x : α), j < c → (y :: ys)[j]? = some x → x < w) := by
  have h := maxIdxFrom_scan ys [y] 0 y rfl
    (by
      intro j x hx
      cases j with
      | zero =>
        simp only [List.getElem?_cons_zero, Option.some.injEq] at hx
        rw [hx]
      | succ j => simp at hx)
    (by
      intro j x hj
      omega)
  simpa [maxIdxFrom] using h

end ArgmaxLemmas

section ArgmaxMatrix

variable {α : Type} [LinearOrder α]

theorem argmaxLabels_ofFn (R C : Nat) (f : Nat → Nat → α) (hC : 0 < C) (r : Nat)
    (hr : r < R) :
    ∃ c : Nat, (argmaxLabels (Mat.ofFn R C f))[r]? = some (c : Int) ∧ c < C ∧
      (∀ j, j < C → f r j ≤ f r c) ∧ (∀ j, j < c → f r j < f r c) := by
  have hrow : (Mat.ofFn R C f).data.getD r [] = (List.range C).map (f r) := by
    simp [Mat.ofFn, List.getD, hr]
  have hget : ∀ j, j < C → ((List.range C).map (f r))[j]? = some (f r j) := by
    intro j hj
    simp [hj]
  obtain ⟨y, ys, hys⟩ : ∃ y ys, (List.range C).map (f r) = y :: ys := by
    cases hl : (List.range C).map (f r) with
    | nil =>
      have hlen := congrArg List.length hl
      simp at hlen
      omega
    | cons y ys => exact ⟨y, ys, rfl⟩
  obtain ⟨c, w, hc, hw, hmax, hfirst⟩ := maxIdxFrom_first_max y ys
  rw [← hys] at hc hw hmax hfirst
  have hcC : c < C := by
    by_contra hge
    rw [List.getElem?_eq_none (by simpa using Nat.le_of_not_lt hge)] at hw
    exact absurd hw (by simp)
  have hwc : w = f r c := by
    rw [hget c hcC] at hw
    exact (Option.some.inj hw).symm
  refine ⟨c, ?_, hcC, ?_, ?_⟩
  · simp only [argmaxLabels, Mat.ofFn_rows, List.getElem?_map]
    rw [List.getElem?_range hr]
    simp only [Option.map_some', hrow, hc]
  · intro j hj
    rw [← hwc]
    exact hmax j (f r j) (hget j hj)
  · intro j hj
    rw [← hwc]
    exact hfirst j (f r j) hj (hget j (by omega))

end ArgmaxMatrix

section ArgmaxClaims

variable {α : Type} [Field α] [LinearOrder α] [ExpLog α]

/-- C11: when `predict` returns responses with at least one column, it returns one label per
row, and `labels[r]` is the lowest column index `c` at which row `r` of the responses takes
its maximum: `c < cols`, no entry of the row exceeds `responses[r][c]`, and every entry to the
left of `c` is strictly smaller (so of two tied maxima the lower index is returned). -/
theorem predict_labels_argmax (m : MultilayerPerceptron α) (inp : Mat α)
    (activations0 outputs0 : List (Mat α)) (resp : Mat α) (labels : List Int)
    (activations outputs : List (Mat α))
    (h : predictFull m inp activations0 outputs0 = some (resp, labels, activations, outputs))
    (hc : 0 < resp.cols) :
    labels.length = resp.rows ∧
    ∀ r, r < resp.rows → ∃ c : Nat, labels[r]? = some (c : Int) ∧ c < resp.cols ∧
      (∀ j, j < resp.cols → resp.get r j ≤ resp.get r c) ∧
      (∀ j, j < c → resp.get r j < resp.get r c) := by
  unfold predictFull at h
  simp only [Option.bind_eq_bind] at h
  obtain ⟨⟨outs, acts⟩, _, h⟩ := Option.bind_eq_some.mp h
  obtain ⟨back, _, h⟩ := Option.bind_eq_some.mp h
  simp only [Option.some.injEq, Prod.mk.injEq] at h
  obtain ⟨hresp, hlabels, _, _⟩ := h
  subst hresp
  subst hlabels
  refine ⟨by simp [argmaxLabels], ?_⟩
  intro r hr
  have hr2 : r < back.cols := hr
  have hc2 : 0 < back.rows := hc
  obtain ⟨c, hlab, hcC, hmax, hfirst⟩ :=
    argmaxLabels_ofFn back.cols back.rows (fun i j => back.get j i) hc2 r hr2
  refine ⟨c, hlab, hcC, ?_, ?_⟩
  · intro j hj
    have hj2 : j < back.rows := hj
    unfold Mat.t
    rw [Mat.get_ofFn _ _ _ hr2 hj2, Mat.get_ofFn _ _ _ hr2 hcC]
    exact hmax j hj2
  · intro j hj
    unfold Mat.t
    rw [Mat.get_ofFn _ _ _ hr2 (by omega), Mat.get_ofFn _ _ _ hr2 hcC]
    exact hfirst j hj

end ArgmaxClaims

section ForwardShapeLemmas

variable {α : Type} [Field α] [LinearOrder α] [ExpLog α]

theorem forward_pass_shapes (m : MultilayerPerceptron α) (isUMat : Bool) (input : Mat α)
    (weights : List (Mat α)) (activationTypes : List String) (dropout : List α)
    (outputs0 activations0 : List (Mat α))
    (hc : ForwardCompatible m input weights activationTypes dropout) :
    ∃ outputs activations,
      doForwardPass m isUMat input weights activationTypes dropout outputs0 activations0
        = some (outputs, activations) ∧
      outputs.length = m.mNumLayers + 1 ∧ activations.length = m.mNumLayers + 1 := by
  obtain ⟨outputs, activations, h⟩ := doForwardPass_some m isUMat input weights
    activationTypes dropout outputs0 activations0 hc
  refine ⟨outputs, activations, h, ?_⟩
  unfold doForwardPass at h
  obtain ⟨h1, h2, _⟩ := forward_fold_inv m isUMat weights activationTypes dropout m.mNumLayers
    ((vresize (m.mNumLayers + 1) outputs0).set 0 input,
      (vresize (m.mNumLayers + 1) activations0).set 0 input)
    (by simp [vresize_length]) (by simp [vresize_length]) m.mNumLayers (Nat.le_refl _)
    (outputs, activations) h
  exact ⟨h1, h2⟩

theorem forward_batch_cols (m : MultilayerPerceptron α) (isUMat : Bool) (input : Mat α)
    (weights : List (Mat α)) (activationTypes : List String) (dropout : List α)
    (outputs activations : List (Mat α))
    (hc : ForwardCompatible m input weights activationTypes dropout)
    (h0 : activations[0]? = some input)
    (hl : ∀ l, l < m.mNumLayers →
      ForwardLayerShared m isUMat weights activationTypes dropout outputs activations l) :
    ∀ l, l ≤ m.mNumLayers → ∃ a, activations[l]? = some a ∧ a.cols = input.cols := by
  intro l
  induction l with
  | zero =>
    intro _
    exact ⟨input, h0, rfl⟩
  | succ l ih =>
    intro hle
    obtain ⟨a, ha, hac⟩ := ih (by omega)
    obtain ⟨W, a2, ty, d, hW, ha2, hty, hd, _, hact⟩ := hl l (by omega)
    rw [ha] at ha2
    have haeq : a = a2 := Option.some.inj ha2
    subst haeq
    obtain ⟨W2, ty2, d2, hW2, hty2, hd2, _, hmask⟩ := hc l (by omega)
    rw [hd] at hd2
    have hdeq : d = d2 := Option.some.inj hd2
    subst hdeq
    by_cases hdrop : 0.05 < d ∧ d < 0.8
    · rw [if_pos hdrop] at hact
      obtain ⟨mask, hm, hres⟩ := hact
      obtain ⟨mask2, hm2, _, hmc⟩ := hmask hdrop
      rw [hm] at hm2
      have hmeq : mask = mask2 := Option.some.inj hm2
      subst hmeq
      exact ⟨_, hres, hmc⟩
    · rw [if_neg hdrop] at hact
      refine ⟨_, hact, ?_⟩
      rw [(applyActivation_shape ty isUMat (W.mul a)).2]
      exact hac

end ForwardShapeLemmas

section ForwardQuirkClaims

variable {α : Type} [LinearOrderedField α] [ExpLog α]

/-- C12: in a forward pass over compatible shapes the dropout mask of layer `l` is applied
if and only if the configured rate `d` satisfies `0.05 < d < 0.8`: inside the interval
`activations[l + 1]` is the mask times the activation, at or outside its ends it is the
un-masked activation; in particular it is un-masked for `d = 0.05` and `d = 0.8` and masked
for `d = 0.5`. -/
theorem dropout_boundary (m : MultilayerPerceptron α) (isUMat : Bool) (input : Mat α)
    (weights : List (Mat α)) (activationTypes : List String) (dropout : List α)
    (outputs0 activations0 : List (Mat α))
    (hc : ForwardCompatible m input weights activationTypes dropout) :
    ∃ outputs activations,
      doForwardPass m isUMat input weights activationTypes dropout outputs0 activations0
        = some (outputs, activations) ∧
      ∀ l, l < m.mNumLayers → ∃ W a type d, weights[l]? = some W ∧
        activations[l]? = some a ∧ activationTypes[l]? = some type ∧ dropout[l]? = some d ∧
        ((0.05 < d ∧ d < 0.8) → ∃ mask, m.mDropouts[l]? = some mask ∧
          activations[l + 1]? = some (mask.hadamard (applyActivation type isUMat (W.mul a)))) ∧
        ((d ≤ 0.05 ∨ 0.8 ≤ d) →
          activations[l + 1]? = some (applyActivation type isUMat (W.mul a))) ∧
        (d = 0.05 → activations[l + 1]? = some (applyActivation type isUMat (W.mul a))) ∧
        (d = 0.8 → activations[l + 1]? = some (applyActivation type isUMat (W.mul a))) ∧
        (d = 0.5 → ∃ mask, m.mDropouts[l]? = some mask ∧
          activations[l + 1]? = some (mask.hadamard (applyActivation type isUMat (W.mul a)))) := by
  obtain ⟨outputs, activations, h⟩ := doForwardPass_some m isUMat input weights
    activationTypes dropout outputs0 activations0 hc
  refine ⟨outputs, activations, h, ?_⟩
  obtain ⟨_, hall⟩ := forward_layers_of_some m isUMat input weights activationTypes dropout
    outputs0 activations0 outputs activations h
  intro l hl
  obtain ⟨W, a, ty, d, hW, ha, hty, hd, _, hact⟩ := hall l hl
  have hin : (0.05 < d ∧ d < 0.8) → ∃ mask, m.mDropouts[l]? = some mask ∧
      activations[l + 1]? = some (mask.hadamard (applyActivation ty isUMat (W.mul a))) := by
    intro hdrop
    rw [if_pos hdrop] at hact
    exact hact
  have hout : (d ≤ 0.05 ∨ 0.8 ≤ d) →
      activations[l + 1]? = some (applyActivation ty isUMat (W.mul a)) := by
    intro hor
    have hdrop : ¬ (0.05 < d ∧ d < 0.8) := by
      rintro ⟨h1, h2⟩
      rcases hor with h3 | h3
      · exact absurd h1 (not_lt.mpr h3)
      · exact absurd h2 (not_lt.mpr h3)
    rw [if_neg hdrop] at hact
    exact hact
  refine ⟨W, a, ty, d, hW, ha, hty, hd, hin, hout, ?_, ?_, ?_⟩
  · intro he
    exact hout (Or.inl (le_of_eq he))
  · intro he
    exact hout (Or.inr (le_of_eq he.symm))
  · intro he
    apply hin
    rw [he]
    constructor <;> norm_num

end ForwardQuirkClaims

section ForwardQuirkWitness

/-- Witness for C12: three layers with the rates `0.05`, `0.5` and `0.8`. -/
theorem dropout_boundary_witness :
    ForwardCompatible boundaryModel ⟨1, 1, [[1]]⟩ boundaryWeights ["", "", ""]
      [0.05, 0.5, 0.8] ∧
    doForwardPass boundaryModel false ⟨1, 1, [[1]]⟩ boundaryWeights ["", "", ""]
        [0.05, 0.5, 0.8] [] []
      = some ([⟨1, 1, [[2]]⟩, ⟨1, 1, [[3]]⟩, ⟨1, 1, [[15]]⟩, Mat.empty],
          [⟨1, 1, [[1]]⟩, ⟨1, 1, [[2]]⟩, ⟨1, 1, [[3]]⟩, ⟨1, 1, [[15]]⟩]) ∧
    ∃ outputs activations,
      doForwardPass boundaryModel false ⟨1, 1, [[1]]⟩ boundaryWeights ["", "", ""]
        [0.05, 0.5, 0.8] [] [] = some (outputs, activations) ∧
      ∀ l, l < boundaryModel.mNumLayers → ∃ W a type d, boundaryWeights[l]? = some W ∧
        activations[l]? = some a ∧ (["", "", ""] : List String)[l]? = some type ∧
        ([0.05, 0.5, 0.8] : List ℚ)[l]? = some d ∧
        ((0.05 < d ∧ d < 0.8) → ∃ mask, boundaryModel.mDropouts[l]? = some mask ∧
          activations[l + 1]? = some (mask.hadamard (applyActivation type false (W.mul a)))) ∧
        ((d ≤ 0.05 ∨ 0.8 ≤ d) →
          activations[l + 1]? = some (applyActivation type false (W.mul a))) ∧
        (d = 0.05 → activations[l + 1]? = some (applyActivation type false (W.mul a))) ∧
        (d = 0.8 → activations[l + 1]? = some (applyActivation type false (W.mul a))) ∧
        (d = 0.5 → ∃ mask, boundaryModel.mDropouts[l]? = some mask ∧
          activations[l + 1]? = some (mask.hadamard (applyActivation type false (W.mul a)))) :=
  have hc : ForwardCompatible boundaryModel ⟨1, 1, [[1]]⟩ boundaryWeights ["", "", ""]
      [0.05, 0.5, 0.8] := by
    intro l hl
    have h3 : l < 3 := hl
    have hcases : l = 0 ∨ l = 1 ∨ l = 2 := by omega
    rcases hcases with h | h | h
    · subst h
      exact ⟨⟨1, 1, [[2]]⟩, "", 0.05, rfl, rfl, rfl, rfl, fun h => absurd h.1 (by norm_num)⟩
    · subst h
      exact ⟨⟨1, 1, [[3]]⟩, "", 0.5, rfl, rfl, rfl, rfl,
        fun _ => ⟨⟨1, 1, [[1 / 2]]⟩, rfl, rfl, rfl⟩⟩
    · subst h
      exact ⟨⟨1, 1, [[5]]⟩, "", 0.8, rfl, rfl, rfl, rfl, fun h => absurd h.2 (by norm_num)⟩
  ⟨hc, by decide!, dropout_boundary boundaryModel false ⟨1, 1, [[1]]⟩ boundaryWeights
    ["", "", ""] [0.05, 0.5, 0.8] [] [] hc⟩

end ForwardQuirkWitness

section ForwardIndexClaims

variable {α : Type} [Field α] [LinearOrder α] [ExpLog α]

/-- C13 (code defect): in a forward pass over `L ≥ 1` layers with compatible shapes
`activations[0]` is the original input, but `outputs[0]` is not: the copy of the input stored
there first is overwritten by the first iteration of the loop, and `outputs[0]` comes back
holding the matrix of `activations[1]`, the activation of `weights[0] * input`, times the mask
of layer `0` exactly when `0.05 < dropout[0] < 0.8`. -/
theorem doForwardPass_index_zero (m : MultilayerPerceptron α) (isUMat : Bool) (input : Mat α)
    (weights : List (Mat α)) (activationTypes : List String) (dropout : List α)
    (outputs0 activations0 : List (Mat α))
    (hc : ForwardCompatible m input weights activationTypes dropout)
    (hL : 1 ≤ m.mNumLayers) :
    ∃ (outputs activations : List (Mat α)) (W : Mat α) (type : String) (d : α) (a1 : Mat α),
      doForwardPass m isUMat input weights activationTypes dropout outputs0 activations0
        = some (outputs, activations) ∧
      activations[0]? = some input ∧ weights[0]? = some W ∧
      activationTypes[0]? = some type ∧ dropout[0]? = some d ∧
      outputs[0]? = some a1 ∧ activations[1]? = some a1 ∧
      ((0.05 < d ∧ d < 0.8) → ∃ mask, m.mDropouts[0]? = some mask ∧
        a1 = mask.hadamard (applyActivation type isUMat (W.mul input))) ∧
      (¬ (0.05 < d ∧ d < 0.8) → a1 = applyActivation type isUMat (W.mul input)) := by
  obtain ⟨outputs, activations, h⟩ := doForwardPass_some m isUMat input weights
    activationTypes dropout outputs0 activations0 hc
  obtain ⟨h0, hall⟩ := forward_layers_of_some m isUMat input weights activationTypes dropout
    outputs0 activations0 outputs activations h
  obtain ⟨W, a, ty, d, hW, ha, hty, hd, hout, hact⟩ := hall 0 (by omega)
  rw [h0] at ha
  have haeq : input = a := Option.some.inj ha
  subst haeq
  simp only [Nat.zero_add] at hout hact
  by_cases hdrop : 0.05 < d ∧ d < 0.8
  · rw [if_pos hdrop] at hact
    obtain ⟨mask, hmask, hres⟩ := hact
    refine ⟨outputs, activations, W, ty, d, _, h, h0, hW, hty, hd, ?_, hres, ?_, ?_⟩
    · rw [hout, hres]
    · intro _
      exact ⟨mask, hmask, rfl⟩
    · intro hn
      exact absurd hdrop hn
  · rw [if_neg hdrop] at hact
    refine ⟨outputs, activations, W, ty, d, _, h, h0, hW, hty, hd, ?_, hact, ?_, ?_⟩
    · rw [hout, hact]
    · intro hp
      exact absurd hp hdrop
    · intro _
      rfl

/-- Failing input for C13: in the forward pass of `fwdModel` (two layers, `relu` and the
mask of layer `0`) `activations[0]` is the input with entries `1` and `1`, while
`outputs[0]` and `activations[1]` both hold the entries `3` and `0`. -/
theorem doForwardPass_index_zero_witness :
    ForwardCompatible fwdModel fwdInput fwdWeights ["relu", ""] [1 / 2, 0] ∧
    1 ≤ fwdModel.mNumLayers ∧
    ((doForwardPass fwdModel false fwdInput fwdWeights ["relu", ""] [1 / 2, 0] [] []).map
      (fun p => (p.1[0]?, p.2[0]?, p.2[1]?))
      = some (some ⟨2, 1, [[3], [0]]⟩, some fwdInput, some ⟨2, 1, [[3], [0]]⟩)) ∧
    (⟨2, 1, [[3], [0]]⟩ : Mat ℚ) ≠ fwdInput ∧
    ∃ (outputs activations : List (Mat ℚ)) (W : Mat ℚ) (type : String) (d : ℚ) (a1 : Mat ℚ),
      doForwardPass fwdModel false fwdInput fwdWeights ["relu", ""] [1 / 2, 0] [] []
        = some (outputs, activations) ∧
      activations[0]? = some fwdInput ∧ fwdWeights[0]? = some W ∧
      (["relu", ""] : List String)[0]? = some type ∧ ([1 / 2, 0] : List ℚ)[0]? = some d ∧
      outputs[0]? = some a1 ∧ activations[1]? = some a1 ∧
      ((0.05 < d ∧ d < 0.8) → ∃ mask, fwdModel.mDropouts[0]? = some mask ∧
        a1 = mask.hadamard (applyActivation type false (W.mul fwdInput))) ∧
      (¬ (0.05 < d ∧ d < 0.8) → a1 = applyActivation type false (W.mul fwdInput)) :=
  have hc : ForwardCompatible fwdModel fwdInput fwdWeights ["relu", ""] [1 / 2, 0] := by
    intro l hl
    have h2 : l < 2 := hl
    have hcases : l = 0 ∨ l = 1 := by omega
    rcases hcases with h0 | h1
    · subst h0
      exact ⟨⟨2, 2, [[1, 2], [-3, 1]]⟩, "relu", 1 / 2, rfl, rfl, rfl, rfl,
        fun _ => ⟨⟨2, 1, [[1], [0]]⟩, rfl, rfl, rfl⟩⟩
    · subst h1
      exact ⟨⟨1, 2, [[1, 1]]⟩, "", 0, rfl, rfl, rfl, rfl,
        fun h => absurd h.1 (by norm_num)⟩
  ⟨hc, by decide, by decide!, by decide!,
    doForwardPass_index_zero fwdModel false fwdInput fwdWeights ["relu", ""]
      [1 / 2, 0] [] [] hc (by decide)⟩

/-- C14 (amended): for compatible shapes `doForwardPass` returns `outputs` and `activations`
of length exactly `mNumLayers + 1` (the configured layer count, not the number of weight
matrices passed in), `activations[0]` has the rows of the input, and every `activations[l]`,
in particular `activations[mNumLayers]`, has the columns of the input. -/
theorem doForwardPass_shapes (m : MultilayerPerceptron α) (isUMat : Bool) (input : Mat α)
    (weights : List (Mat α)) (activationTypes : List String) (dropout : List α)
    (outputs0 activations0 : List (Mat α))
    (hc : ForwardCompatible m input weights activationTypes dropout) :
    ∃ outputs activations,
      doForwardPass m isUMat input weights activationTypes dropout outputs0 activations0
        = some (outputs, activations) ∧
      outputs.length = m.mNumLayers + 1 ∧ activations.length = m.mNumLayers + 1 ∧
      (∃ a0, activations[0]? = some a0 ∧ a0.rows = input.rows) ∧
      (∃ aL, activations[m.mNumLayers]? = some aL ∧ aL.cols = input.cols) ∧
      ∀ l, l ≤ m.mNumLayers → ∃ a, activations[l]? = some a ∧ a.cols = input.cols := by
  obtain ⟨outputs, activations, h, hlo, hla⟩ := forward_pass_shapes m isUMat input weights
    activationTypes dropout outputs0 activations0 hc
  obtain ⟨h0, hall⟩ := forward_layers_of_some m isUMat input weights activationTypes dropout
    outputs0 activations0 outputs activations h
  have hcols := forward_batch_cols m isUMat input weights activationTypes dropout outputs
    activations hc h0 hall
  exact ⟨outputs, activations, h, hlo, hla, ⟨input, h0, rfl⟩,
    hcols m.mNumLayers (Nat.le_refl _), hcols⟩

/-- Witness for C14: the forward pass of `boundaryModel` (three layers). -/
theorem doForwardPass_shapes_witness :
    ForwardCompatible boundaryModel ⟨1, 1, [[1]]⟩ boundaryWeights ["", "", ""]
      [0.05, 0.5, 0.8] ∧
    ∃ outputs activations,
      doForwardPass boundaryModel false ⟨1, 1, [[1]]⟩ boundaryWeights ["", "", ""]
        [0.05, 0.5, 0.8] [] [] = some (outputs, activations) ∧
      outputs.length = boundaryModel.mNumLayers + 1 ∧
      activations.length = boundaryModel.mNumLayers + 1 ∧
      (∃ a0, activations[0]? = some a0 ∧ a0.rows = (⟨1, 1, [[1]]⟩ : Mat ℚ).rows) ∧
      (∃ aL, activations[boundaryModel.mNumLayers]? = some aL ∧
        aL.cols = (⟨1, 1, [[1]]⟩ : Mat ℚ).cols) ∧
      ∀ l, l ≤ boundaryModel.mNumLayers →
        ∃ a, activations[l]? = some a ∧ a.cols = (⟨1, 1, [[1]]⟩ : Mat ℚ).cols :=
  have hc : ForwardCompatible boundaryModel ⟨1, 1, [[1]]⟩ boundaryWeights ["", "", ""]
      [0.05, 0.5, 0.8] := by
    intro l hl
    have h3 : l < 3 := hl
    have hcases : l = 0 ∨ l = 1 ∨ l = 2 := by omega
    rcases hcases with h | h | h
    · subst h
      exact ⟨⟨1, 1, [[2]]⟩, "", 0.05, rfl, rfl, rfl, rfl, fun h => absurd h.1 (by norm_num)⟩
    · subst h
      exact ⟨⟨1, 1, [[3]]⟩, "", 0.5, rfl, rfl, rfl, rfl,
        fun _ => ⟨⟨1, 1, [[1 / 2]]⟩, rfl, rfl, rfl⟩⟩
    · subst h
      exact ⟨⟨1, 1, [[5]]⟩, "", 0.8, rfl, rfl, rfl, rfl, fun h => absurd h.2 (by norm_num)⟩
  ⟨hc, doForwardPass_shapes boundaryModel false ⟨1, 1, [[1]]⟩ boundaryWeights ["", "", ""]
    [0.05, 0.5, 0.8] [] [] hc⟩

/-- C14 as stated fails: with two weight matrices passed in and `mNumLayers = 1` the pass
returns `outputs` and `activations` of length `2`, not `3`, and there is no
`activations[2]`. -/
theorem doForwardPass_length_counterexample :
    ([⟨1, 1, [[2]]⟩, ⟨1, 1, [[3]]⟩] : List (Mat ℚ)).length = 2 ∧
    (doForwardPass (exampleModel 1 ["", ""] [1, 1] [0, 0] [] [] 1) false ⟨1, 2, [[1, 2]]⟩
        [⟨1, 1, [[2]]⟩, ⟨1, 1, [[3]]⟩] ["", ""] [0, 0] [] []).map
      (fun p => (p.1.length, p.2.length, p.2[2]?)) = some (2, 2, none) := by
  decide!

/-- Witness for C11: a row with two equal maxima gets the label `0`. -/
theorem predict_labels_argmax_witness :
    predictFull tieModel trainInputAug [] []
      = some (⟨1, 2, [[2, 2]]⟩, [0], [trainInputAug, ⟨2, 1, [[2], [2]]⟩],
          [⟨2, 1, [[2], [2]]⟩, Mat.empty]) ∧
    0 < (⟨1, 2, [[2, 2]]⟩ : Mat ℚ).cols ∧
    (([0] : List Int).length = (⟨1, 2, [[2, 2]]⟩ : Mat ℚ).rows ∧
    ∀ r, r < (⟨1, 2, [[2, 2]]⟩ : Mat ℚ).rows → ∃ c : Nat,
      ([0] : List Int)[r]? = some (c : Int) ∧ c < (⟨1, 2, [[2, 2]]⟩ : Mat ℚ).cols ∧
      (∀ j, j < (⟨1, 2, [[2, 2]]⟩ : Mat ℚ).cols →
        (⟨1, 2, [[2, 2]]⟩ : Mat ℚ).get r j ≤ (⟨1, 2, [[2, 2]]⟩ : Mat ℚ).get r c) ∧
      (∀ j, j < c →
        (⟨1, 2, [[2, 2]]⟩ : Mat ℚ).get r j < (⟨1, 2, [[2, 2]]⟩ : Mat ℚ).get r c)) :=
  ⟨by decide!, by decide, predict_labels_argmax tieModel trainInputAug [] [] ⟨1, 2, [[2, 2]]⟩
    [0] [trainInputAug, ⟨2, 1, [[2], [2]]⟩] [⟨2, 1, [[2], [2]]⟩, Mat.empty] (by decide!)
    (by decide)⟩

end ForwardIndexClaims

section SumLemmas

variable {α : Type}

theorem sumTo_congr [Zero α] [Add α] (n : Nat) (f g : Nat → α)
    (h : ∀ k, k < n → f k = g k) : sumTo n f = sumTo n g := by
  unfold sumTo
  congr 1
  apply List.map_congr_left
  intro k hk
  exact h k (List.mem_range.mp hk)

theorem sumTo_add [AddCommMonoid α] (n : Nat) (f g : Nat → α) :
    sumTo n (fun k => f k + g k) = sumTo n f + sumTo n g := by
  unfold sumTo
  exact List.sum_map_add

theorem Mat.sum_ofFn [Zero α] [Add α] (r c : Nat) (f : Nat → Nat → α) :
    (Mat.ofFn r c f).sum = sumTo r fun i => sumTo c fun j => f i j := by
  unfold Mat.sum
  apply sumTo_congr
  intro i hi
  apply sumTo_congr
  intro j hj
  exact Mat.get_ofFn r c f hi hj

theorem sameSize_of_eq (a b : Mat α) (hr : a.rows = b.rows) (hc : a.cols = b.cols) :
    a.sameSize b = true := by
  simp [Mat.sameSize, hr, hc]

end SumLemmas

section LossClaims

variable {α : Type} [Field α] [ExpLog α]

/-- C15: for equally shaped non-empty matrices, `computeLoss("quadratic")` returns the sum of
`(output - target)^2` over all elements divided by `rows * cols` of the target, and
`computeLossDerivative("quadratic")` returns the matrix `output - target`, entry by entry. -/
theorem quadratic_loss (out target error : Mat α) (hr : out.rows = target.rows)
    (hc : out.cols = target.cols) (_hne : 0 < target.rows ∧ 0 < target.cols) :
    computeLoss "quadratic" out target
      = some ((sumTo target.rows fun i => sumTo target.cols fun j =>
          (out.get i j - target.get i j) ^ 2) / ((target.rows * target.cols : Nat) : α)) ∧
    ∃ d, computeLossDerivative "quadratic" out target error = some d ∧
      d.rows = target.rows ∧ d.cols = target.cols ∧
      ∀ i j, i < target.rows → j < target.cols → d.get i j = out.get i j - target.get i j := by
  have hs := sameSize_of_eq out target hr hc
  constructor
  · have hne : ¬ ("quadratic" = "log") := by decide
    unfold computeLoss
    rw [if_neg hne, if_pos rfl]
    simp only [Option.bind_eq_bind, subtract, hs, if_true, Option.some_bind, Mat.sub,
      Mat.zipWith, Mat.map_ofFn, Mat.sum_ofFn, hr, hc]
  · refine ⟨out.sub target, ?_, hr, hc, ?_⟩
    · unfold computeLossDerivative
      rw [if_pos rfl]
      simp only [subtract, hs, if_true]
    · intro i j hi hj
      unfold Mat.sub Mat.zipWith
      rw [Mat.get_ofFn _ _ _ (by omega) (by omega)]

/-- C16: for equally shaped non-empty matrices, `computeLoss("log")` returns minus the mean
over all elements of `target * log(output + eps) + (1 - target) * log(1 - output + eps)`; the
two separately averaged sums of the code add up to that single mean. -/
theorem log_loss_mean (out target : Mat α) (hr : out.rows = target.rows)
    (hc : out.cols = target.cols) (_hne : 0 < target.rows ∧ 0 < target.cols) :
    computeLoss "log" out target
      = some (-((sumTo target.rows fun i => sumTo target.cols fun j =>
          target.get i j * ExpLog.log (out.get i j + FLT_EPSILON)
            + (1 - target.get i j) * ExpLog.log (1 - out.get i j + FLT_EPSILON))
          / ((target.rows * target.cols : Nat) : α))) := by
  have hs1 : target.sameSize (out.map fun x => ExpLog.log (x + FLT_EPSILON)) = true :=
    sameSize_of_eq _ _ hr.symm hc.symm
  have hs2 : (target.map fun x => 1 - x).sameSize
      (out.map fun x => ExpLog.log (1 - x + FLT_EPSILON)) = true :=
    sameSize_of_eq _ _ hr.symm hc.symm
  have h1 : (target.hadamard (out.map fun x => ExpLog.log (x + FLT_EPSILON))).sum
      = sumTo target.rows fun i => sumTo target.cols fun j =>
          target.get i j * ExpLog.log (out.get i j + FLT_EPSILON) := by
    unfold Mat.hadamard Mat.zipWith
    rw [Mat.sum_ofFn]
    apply sumTo_congr
    intro i hi
    apply sumTo_congr
    intro j hj
    unfold Mat.map
    rw [Mat.get_ofFn _ _ _ (by omega) (by omega)]
  have h2 : ((target.map fun x => 1 - x).hadamard
      (out.map fun x => ExpLog.log (1 - x + FLT_EPSILON))).sum
      = sumTo target.rows fun i => sumTo target.cols fun j =>
          (1 - target.get i j) * ExpLog.log (1 - out.get i j + FLT_EPSILON) := by
    unfold Mat.hadamard Mat.zipWith
    rw [Mat.sum_ofFn]
    apply sumTo_congr
    intro i hi
    apply sumTo_congr
    intro j hj
    have hi2 : i < target.rows := hi
    have hj2 : j < target.cols := hj
    unfold Mat.map
    rw [Mat.get_ofFn _ _ _ hi2 hj2, Mat.get_ofFn _ _ _ (by omega) (by omega)]
  have hsum : (sumTo target.rows fun i => sumTo target.cols fun j =>
      target.get i j * ExpLog.log (out.get i j + FLT_EPSILON)
        + (1 - target.get i j) * ExpLog.log (1 - out.get i j + FLT_EPSILON))
      = (sumTo target.rows fun i => sumTo target.cols fun j =>
          target.get i j * ExpLog.log (out.get i j + FLT_EPSILON))
        + sumTo target.rows fun i => sumTo target.cols fun j =>
          (1 - target.get i j) * ExpLog.log (1 - out.get i j + FLT_EPSILON) := by
    rw [← sumTo_add]
    apply sumTo_congr
    intro i _
    rw [← sumTo_add]
  unfold computeLoss
  rw [if_pos rfl]
  simp only [Option.bind_eq_bind, multiply, hs1, hs2, if_true, Option.some_bind, h1, h2,
    hsum, add_div]

/-- C18 (amended): for every loss kind other than `quadratic` and `log` the call does not
fail and does nothing: `computeLossDerivative` leaves the error matrix as it was on entry
(it does not copy the activation), and `computeLoss` returns `0`. -/
theorem unknown_loss_noop (lossType : String) (activation target error : Mat α)
    (hq : lossType ≠ "quadratic") (hl : lossType ≠ "log") :
    computeLossDerivative lossType activation target error = some error ∧
    computeLoss lossType activation target = some 0 := by
  constructor
  · unfold computeLossDerivative
    rw [if_neg hq, if_neg hl]
  · unfold computeLoss
    rw [if_neg hl, if_neg hq]

end LossClaims

section LossDerivativeClaims

variable {α : Type} [Field α]

/-- C17: for equally shaped matrices, `computeLossDerivative("log")` returns, entry by
entry, `(output - target) / (output * (1 - output) + eps)`. -/
theorem log_loss_derivative (out target error : Mat α) (hr : out.rows = target.rows)
    (hc : out.cols = target.cols) :
    ∃ d, computeLossDerivative "log" out target error = some d ∧
      d.rows = target.rows ∧ d.cols = target.cols ∧
      ∀ i j, i < target.rows → j < target.cols →
        d.get i j = (out.get i j - target.get i j)
          / (out.get i j * (1 - out.get i j) + FLT_EPSILON) := by
  have hs := sameSize_of_eq out target hr hc
  have hs2 : out.sameSize (out.map fun x => 1 - x) = true := sameSize_of_eq _ _ rfl rfl
  have hs3 : (out.sub target).sameSize
      (Mat.map (fun x => x + FLT_EPSILON) (out.hadamard (out.map fun x => 1 - x))) = true :=
    sameSize_of_eq _ _ rfl rfl
  have hne : ¬ ("log" = "quadratic") := by decide
  refine ⟨Mat.zipWith (fun x y => x / y) (out.sub target)
    (Mat.map (fun x => x + FLT_EPSILON) (out.hadamard (out.map fun x => 1 - x))), ?_, hr, hc,
    ?_⟩
  · unfold computeLossDerivative
    rw [if_neg hne, if_pos rfl]
    simp only [Option.bind_eq_bind, subtract, hs, if_true, Option.some_bind, multiply, hs2,
      divide, hs3]
  · intro i j hi hj
    have hi2 : i < out.rows := by omega
    have hj2 : j < out.cols := by omega
    have e1 : (out.sub target).get i j = out.get i j - target.get i j := by
      unfold Mat.sub Mat.zipWith
      rw [Mat.get_ofFn _ _ _ hi2 hj2]
    have e2 : (Mat.map (fun x => x + FLT_EPSILON)
        (out.hadamard (out.map fun x => 1 - x))).get i j
        = out.get i j * (1 - out.get i j) + FLT_EPSILON := by
      unfold Mat.hadamard Mat.zipWith
      rw [Mat.map_ofFn, Mat.get_ofFn _ _ _ hi2 hj2]
      unfold Mat.map
      rw [Mat.get_ofFn _ _ _ hi2 hj2]
    have hd : (Mat.zipWith (fun x y => x / y) (out.sub target)
        (Mat.map (fun x => x + FLT_EPSILON) (out.hadamard (out.map fun x => 1 - x)))).get i j
        = (out.sub target).get i j
          / (Mat.map (fun x => x + FLT_EPSILON)
              (out.hadamard (out.map fun x => 1 - x))).get i j := by
      unfold Mat.zipWith
      exact Mat.get_ofFn _ _ _ hi2 hj2
    rw [hd, e1, e2]

end LossDerivativeClaims

section ReluLemmas

variable {α : Type} [Field α] [LinearOrder α]

/-- Every stored entry of `dRelu` is `0` where the input entry equals `0` and `1` elsewhere,
negative entries included. -/
theorem dRelu_entry (inp : Mat α) (i j : Nat) (hi : i < inp.rows) (hj : j < inp.cols) :
    (dRelu inp).get i j = if inp.get i j = 0 then 0 else 1 := by
  unfold dRelu Mat.map
  rw [Mat.get_ofFn _ _ _ hi hj]

end ReluLemmas

section LossWitnesses

/-- Witness for C15: output `(1, 3)` against target `(0, 1)`. -/
theorem quadratic_loss_witness :
    ((⟨1, 2, [[1, 3]]⟩ : Mat ℚ).rows = (⟨1, 2, [[0, 1]]⟩ : Mat ℚ).rows ∧
      (⟨1, 2, [[1, 3]]⟩ : Mat ℚ).cols = (⟨1, 2, [[0, 1]]⟩ : Mat ℚ).cols ∧
      0 < (⟨1, 2, [[0, 1]]⟩ : Mat ℚ).rows ∧ 0 < (⟨1, 2, [[0, 1]]⟩ : Mat ℚ).cols) ∧
    computeLoss "quadratic" (⟨1, 2, [[1, 3]]⟩ : Mat ℚ) ⟨1, 2, [[0, 1]]⟩ = some (5 / 2) ∧
    computeLossDerivative "quadratic" (⟨1, 2, [[1, 3]]⟩ : Mat ℚ) ⟨1, 2, [[0, 1]]⟩ Mat.empty
      = some ⟨1, 2, [[1, 2]]⟩ ∧
    (computeLoss "quadratic" (⟨1, 2, [[1, 3]]⟩ : Mat ℚ) ⟨1, 2, [[0, 1]]⟩
      = some ((sumTo (⟨1, 2, [[0, 1]]⟩ : Mat ℚ).rows fun i =>
          sumTo (⟨1, 2, [[0, 1]]⟩ : Mat ℚ).cols fun j =>
            ((⟨1, 2, [[1, 3]]⟩ : Mat ℚ).get i j - (⟨1, 2, [[0, 1]]⟩ : Mat ℚ).get i j) ^ 2)
          / (((⟨1, 2, [[0, 1]]⟩ : Mat ℚ).rows * (⟨1, 2, [[0, 1]]⟩ : Mat ℚ).cols : Nat) : ℚ)) ∧
    ∃ d, computeLossDerivative "quadratic" (⟨1, 2, [[1, 3]]⟩ : Mat ℚ) ⟨1, 2, [[0, 1]]⟩
        Mat.empty = some d ∧
      d.rows = (⟨1, 2, [[0, 1]]⟩ : Mat ℚ).rows ∧ d.cols = (⟨1, 2, [[0, 1]]⟩ : Mat ℚ).cols ∧
      ∀ i j, i < (⟨1, 2, [[0, 1]]⟩ : Mat ℚ).rows → j < (⟨1, 2, [[0, 1]]⟩ : Mat ℚ).cols →
        d.get i j
          = (⟨1, 2, [[1, 3]]⟩ : Mat ℚ).get i j - (⟨1, 2, [[0, 1]]⟩ : Mat ℚ).get i j) :=
  ⟨by decide, by decide!, by decide!,
    quadratic_loss (⟨1, 2, [[1, 3]]⟩ : Mat ℚ) ⟨1, 2, [[0, 1]]⟩ Mat.empty rfl rfl
      (by decide)⟩

/-- Witness for C16: output `(1/2, 1/4)` against target `(1, 0)`. -/
theorem log_loss_mean_witness :
    ((⟨1, 2, [[1 / 2, 1 / 4]]⟩ : Mat ℚ).rows = (⟨1, 2, [[1, 0]]⟩ : Mat ℚ).rows ∧
      (⟨1, 2, [[1 / 2, 1 / 4]]⟩ : Mat ℚ).cols = (⟨1, 2, [[1, 0]]⟩ : Mat ℚ).cols ∧
      0 < (⟨1, 2, [[1, 0]]⟩ : Mat ℚ).rows ∧ 0 < (⟨1, 2, [[1, 0]]⟩ : Mat ℚ).cols) ∧
    computeLoss "log" (⟨1, 2, [[1 / 2, 1 / 4]]⟩ : Mat ℚ) ⟨1, 2, [[1, 0]]⟩
      = some (-((sumTo (⟨1, 2, [[1, 0]]⟩ : Mat ℚ).rows fun i =>
          sumTo (⟨1, 2, [[1, 0]]⟩ : Mat ℚ).cols fun j =>
            (⟨1, 2, [[1, 0]]⟩ : Mat ℚ).get i j
                * ExpLog.log ((⟨1, 2, [[1 / 2, 1 / 4]]⟩ : Mat ℚ).get i j + FLT_EPSILON)
              + (1 - (⟨1, 2, [[1, 0]]⟩ : Mat ℚ).get i j)
                * ExpLog.log (1 - (⟨1, 2, [[1 / 2, 1 / 4]]⟩ : Mat ℚ).get i j + FLT_EPSILON))
          / (((⟨1, 2, [[1, 0]]⟩ : Mat ℚ).rows * (⟨1, 2, [[1, 0]]⟩ : Mat ℚ).cols : Nat) : ℚ))) :=
  ⟨by decide,
    log_loss_mean (⟨1, 2, [[1 / 2, 1 / 4]]⟩ : Mat ℚ) ⟨1, 2, [[1, 0]]⟩ rfl rfl (by decide)⟩

/-- Witness for C17: output `(1/2, 1/4)` against target `(1, 0)`. -/
theorem log_loss_derivative_witness :
    ((⟨1, 2, [[1 / 2, 1 / 4]]⟩ : Mat ℚ).rows = (⟨1, 2, [[1, 0]]⟩ : Mat ℚ).rows ∧
      (⟨1, 2, [[1 / 2, 1 / 4]]⟩ : Mat ℚ).cols = (⟨1, 2, [[1, 0]]⟩ : Mat ℚ).cols) ∧
    ∃ d, computeLossDerivative "log" (⟨1, 2, [[1 / 2, 1 / 4]]⟩ : Mat ℚ) ⟨1, 2, [[1, 0]]⟩
        Mat.empty = some d ∧
      d.rows = (⟨1, 2, [[1, 0]]⟩ : Mat ℚ).rows ∧ d.cols = (⟨1, 2, [[1, 0]]⟩ : Mat ℚ).cols ∧
      ∀ i j, i < (⟨1, 2, [[1, 0]]⟩ : Mat ℚ).rows → j < (⟨1, 2, [[1, 0]]⟩ : Mat ℚ).cols →
        d.get i j
          = ((⟨1, 2, [[1 / 2, 1 / 4]]⟩ : Mat ℚ).get i j - (⟨1, 2, [[1, 0]]⟩ : Mat ℚ).get i j)
            / ((⟨1, 2, [[1 / 2, 1 / 4]]⟩ : Mat ℚ).get i j
                * (1 - (⟨1, 2, [[1 / 2, 1 / 4]]⟩ : Mat ℚ).get i j) + FLT_EPSILON) :=
  ⟨by decide,
    log_loss_derivative (⟨1, 2, [[1 / 2, 1 / 4]]⟩ : Mat ℚ) ⟨1, 2, [[1, 0]]⟩ Mat.empty rfl
      rfl⟩

/-- Witness for C18: the loss kind `hinge`. -/
theorem unknown_loss_noop_witness :
    ("hinge" ≠ "quadratic" ∧ "hinge" ≠ "log") ∧
    computeLossDerivative "hinge" (⟨1, 1, [[3]]⟩ : Mat ℚ) ⟨1, 1, [[1]]⟩ Mat.empty
      = some Mat.empty ∧
    computeLoss "hinge" (⟨1, 1, [[3]]⟩ : Mat ℚ) ⟨1, 1, [[1]]⟩ = some 0 :=
  ⟨by decide,
    unknown_loss_noop "hinge" (⟨1, 1, [[3]]⟩ : Mat ℚ) ⟨1, 1, [[1]]⟩ Mat.empty (by decide)
      (by decide)⟩

/-- C18 as stated fails: for the loss kind `hinge`, called as `computeErrors` calls it (on a
freshly resized error vector), `computeLossDerivative` returns the empty matrix, not a copy
of the activation `3`. -/
theorem unknown_loss_not_copy_counterexample :
    computeLossDerivative "hinge" (⟨1, 1, [[3]]⟩ : Mat ℚ) ⟨1, 1, [[1]]⟩ Mat.empty
      = some Mat.empty ∧
    computeLossDerivative "hinge" (⟨1, 1, [[3]]⟩ : Mat ℚ) ⟨1, 1, [[1]]⟩ Mat.empty
      ≠ some ⟨1, 1, [[3]]⟩ := by
  decide!

/-- C19, failing input: on the row `(-2, 0, 2)` `dRelu` returns `(1, 0, 1)`; the derivative
of `relu` at `-2` is `0`. -/
theorem dRelu_negative_entry :
    dRelu (⟨1, 3, [[-2, 0, 2]]⟩ : Mat ℚ) = ⟨1, 3, [[1, 0, 1]]⟩ := by
  decide!

end LossWitnesses

section LogisticLemmas

theorem hasDerivAt_logistic_fn (x : ℝ) :
    HasDerivAt (fun y : ℝ => 1 / (1 + Real.exp (-1 * y)))
      (1 / (1 + Real.exp (-1 * x)) * (1 - 1 / (1 + Real.exp (-1 * x)))) x := by
  have hpos : (1 + Real.exp (-1 * x)) ≠ 0 := by
    have := Real.exp_pos (-1 * x)
    linarith
  have h1 : HasDerivAt (fun y : ℝ => -1 * y) (-1) x := by
    simpa using (hasDerivAt_id x).const_mul (-1 : ℝ)
  have h2 : HasDerivAt (fun y : ℝ => Real.exp (-1 * y)) (Real.exp (-1 * x) * -1) x := h1.exp
  have h3 : HasDerivAt (fun y : ℝ => 1 + Real.exp (-1 * y)) (Real.exp (-1 * x) * -1) x :=
    h2.const_add 1
  have h4 := h3.inv hpos
  have hfun : (fun y : ℝ => 1 / (1 + Real.exp (-1 * y)))
      = (fun y : ℝ => (1 + Real.exp (-1 * y))⁻¹) := by
    funext y
    rw [one_div]
  rw [hfun]
  convert h4 using 1
  field_simp
  ring

end LogisticLemmas

section LogisticClaims

/-- C20: over the reals, every entry of `dLogistic` is `s * (1 - s)` for
`s = 1 / (1 + exp(-x))`, the entry of `logistic` at the same place, and this value is the
derivative at `x` of the function `y ↦ 1 / (1 + exp(-y))` that `logistic` applies entrywise. -/
theorem dLogistic_is_derivative (inp : Mat ℝ) (i j : Nat) (hi : i < inp.rows)
    (hj : j < inp.cols) :
    (logistic inp).get i j = 1 / (1 + Real.exp (-(inp.get i j))) ∧
    (dLogistic inp).get i j
      = 1 / (1 + Real.exp (-(inp.get i j))) * (1 - 1 / (1 + Real.exp (-(inp.get i j)))) ∧
    HasDerivAt (fun y : ℝ => 1 / (1 + Real.exp (-y))) ((dLogistic inp).get i j)
      (inp.get i j) ∧
    HasDerivAt (fun y : ℝ => (logistic (Mat.ofFn 1 1 fun _ _ => y)).get 0 0)
      ((dLogistic inp).get i j) (inp.get i j) := by
  have hlog : ∀ (m : Mat ℝ) (a b : Nat), a < m.rows → b < m.cols →
      (logistic m).get a b = 1 / (1 + Real.exp (-(m.get a b))) := by
    intro m a b ha hb
    unfold logistic Mat.map
    rw [Mat.get_ofFn _ _ _ ha hb]
    simp [ExpLog.exp]
  have hd : (dLogistic inp).get i j
      = 1 / (1 + Real.exp (-(inp.get i j))) * (1 - 1 / (1 + Real.exp (-(inp.get i j)))) := by
    have hrows : (logistic inp).rows = inp.rows := rfl
    have hcols : (logistic inp).cols = inp.cols := rfl
    unfold dLogistic Mat.hadamard Mat.zipWith
    rw [Mat.get_ofFn _ _ _ (by rw [hrows]; exact hi) (by rw [hcols]; exact hj)]
    unfold Mat.map
    rw [Mat.get_ofFn _ _ _ (by rw [hrows]; exact hi) (by rw [hcols]; exact hj),
      hlog inp i j hi hj]
  have hder : HasDerivAt (fun y : ℝ => 1 / (1 + Real.exp (-y))) ((dLogistic inp).get i j)
      (inp.get i j) := by
    rw [hd]
    have h := hasDerivAt_logistic_fn (inp.get i j)
    simpa using h
  refine ⟨hlog inp i j hi hj, hd, hder, ?_⟩
  have hfun : (fun y : ℝ => (logistic (Mat.ofFn 1 1 fun _ _ => y)).get 0 0)
      = (fun y : ℝ => 1 / (1 + Real.exp (-y))) := by
    funext y
    rw [hlog (Mat.ofFn 1 1 fun _ _ => y) 0 0 Nat.zero_lt_one Nat.zero_lt_one,
      Mat.get_ofFn 1 1 _ Nat.zero_lt_one Nat.zero_lt_one]
  rw [hfun]
  exact hder

/-- Witness for C20: the `1 × 1` matrix with entry `0`. -/
theorem dLogistic_is_derivative_witness :
    (0 < (Mat.ofFn 1 1 fun _ _ => (0 : ℝ)).rows ∧ 0 < (Mat.ofFn 1 1 fun _ _ => (0 : ℝ)).cols) ∧
    ((logistic (Mat.ofFn 1 1 fun _ _ => (0 : ℝ))).get 0 0
      = 1 / (1 + Real.exp (-((Mat.ofFn 1 1 fun _ _ => (0 : ℝ)).get 0 0))) ∧
    (dLogistic (Mat.ofFn 1 1 fun _ _ => (0 : ℝ))).get 0 0
      = 1 / (1 + Real.exp (-((Mat.ofFn 1 1 fun _ _ => (0 : ℝ)).get 0 0)))
        * (1 - 1 / (1 + Real.exp (-((Mat.ofFn 1 1 fun _ _ => (0 : ℝ)).get 0 0)))) ∧
    HasDerivAt (fun y : ℝ => 1 / (1 + Real.exp (-y)))
      ((dLogistic (Mat.ofFn 1 1 fun _ _ => (0 : ℝ))).get 0 0)
      ((Mat.ofFn 1 1 fun _ _ => (0 : ℝ)).get 0 0) ∧
    HasDerivAt (fun y : ℝ => (logistic (Mat.ofFn 1 1 fun _ _ => y)).get 0 0)
      ((dLogistic (Mat.ofFn 1 1 fun _ _ => (0 : ℝ))).get 0 0)
      ((Mat.ofFn 1 1 fun _ _ => (0 : ℝ)).get 0 0)) :=
  ⟨⟨Nat.zero_lt_one, Nat.zero_lt_one⟩,
    dLogistic_is_derivative (Mat.ofFn 1 1 fun _ _ => (0 : ℝ)) 0 0 Nat.zero_lt_one
      Nat.zero_lt_one⟩

end LogisticClaims

section MapLemmas

variable {α : Type}

theorem Mat.get_map [Zero α] (f : α → α) (m : Mat α) (i j : Nat) (hi : i < m.rows)
    (hj : j < m.cols) : (m.map f).get i j = f (m.get i j) := by
  unfold Mat.map
  exact Mat.get_ofFn _ _ _ hi hj

end MapLemmas

section SoftplusLemmas

theorem softplus_host_entry (y : ℝ) :
    (applyActivation "softplus" false (Mat.ofFn 1 1 fun _ _ => y)).get 0 0
      = 1 + Real.exp y := by
  have h1 : ¬ ("softplus" = "relu") := by decide
  have h2 : ¬ ("softplus" = "logistic") := by decide
  have h3 : ¬ ("softplus" = "softmax") := by decide
  unfold applyActivation
  rw [if_neg h1, if_neg h2, if_neg h3, if_pos rfl]
  unfold softplus
  simp only [Bool.false_eq_true, if_false]
  rw [Mat.get_map _ _ 0 0 Nat.zero_lt_one Nat.zero_lt_one,
    Mat.get_ofFn _ _ _ Nat.zero_lt_one Nat.zero_lt_one]
  rfl

theorem softplus_umat_entry (y : ℝ) :
    (applyActivation "softplus" true (Mat.ofFn 1 1 fun _ _ => y)).get 0 0
      = Real.log (1 + Real.exp y) := by
  have h1 : ¬ ("softplus" = "relu") := by decide
  have h2 : ¬ ("softplus" = "logistic") := by decide
  have h3 : ¬ ("softplus" = "softmax") := by decide
  unfold applyActivation
  rw [if_neg h1, if_neg h2, if_neg h3, if_pos rfl]
  unfold softplus
  simp only [if_true]
  rw [Mat.get_map _ _ 0 0 Nat.zero_lt_one Nat.zero_lt_one,
    Mat.get_ofFn _ _ _ Nat.zero_lt_one Nat.zero_lt_one]
  rfl

theorem dSoftplus_entry (x : ℝ) (out : Mat ℝ) :
    (applyDerivative "softplus" (Mat.ofFn 1 1 fun _ _ => x) out).get 0 0
      = 1 / (1 + Real.exp (-x)) := by
  have h1 : ¬ ("softplus" = "relu") := by decide
  have h2 : ¬ ("softplus" = "logistic") := by decide
  have h3 : ¬ ("softplus" = "softmax") := by decide
  unfold applyDerivative
  rw [if_neg h1, if_neg h2, if_neg h3, if_pos rfl]
  unfold dSoftplus logistic
  rw [Mat.get_map _ _ 0 0 Nat.zero_lt_one Nat.zero_lt_one,
    Mat.get_ofFn _ _ _ Nat.zero_lt_one Nat.zero_lt_one]
  simp [ExpLog.exp]

theorem logistic_ne_exp (x : ℝ) : 1 / (1 + Real.exp (-x)) ≠ Real.exp x := by
  intro h
  have hpos : 0 < 1 + Real.exp (-x) := by
    have := Real.exp_pos (-x)
    linarith
  rw [div_eq_iff (ne_of_gt hpos)] at h
  have hmul : Real.exp x * Real.exp (-x) = 1 := by
    rw [← Real.exp_add]
    simp
  have hx := Real.exp_pos x
  nlinarith

end SoftplusLemmas

section SoftplusClaims

/-- C21, failing input (every real `x`, for instance `x = 0`): on a host matrix
`applyActivation("softplus")` computes `y ↦ 1 + exp(y)`, whose derivative at `x` is `exp(x)`,
while `applyDerivative("softplus")` returns `1 / (1 + exp(-x))`; the two differ, so the
returned value is not the derivative of the host function.  It is the derivative of the
function `y ↦ log(1 + exp(y))` of the `UMat` branch. -/
theorem softplus_host_inconsistent (x : ℝ) :
    HasDerivAt (fun y : ℝ => (applyActivation "softplus" false (Mat.ofFn 1 1 fun _ _ => y)).get
      0 0) (Real.exp x) x ∧
    (applyDerivative "softplus" (Mat.ofFn 1 1 fun _ _ => x) Mat.empty).get 0 0
      = 1 / (1 + Real.exp (-x)) ∧
    ¬ HasDerivAt (fun y : ℝ =>
        (applyActivation "softplus" false (Mat.ofFn 1 1 fun _ _ => y)).get 0 0)
      ((applyDerivative "softplus" (Mat.ofFn 1 1 fun _ _ => x) Mat.empty).get 0 0) x ∧
    HasDerivAt (fun y : ℝ => (applyActivation "softplus" true (Mat.ofFn 1 1 fun _ _ => y)).get
      0 0) ((applyDerivative "softplus" (Mat.ofFn 1 1 fun _ _ => x) Mat.empty).get 0 0) x := by
  have hhost : (fun y : ℝ =>
      (applyActivation "softplus" false (Mat.ofFn 1 1 fun _ _ => y)).get 0 0)
      = fun y : ℝ => 1 + Real.exp y := by
    funext y
    exact softplus_host_entry y
  have humat : (fun y : ℝ =>
      (applyActivation "softplus" true (Mat.ofFn 1 1 fun _ _ => y)).get 0 0)
      = fun y : ℝ => Real.log (1 + Real.exp y) := by
    funext y
    exact softplus_umat_entry y
  have hd1 : HasDerivAt (fun y : ℝ => 1 + Real.exp y) (Real.exp x) x :=
    (Real.hasDerivAt_exp x).const_add 1
  have hpos : 0 < 1 + Real.exp x := by
    have := Real.exp_pos x
    linarith
  have hd2 : HasDerivAt (fun y : ℝ => Real.log (1 + Real.exp y))
      (1 / (1 + Real.exp (-x))) x := by
    have h := hd1.log (ne_of_gt hpos)
    convert h using 1
    rw [Real.exp_neg]
    have hx := Real.exp_pos x
    field_simp
    ring
  rw [hhost, humat, dSoftplus_entry]
  refine ⟨hd1, rfl, ?_, hd2⟩
  intro hbad
  exact logistic_ne_exp x (hbad.unique hd1)

end SoftplusClaims

section UnknownActivationClaims

variable {α : Type} [Field α] [LinearOrder α] [ExpLog α]

/-- C22: for every activation kind other than `relu`, `logistic`, `softmax` and `softplus`
and every input matrix, `applyActivation` returns the input unchanged, on either backend. -/
theorem applyActivation_unknown (type : String) (isUMat : Bool) (inp : Mat α)
    (h1 : type ≠ "relu") (h2 : type ≠ "logistic") (h3 : type ≠ "softmax")
    (h4 : type ≠ "softplus") :
    applyActivation type isUMat inp = inp := by
  unfold applyActivation
  rw [if_neg h1, if_neg h2, if_neg h3, if_neg h4]

/-- Witness for C22: the kind `identity` on a `1 × 2` matrix. -/
theorem applyActivation_unknown_witness :
    ("identity" ≠ "relu" ∧ "identity" ≠ "logistic" ∧ "identity" ≠ "softmax" ∧
      "identity" ≠ "softplus") ∧
    applyActivation "identity" false (⟨1, 2, [[-3, 4]]⟩ : Mat ℚ) = ⟨1, 2, [[-3, 4]]⟩ :=
  ⟨by decide, applyActivation_unknown "identity" false (⟨1, 2, [[-3, 4]]⟩ : Mat ℚ)
    (by decide) (by decide) (by decide) (by decide)⟩

end UnknownActivationClaims

section BackendLemmas

theorem normalizeCols_two_rows (g : ℝ → ℝ) (hg : ∀ x, (FLT_EPSILON : ℝ) ≤ g x) (a b : ℝ) :
    (normalizeCols ((Mat.ofFn 2 1 fun i _ => if i = 0 then a else b).map g)).get 1 0
      = g b / (g a + g b) := by
  have hm : (Mat.ofFn 2 1 fun i _ => if i = 0 then a else b).map g
      = Mat.ofFn 2 1 fun i _ => if i = 0 then g a else g b := by
    unfold Mat.map
    simp only [Mat.ofFn_rows, Mat.ofFn_cols]
    apply Mat.ofFn_ext
    intro i j hi hj
    rw [Mat.get_ofFn _ _ _ hi hj]
    split_ifs <;> rfl
  rw [hm]
  have heps : (0 : ℝ) < FLT_EPSILON := by
    unfold FLT_EPSILON
    norm_num
  have ha := hg a
  have hb := hg b
  have h00 : (Mat.ofFn 2 1 fun i _ => if i = 0 then g a else g b).get 0 0 = g a := by
    rw [Mat.get_ofFn _ _ _ (by decide) (by decide)]
    simp
  have h10 : (Mat.ofFn 2 1 fun i _ => if i = 0 then g a else g b).get 1 0 = g b := by
    rw [Mat.get_ofFn _ _ _ (by decide) (by decide)]
    simp
  have hr : List.range 1 = [0] := rfl
  unfold normalizeCols
  simp only [Mat.ofFn_cols, hr, List.foldl_cons, List.foldl_nil]
  unfold normalizeColL1
  simp only [Mat.ofFn_rows, Mat.ofFn_cols]
  rw [Mat.get_ofFn _ _ _ (by decide) (by decide)]
  simp only [if_true]
  have hnorm : (sumTo 2 fun i =>
      if (Mat.ofFn 2 1 fun i _ => if i = 0 then g a else g b).get i 0 < 0
      then - (Mat.ofFn 2 1 fun i _ => if i = 0 then g a else g b).get i 0
      else (Mat.ofFn 2 1 fun i _ => if i = 0 then g a else g b).get i 0) = g a + g b := by
    unfold sumTo
    simp only [List.range_succ, List.range_zero, List.nil_append, List.map_cons, List.map_nil,
      List.cons_append, List.sum_cons, List.sum_nil, h00, h10, add_zero]
    rw [if_neg (by linarith), if_neg (by linarith)]
  rw [hnorm, h10]
  have hd : (DBL_EPSILON : ℝ) < g a + g b := by
    unfold DBL_EPSILON
    unfold FLT_EPSILON at ha hb heps
    norm_num at ha hb heps ⊢
    linarith
  rw [if_pos hd]
  ring

theorem exp_forty_gt : (10000000000 : ℝ) < Real.exp 40 := by
  have h1 : (2 : ℝ) < Real.exp 1 := by
    have := Real.exp_one_gt_d9
    linarith
  have h2 : Real.exp 40 = Real.exp 1 ^ 40 := by
    rw [← Real.exp_nat_mul]
    norm_num
  rw [h2]
  calc (10000000000 : ℝ) < 2 ^ 40 := by norm_num
    _ < Real.exp 1 ^ 40 := pow_lt_pow_left₀ h1 (by norm_num) (by norm_num)

theorem applyActivation_softmax (isUMat : Bool) (inp : Mat ℝ) :
    applyActivation "softmax" isUMat inp = softmax isUMat inp := by
  have h1 : ¬ ("softmax" = "relu") := by decide
  have h2 : ¬ ("softmax" = "logistic") := by decide
  unfold applyActivation
  rw [if_neg h1, if_neg h2, if_pos rfl]

end BackendLemmas

section BackendClaims

/-- C25, failing inputs (every `1 × 1` input for `softplus`, the column `(40, 0)` for
`softmax`): `relu` and `logistic` compute the same function on both backends, but on a host
matrix `softplus` yields `1 + exp(x)` where the `UMat` branch yields `log(1 + exp(x))`, and
the two differ at every real `x`; the host branch of `softmax` clamps the exponentials at
`1e10` and the `UMat` branch does not, so the two differ on the column `(40, 0)`. -/
theorem activation_backends_differ :
    (∀ inp : Mat ℝ, applyActivation "relu" true inp = applyActivation "relu" false inp) ∧
    (∀ inp : Mat ℝ,
      applyActivation "logistic" true inp = applyActivation "logistic" false inp) ∧
    (∀ x : ℝ, (applyActivation "softplus" false (Mat.ofFn 1 1 fun _ _ => x)).get 0 0
      ≠ (applyActivation "softplus" true (Mat.ofFn 1 1 fun _ _ => x)).get 0 0) ∧
    (applyActivation "softmax" false
        (Mat.ofFn 2 1 fun i _ => if i = 0 then (40 : ℝ) else 0)).get 1 0
      ≠ (applyActivation "softmax" true
        (Mat.ofFn 2 1 fun i _ => if i = 0 then (40 : ℝ) else 0)).get 1 0 := by
  refine ⟨fun _ => rfl, fun _ => rfl, ?_, ?_⟩
  · intro x
    rw [softplus_host_entry, softplus_umat_entry]
    have hpos : 0 < 1 + Real.exp x := by
      have := Real.exp_pos x
      linarith
    have hlog := Real.log_le_sub_one_of_pos hpos
    intro h
    linarith
  · have heps : (0 : ℝ) < FLT_EPSILON := by
      unfold FLT_EPSILON
      norm_num
    rw [applyActivation_softmax, applyActivation_softmax]
    unfold softmax
    simp only [Bool.false_eq_true, if_false, if_true]
    rw [normalizeCols_two_rows (fun x => min (ExpLog.exp x) 10000000000 + FLT_EPSILON)
        (fun x => by
          have : (0 : ℝ) ≤ min (ExpLog.exp x) 10000000000 :=
            le_min (le_of_lt (Real.exp_pos x)) (by norm_num)
          show (FLT_EPSILON : ℝ) ≤ min (ExpLog.exp x) 10000000000 + FLT_EPSILON
          linarith),
      normalizeCols_two_rows (fun x => ExpLog.exp x + FLT_EPSILON)
        (fun x => by
          have : (0 : ℝ) < ExpLog.exp x := Real.exp_pos x
          show (FLT_EPSILON : ℝ) ≤ ExpLog.exp x + FLT_EPSILON
          linarith)]
    have he0 : (ExpLog.exp (0 : ℝ) : ℝ) = 1 := Real.exp_zero
    have he30 : (10000000000 : ℝ) < ExpLog.exp (40 : ℝ) := exp_forty_gt
    simp only [he0]
    rw [min_eq_right (le_of_lt he30), min_eq_left (by norm_num : (1 : ℝ) ≤ 10000000000)]
    intro h
    have hp1 : (0 : ℝ) < 10000000000 + FLT_EPSILON + (1 + FLT_EPSILON) := by linarith
    have hp2 : (0 : ℝ) < ExpLog.exp (40 : ℝ) + FLT_EPSILON + (1 + FLT_EPSILON) := by linarith
    rw [div_eq_div_iff (ne_of_gt hp1) (ne_of_gt hp2)] at h
    have hlt : (1 + (FLT_EPSILON : ℝ)) * (10000000000 + FLT_EPSILON + (1 + FLT_EPSILON))
        < (1 + FLT_EPSILON) * (ExpLog.exp (40 : ℝ) + FLT_EPSILON + (1 + FLT_EPSILON)) := by
      apply mul_lt_mul_of_pos_left _ (by linarith)
      linarith
    linarith

end BackendClaims

section LengthLemmas

variable {α : Type}

theorem vset_length {β : Type} {v res : List β} {i : Int} {x : β}
    (h : vset v i x = some res) : res.length = v.length := by
  unfold vset at h
  split at h
  · simp only [Option.some.injEq] at h
    rw [← h, List.length_set]
  · simp at h

theorem setWeightsLayer_length {nodes : List Nat} {st st1 : List (Mat α) × RNG α} {i : Int}
    (h : setWeightsLayer nodes st i = some st1) : st1.1.length = st.1.length := by
  unfold setWeightsLayer at h
  simp only [Option.bind_eq_bind] at h
  obtain ⟨a, _, h⟩ := Option.bind_eq_some.mp h
  obtain ⟨b, _, h⟩ := Option.bind_eq_some.mp h
  obtain ⟨ws, hws, h⟩ := Option.bind_eq_some.mp h
  simp only [Option.some.injEq] at h
  rw [← h]
  exact vset_length hws

theorem setWeights_fold_length {nodes : List Nat} (is : List Int) :
    ∀ {st st1 : List (Mat α) × RNG α},
      is.foldlM (setWeightsLayer nodes) st = some st1 → st1.1.length = st.1.length := by
  induction is with
  | nil =>
    intro st st1 h
    simp only [List.foldlM_nil, Option.pure_def, Option.some.injEq] at h
    rw [h]
  | cons i rest ih =>
    intro st st1 h
    simp only [List.foldlM_cons, Option.bind_eq_bind] at h
    obtain ⟨st2, h2, h⟩ := Option.bind_eq_some.mp h
    rw [ih h, setWeightsLayer_length h2]

theorem setWeights_length {m m1 : MultilayerPerceptron α} {g g1 : RNG α} {n : Nat}
    (h : setWeights m g n = some (m1, g1)) :
    m1.mWeights.length = m.mActivationsTypes.length := by
  unfold setWeights at h
  simp only [Option.bind_eq_bind] at h
  obtain ⟨n0, _, h⟩ := Option.bind_eq_some.mp h
  obtain ⟨ws0, h0, h⟩ := Option.bind_eq_some.mp h
  obtain ⟨st, hst, h⟩ := Option.bind_eq_some.mp h
  obtain ⟨nEnd, _, h⟩ := Option.bind_eq_some.mp h
  obtain ⟨wPrev, _, h⟩ := Option.bind_eq_some.mp h
  obtain ⟨wsEnd, hEnd, h⟩ := Option.bind_eq_some.mp h
  simp only [Option.some.injEq, Prod.mk.injEq] at h
  rw [← h.1]
  show wsEnd.length = _
  rw [vset_length hEnd, setWeights_fold_length _ hst, vset_length h0, vresize_length]

end LengthLemmas

section LengthClaims

variable {α : Type} [Field α] [LinearOrder α] [ExpLog α]

/-- C26 (amended): `learn` compares list lengths only in the assertions of `learnWeights`,
which test the activation-kind list and the dropout-rate list against the number of weight
matrices (sized by `setWeights` from the activation-kind list).  So when the dropout-rate
list and the activation-kind list differ in length and at least one iteration is allowed,
`learn` does not complete.  The node-count list takes part in no comparison. -/
theorem learn_length_check (m : MultilayerPerceptron α) (g : RNG α) (_input labels : Mat α)
    (hlen : m.mDropoutWeights.length ≠ m.mActivationsTypes.length)
    (hit : 1 ≤ m.mMaxIterations) :
    learn m g _input labels = none := by
  cases hl : learn m g _input labels with
  | none => rfl
  | some res =>
    exfalso
    obtain ⟨m2, g2, steps⟩ := res
    obtain ⟨input, m1, g1, ws, wsBack, _, hsw, hloop, _, _, _⟩ := learn_unfold hl
    have hf := setWeights_fields hsw
    have hwl := setWeights_length hsw
    have hmax : m1.mMaxIterations = m.mMaxIterations := by rw [hf]
    have hdrop : m1.mDropoutWeights = m.mDropoutWeights := by rw [hf]
    obtain ⟨k, hk⟩ : ∃ k, m1.mMaxIterations = k + 1 := ⟨m.mMaxIterations - 1, by omega⟩
    rw [hk] at hloop
    unfold learnLoop at hloop
    simp only [Option.bind_eq_bind] at hloop
    obtain ⟨it, hiter, _⟩ := Option.bind_eq_some.mp hloop
    unfold learnIteration at hiter
    simp only [Option.bind_eq_bind] at hiter
    obtain ⟨lw, hlw, _⟩ := Option.bind_eq_some.mp hiter
    unfold learnWeights at hlw
    have hbad : ¬ (m1.mWeights.length = m1.mWeights.length + 1 - 1 ∧
        m1.mActivationsTypes.length = m1.mWeights.length + 1 - 1 ∧
        m1.mDropoutWeights.length = m1.mWeights.length + 1 - 1) := by
      rintro ⟨_, _, h3⟩
      apply hlen
      rw [hdrop, hwl] at h3
      simpa using h3
    simp only [if_neg hbad] at hlw
    exact Option.noConfusion hlw

/-- Witness for C26: one dropout rate against two activation kinds. -/
theorem learn_length_check_witness :
    (shortDropoutModel.mDropoutWeights.length ≠ shortDropoutModel.mActivationsTypes.length ∧
      1 ≤ shortDropoutModel.mMaxIterations) ∧
    learn shortDropoutModel exampleRNG trainInput ⟨1, 1, [[1 / 2]]⟩ = none :=
  ⟨by decide, learn_length_check shortDropoutModel exampleRNG trainInput ⟨1, 1, [[1 / 2]]⟩
    (by decide) (by decide)⟩

/-- Counterexample to C26 as stated: the three lists of `longNodeListModel` have lengths
`2`, `3` and `2`, and `learn` trains it and returns a model flagged as trained. -/
theorem learn_accepts_long_node_list_counterexample :
    longNodeListModel.mActivationsTypes.length = 2 ∧
    longNodeListModel.mNumNodesConfiguration.length = 3 ∧
    longNodeListModel.mDropoutWeights.length = 2 ∧
    (learn longNodeListModel exampleRNG trainInput ⟨1, 1, [[1 / 2]]⟩).map
      (fun r => (r.1.mIsTrained, r.1.mWeights.length, r.2.2)) = some (true, 2, 1) := by
  decide!

end LengthClaims

section CopyClaims

/-- C27, failing input (every model that holds weights, for instance `noDropoutModel`): the
copy constructor has an empty body, so the object `clone` returns does not depend on the
original at all.  Whatever the default-initialised object is, the clone of some model has
other weights than that model and the clone of some model predicts otherwise than that model;
the weights of every clone are those of the default-initialised object. -/
theorem clone_ignores_original :
    (∀ init m1 m2 : MultilayerPerceptron ℚ,
      MultilayerPerceptron.clone init m1 = MultilayerPerceptron.clone init m2) ∧
    (∀ init : MultilayerPerceptron ℚ, ∃ m : MultilayerPerceptron ℚ,
      (MultilayerPerceptron.clone init m).mWeights ≠ m.mWeights) ∧
    (∀ init : MultilayerPerceptron ℚ, ∃ m : MultilayerPerceptron ℚ,
      predict (MultilayerPerceptron.clone init m) trainInput ≠ predict m trainInput) ∧
    (∀ init m : MultilayerPerceptron ℚ,
      (MultilayerPerceptron.clone init m).mWeights = init.mWeights) := by
  refine ⟨fun _ _ _ => rfl, ?_, ?_, fun _ _ => rfl⟩
  · intro init
    by_cases h : init.mWeights = []
    · refine ⟨{ init with mWeights := [Mat.empty] }, ?_⟩
      show init.mWeights ≠ [Mat.empty]
      rw [h]
      exact List.noConfusion
    · exact ⟨{ init with mWeights := [] }, h⟩
  · intro init
    have hne : predict noDropoutModel trainInput ≠ predict dropoutModel trainInput := by
      decide!
    by_cases h : predict init trainInput = predict noDropoutModel trainInput
    · refine ⟨dropoutModel, ?_⟩
      show predict init trainInput ≠ predict dropoutModel trainInput
      rw [h]
      exact hne
    · exact ⟨noDropoutModel, h⟩

end CopyClaims

section DecimalLemmas

theorem digitChar_val : ∀ k, k < 10 → (Nat.digitChar k).toNat - 48 = k := by
  decide

theorem toDigitsCore_decimal (fuel : Nat) : ∀ (n : Nat) (ds : List Char), n < fuel →
    ∃ pre, Nat.toDigitsCore 10 fuel n ds = pre ++ ds ∧
      pre.foldl (fun a c => 10 * a + (c.toNat - 48)) 0 = n := by
  induction fuel with
  | zero =>
    intro n ds h
    omega
  | succ fuel ih =>
    intro n ds h
    unfold Nat.toDigitsCore
    simp only []
    by_cases h0 : n / 10 = 0
    · rw [if_pos h0]
      refine ⟨[Nat.digitChar (n % 10)], rfl, ?_⟩
      simp only [List.foldl_cons, List.foldl_nil, Nat.mul_zero, Nat.zero_add]
      rw [digitChar_val _ (Nat.mod_lt _ (by decide))]
      omega
    · rw [if_neg h0]
      obtain ⟨pre, hpre, hval⟩ := ih (n / 10) (Nat.digitChar (n % 10) :: ds) (by omega)
      refine ⟨pre ++ [Nat.digitChar (n % 10)], ?_, ?_⟩
      · rw [hpre]
        simp
      · rw [List.foldl_append, hval]
        simp only [List.foldl_cons, List.foldl_nil]
        rw [digitChar_val _ (Nat.mod_lt _ (by decide))]
        omega

theorem toString_nat_injective (i j : Nat) (h : toString i = toString j) : i = j := by
  have hd : Nat.toDigits 10 i = Nat.toDigits 10 j := congrArg String.data h
  obtain ⟨p, hp, hpv⟩ := toDigitsCore_decimal (i + 1) i [] (by omega)
  obtain ⟨q, hq, hqv⟩ := toDigitsCore_decimal (j + 1) j [] (by omega)
  unfold Nat.toDigits at hd
  rw [hp, hq, List.append_nil, List.append_nil] at hd
  rw [← hpv, ← hqv, hd]

theorem weight_key_injective (i j : Nat)
    (h : "weight_" ++ toString i = "weight_" ++ toString j) : i = j := by
  apply toString_nat_injective
  have hd := congrArg String.data h
  rw [String.data_append, String.data_append] at hd
  exact String.ext (List.append_cancel_left hd)

theorem weight_key_ne_numLayers (i : Nat) : ("weight_" ++ toString i == "numLayers") = false := by
  rw [beq_eq_false_iff_ne]
  intro h
  have hd := congrArg String.data h
  rw [String.data_append] at hd
  have hw : ("weight_" : String).data = ['w', 'e', 'i', 'g', 'h', 't', '_'] := rfl
  have hn : ("numLayers" : String).data = ['n', 'u', 'm', 'L', 'a', 'y', 'e', 'r', 's'] := rfl
  rw [hw, hn] at hd
  simp at hd

end DecimalLemmas

section PersistenceLemmas

variable {α : Type}

theorem writeNode_fold_open (key : Nat → String) (val : Nat → FileNode α) (l : List Nat) :
    ∀ (n : String) (es : List (String × FileNode α))
      (rest : List (String × List (String × FileNode α))) (top : List (String × FileNode α)),
      l.foldl (fun fs i => FileStorage.writeNode fs (key i) (val i)) ⟨(n, es) :: rest, top⟩
        = ⟨(n, es ++ l.map fun i => (key i, val i)) :: rest, top⟩ := by
  induction l with
  | nil =>
    intro n es rest top
    simp
  | cons i l ih =>
    intro n es rest top
    simp only [List.foldl_cons, List.map_cons]
    have h1 : FileStorage.writeNode ⟨(n, es) :: rest, top⟩ (key i) (val i)
        = ⟨(n, es ++ [(key i, val i)]) :: rest, top⟩ := rfl
    rw [h1, ih, List.append_assoc]
    rfl

theorem writtenTree_eq (m : MultilayerPerceptron α) :
    writtenTree m = .map [("numWeights", .int m.mWeights.length),
      ("weights", .map (((List.range m.mWeights.length).map fun i =>
          ("weight_" ++ toString i, FileNode.mat (m.mWeights.getD i Mat.empty))) ++
        [("numLayers", .int m.mNumLayers),
          ("activations", .seq (m.mActivationsTypes.map .str)),
          ("learningRate", .real m.mLearningRate),
          ("numNodesConfig", .seq (m.mNumNodesConfiguration.map fun (n : Nat) => .int (n : Int))),
          ("dropoutWeights", .seq (m.mDropoutWeights.map .real)),
          ("dropouts", .seq (m.mDropouts.map .mat)),
          ("loss", .str m.mLoss)]))] := by
  unfold writtenTree write
  simp only []
  have h0 : FileStorage.startWriteStruct
      (FileStorage.writeNode (⟨[], []⟩ : FileStorage α) "numWeights"
        (.int m.mWeights.length)) "weights"
      = ⟨[("weights", [])], [("numWeights", .int m.mWeights.length)]⟩ := rfl
  rw [h0, writeNode_fold_open]
  simp only [List.nil_append, FileStorage.writeNode, FileStorage.release, FileStorage.closeAll,
    FileStorage.endWriteStruct, List.length, List.append_assoc, List.cons_append]

theorem lookup_weight_entries (val : Nat → FileNode α) (tail : List (String × FileNode α))
    (l : List Nat) (i : Nat) (hi : i ∈ l) :
    ((l.map fun j => ("weight_" ++ toString j, val j)) ++ tail).lookup
      ("weight_" ++ toString i) = some (val i) := by
  induction l with
  | nil => simp at hi
  | cons j l ih =>
    simp only [List.map_cons, List.cons_append, List.lookup_cons]
    by_cases hk : "weight_" ++ toString i = "weight_" ++ toString j
    · have hij := weight_key_injective i j hk
      subst hij
      simp
    · have hb : ("weight_" ++ toString i == "weight_" ++ toString j) = false :=
        beq_eq_false_iff_ne.mpr hk
      rw [hb]
      have hne : i ≠ j := fun e => hk (by rw [e])
      rcases List.mem_cons.mp hi with h | h
      · exact absurd h hne
      · exact ih h

theorem lookup_numLayers_entries (val : Nat → FileNode α) (x : FileNode α)
    (tail : List (String × FileNode α)) (l : List Nat) :
    ((l.map fun j => ("weight_" ++ toString j, val j)) ++ ("numLayers", x) :: tail).lookup
      "numLayers" = some x := by
  induction l with
  | nil => simp [List.lookup_cons]
  | cons j l ih =>
    simp only [List.map_cons, List.cons_append, List.lookup_cons]
    have hb : ("numLayers" == "weight_" ++ toString j) = false := by
      rw [beq_eq_false_iff_ne]
      intro h
      have := weight_key_ne_numLayers j
      rw [beq_eq_false_iff_ne] at this
      exact this h.symm
    rw [hb]
    exact ih

theorem readWeights_fold (node : FileNode α) (W : List (Mat α))
    (hnode : ∀ i, i < W.length →
      node.getKey ("weight_" ++ toString i) = .mat (W.getD i Mat.empty)) :
    ∀ k, k ≤ W.length → ∀ ws0 : List (Mat α), ws0.length = W.length →
      ∃ ws, (List.range k).foldlM (readWeight node) ws0 = some ws ∧
        ws.length = W.length ∧ ∀ i, i < k → ws[i]? = W[i]? := by
  intro k
  induction k with
  | zero =>
    intro _ ws0 h0
    exact ⟨ws0, rfl, h0, fun i hi => absurd hi (Nat.not_lt_zero i)⟩
  | succ k ih =>
    intro hk ws0 h0
    obtain ⟨ws, hws, hlen, hget⟩ := ih (by omega) ws0 h0
    refine ⟨ws.set k (W.getD k Mat.empty), ?_, ?_, ?_⟩
    · rw [List.range_succ, List.foldlM_append, hws]
      simp only [Option.bind_eq_bind, Option.some_bind, List.foldlM_cons, List.foldlM_nil]
      unfold readWeight
      rw [hnode k (by omega)]
      rfl
    · rw [List.length_set, hlen]
    · intro i hi
      rw [List.getElem?_set]
      by_cases hik : k = i
      · subst hik
        rw [if_pos rfl, if_pos (by omega)]
        rw [List.getD_eq_getElem?_getD, List.getElem?_eq_getElem (by omega : k < W.length)]
        rfl
      · rw [if_neg hik]
        exact hget i (by omega)

theorem read_of_lookups [Field α] (cvRound : α → Int) (r : MultilayerPerceptron α)
    (fn : FileNode α) (W : List (Mat α))
    (h1 : fn.getKey "numWeights" = .int (W.length : Int))
    (h2 : ∀ i, i < W.length →
      (fn.getKey "weights").getKey ("weight_" ++ toString i) = .mat (W.getD i Mat.empty))
    (h3 : fn.getKey "numLayers" = .empty) (h4 : fn.getKey "activations" = .empty)
    (h5 : fn.getKey "learningRate" = .empty) (h6 : fn.getKey "numNodesConfig" = .empty)
    (h7 : fn.getKey "dropoutWeights" = .empty) (h8 : fn.getKey "dropouts" = .empty)
    (h9 : fn.getKey "loss" = .empty) :
    read cvRound r fn = some { r with
      mWeights := W, mNumLayers := 0, mActivationsTypes := [],
      mLearningRate := 0, mNumNodesConfiguration := [], mDropoutWeights := [],
      mDropouts := [], mLoss := "" } := by
  obtain ⟨ws, hws, hlen, hget⟩ := readWeights_fold _ W h2 W.length
    (Nat.le_refl _) (vresize W.length r.mWeights) (vresize_length _ _)
  have hwsW : ws = W := by
    apply List.ext_getElem?
    intro i
    by_cases hi : i < W.length
    · exact hget i hi
    · rw [List.getElem?_eq_none (by omega), List.getElem?_eq_none (by omega)]
  subst hwsW
  unfold read
  simp only [h1, h3, h4, h5, h6, h7, h8, h9]
  have hn : ¬ ((ws.length : Int) < 0) := by omega
  simp only [readInt, hn, if_false, Int.toNat_ofNat, hws, Option.bind_eq_bind, Option.some_bind,
    FileNode.size, FileNode.elems, readReal, readString, List.range_zero, List.foldl_nil,
    List.take_zero, List.map_nil, List.mapM_nil, List.nil_append, Nat.zero_sub,
    List.replicate_zero]
  rfl

theorem read_writtenTree [Field α] (cvRound : α → Int) (r m : MultilayerPerceptron α) :
    read cvRound r (writtenTree m) = some (roundTrip r m) := by
  rw [writtenTree_eq]
  refine read_of_lookups cvRound r (FileNode.map _) m.mWeights rfl ?_ rfl rfl rfl rfl rfl rfl rfl
  intro i hi
  have hw : ∀ a b : FileNode α,
      (FileNode.map [("numWeights", a), ("weights", b)]).getKey "weights" = b :=
    fun _ _ => rfl
  rw [hw]
  unfold FileNode.getKey
  simp only []
  rw [lookup_weight_entries (fun j => FileNode.mat (m.mWeights.getD j Mat.empty)) _ _ i
    (List.mem_range.mpr hi)]
  rfl

theorem nested_numLayers (m : MultilayerPerceptron α) :
    ((writtenTree m).getKey "weights").getKey "numLayers" = .int (m.mNumLayers : Int) := by
  rw [writtenTree_eq]
  have hw : ∀ a b : FileNode α,
      (FileNode.map [("numWeights", a), ("weights", b)]).getKey "weights" = b :=
    fun _ _ => rfl
  rw [hw]
  unfold FileNode.getKey
  simp only []
  rw [lookup_numLayers_entries (fun j => FileNode.mat (m.mWeights.getD j Mat.empty))]
  rfl

end PersistenceLemmas

section PersistenceClaims

variable {α : Type} [Field α]

/-- C23: for every model, `read` applied to the node tree produced by `write` returns, and
the object it leaves holds as many weight matrices as were written, each identical to the
matrix written at that index. -/
theorem read_write_weights (cvRound : α → Int) (r m : MultilayerPerceptron α) :
    ∃ r1, read cvRound r (writtenTree m) = some r1 ∧
      r1.mWeights.length = m.mWeights.length ∧
      (∀ i : Nat, r1.mWeights[i]? = m.mWeights[i]?) ∧
      r1.mWeights = m.mWeights :=
  ⟨roundTrip r m, read_writtenTree cvRound r m, rfl, fun _ => rfl, rfl⟩

/-- C24, failing input (every model with `numLayers ≠ 0`, for instance `fwdModel`): the map
opened by `fs << "weights" << "{"` is never closed in `write`, so `numLayers`, `activations`,
`learningRate`, `numNodesConfig`, `dropoutWeights`, `dropouts` and `loss` are written inside
the map `weights`, while `read` looks them up at the top level, finds nothing and leaves the
defaults `0`, empty lists and the empty string.  For `fwdModel` the responses on the sample
`(1)` are `(3)` before the round trip and `(1, 1)` after it. -/
theorem read_write_topology_lost :
    (∀ (cvRound : α → Int) (r m : MultilayerPerceptron α),
      ∃ r1, read cvRound r (writtenTree m) = some r1 ∧
        r1.mNumLayers = 0 ∧ r1.mActivationsTypes = [] ∧ r1.mLearningRate = 0 ∧
        r1.mNumNodesConfiguration = [] ∧ r1.mDropoutWeights = [] ∧ r1.mDropouts = [] ∧
        r1.mLoss = "") ∧
    (∀ m : MultilayerPerceptron α,
      (writtenTree m).getKey "numLayers" = .empty ∧
      ((writtenTree m).getKey "weights").getKey "numLayers" = .int (m.mNumLayers : Int)) ∧
    (predict fwdModel trainInput = some (⟨1, 1, [[3]]⟩, [0]) ∧
      ((read (fun _ => 0) freshModel (writtenTree fwdModel)).bind
        fun r1 => predict r1 trainInput) = some (⟨1, 2, [[1, 1]]⟩, [0])) := by
  refine ⟨fun cvRound r m => ⟨roundTrip r m, read_writtenTree cvRound r m,
    rfl, rfl, rfl, rfl, rfl, rfl, rfl⟩, fun m => ⟨?_, nested_numLayers m⟩, ?_, ?_⟩
  · rw [writtenTree_eq]
    rfl
  · decide!
  · rw [read_writtenTree]
    decide!

end PersistenceClaims

section UniqueLemmas

theorem mem_unique (l : List Int) : ∀ x, x ∈ unique l ↔ x ∈ l := by
  induction l using unique.induct with
  | case1 => intro x; simp [unique]
  | case2 a => intro x; simp [unique]
  | case3 a rest ih =>
    intro x
    rw [unique, if_pos rfl, ih x]
    simp
  | case4 a b rest hab ih =>
    intro x
    rw [unique, if_neg hab, List.mem_cons, ih x, List.mem_cons (a := x) (b := a)]

theorem sorted_unique (l : List Int) : l.Sorted (· ≤ ·) → (unique l).Sorted (· < ·) := by
  induction l using unique.induct with
  | case1 => intro _; simp [unique]
  | case2 a => intro _; simp [unique]
  | case3 a rest ih =>
    intro h
    rw [unique, if_pos rfl]
    exact ih (List.Sorted.of_cons h)
  | case4 a b rest hab ih =>
    intro h
    rw [unique, if_neg hab]
    rw [List.sorted_cons] at h ⊢
    refine ⟨?_, ih h.2⟩
    intro z hz
    rw [mem_unique] at hz
    have hab2 : a ≤ b := h.1 b (List.mem_cons_self _ _)
    have hlt : a < b := lt_of_le_of_ne hab2 hab
    rcases List.mem_cons.mp hz with hzb | hzr
    · rw [hzb]
      exact hlt
    · have h2 := h.2
      rw [List.sorted_cons] at h2
      exact lt_of_lt_of_le hlt (h2.1 z hzr)

theorem labelsVec_sorted (a e : List Int) :
    (unique ((a ++ e).insertionSort (· ≤ ·))).Sorted (· < ·) :=
  sorted_unique _ (List.sorted_insertionSort _ _)

theorem labelsVec_mem (a e : List Int) (x : Int) :
    x ∈ unique ((a ++ e).insertionSort (· ≤ ·)) ↔ x ∈ a ++ e := by
  rw [mem_unique]
  exact (List.perm_insertionSort _ _).mem_iff

end UniqueLemmas

section MapLemmas2

theorem lookup_filter_ne (mp : List (Int × Nat)) (k k1 : Int) (h : k1 ≠ k) :
    (mp.filter fun e => !(e.1 == k)).lookup k1 = mp.lookup k1 := by
  induction mp with
  | nil => rfl
  | cons e mp ih =>
    obtain ⟨ek, ev⟩ := e
    by_cases hek : ek = k
    · subst hek
      have hb : (k1 == ek) = false := beq_eq_false_iff_ne.mpr h
      simp only [List.filter_cons, beq_self_eq_true, Bool.not_true, Bool.false_eq_true,
        if_false, List.lookup_cons, hb]
      exact ih
    · have hb : (ek == k) = false := beq_eq_false_iff_ne.mpr hek
      simp only [List.filter_cons, hb, Bool.not_false, if_true, List.lookup_cons]
      rw [ih]

theorem umapGet_umapSet (mp : List (Int × Nat)) (k : Int) (v : Nat) (k1 : Int) :
    umapGet (umapSet mp k v) k1 = if k1 = k then v else umapGet mp k1 := by
  unfold umapGet umapSet
  by_cases h : k1 = k
  · subst h
    simp [List.lookup_cons]
  · have hb : (k1 == k) = false := beq_eq_false_iff_ne.mpr h
    rw [if_neg h, List.lookup_cons, hb]
    simp only []
    rw [lookup_filter_ne mp k k1 h]

theorem umapSet_fresh (mp : List (Int × Nat)) (k : Int) (v : Nat)
    (h : ∀ e ∈ mp, e.1 ≠ k) : umapSet mp k v = (k, v) :: mp := by
  unfold umapSet
  congr 1
  rw [List.filter_eq_self]
  intro e he
  simp [h e he]

theorem labelMap_fold (L : List Int) (hL : L.Nodup) :
    ∀ j, j ≤ L.length →
      ((List.range j).foldl (fun mp i => umapSet mp (L.getD i 0) i) []).length = j ∧
      (∀ e ∈ (List.range j).foldl (fun mp i => umapSet mp (L.getD i 0) i) [],
        ∃ i, i < j ∧ e.1 = L.getD i 0) ∧
      (∀ i, i < j →
        umapGet ((List.range j).foldl (fun mp i => umapSet mp (L.getD i 0) i) [])
          (L.getD i 0) = i) := by
  intro j
  induction j with
  | zero =>
    intro _
    refine ⟨rfl, ?_, ?_⟩
    · intro e he
      simp at he
    · intro i hi
      omega
  | succ j ih =>
    intro hj
    obtain ⟨hlen, hkeys, hget⟩ := ih (by omega)
    have hne : ∀ i, i < j → L.getD i 0 ≠ L.getD j 0 := by
      intro i hi heq
      rw [List.getD_eq_getElem _ _ (by omega : i < L.length),
        List.getD_eq_getElem _ _ (by omega : j < L.length)] at heq
      have := (List.Nodup.getElem_inj_iff hL).mp heq
      omega
    have hfresh : ∀ e ∈ (List.range j).foldl (fun mp i => umapSet mp (L.getD i 0) i) [],
        e.1 ≠ L.getD j 0 := by
      intro e he
      obtain ⟨i, hi, hei⟩ := hkeys e he
      rw [hei]
      exact hne i hi
    rw [List.range_succ, List.foldl_append]
    simp only [List.foldl_cons, List.foldl_nil]
    refine ⟨?_, ?_, ?_⟩
    · rw [umapSet_fresh _ _ _ hfresh, List.length_cons, hlen]
    · intro e he
      rw [umapSet_fresh _ _ _ hfresh] at he
      rcases List.mem_cons.mp he with h | h
      · exact ⟨j, by omega, by rw [h]⟩
      · obtain ⟨i, hi, hei⟩ := hkeys e h
        exact ⟨i, by omega, hei⟩
    · intro i hi
      rw [umapGet_umapSet]
      by_cases hij : i = j
      · subst hij
        rw [if_pos rfl]
      · rw [if_neg (hne i (by omega)), hget i (by omega)]

end MapLemmas2

section LabelIndexLemmas

theorem labelIndex_spec (a e : List Int) :
    (computeLabelsVec a e []).length = (unique ((a ++ e).insertionSort (· ≤ ·))).length ∧
    ∀ i, i < (unique ((a ++ e).insertionSort (· ≤ ·))).length →
      umapGet (computeLabelsVec a e []) ((unique ((a ++ e).insertionSort (· ≤ ·))).getD i 0)
        = i := by
  have hs := labelsVec_sorted a e
  have hnd : (unique ((a ++ e).insertionSort (· ≤ ·))).Nodup := hs.nodup
  obtain ⟨h1, _, h3⟩ := labelMap_fold _ hnd _ (Nat.le_refl _)
  exact ⟨h1, h3⟩

theorem labelIndex_of_mem (a e : List Int) (x : Int) (hx : x ∈ a ++ e) :
    ∃ i, ∃ hi : i < (unique ((a ++ e).insertionSort (· ≤ ·))).length,
      (unique ((a ++ e).insertionSort (· ≤ ·)))[i] = x ∧
      umapGet (computeLabelsVec a e []) x = i := by
  have hm := (labelsVec_mem a e x).mpr hx
  obtain ⟨i, hi, hxi⟩ := List.getElem_of_mem hm
  refine ⟨i, hi, hxi, ?_⟩
  have := (labelIndex_spec a e).2 i hi
  rw [List.getD_eq_getElem _ _ hi, hxi] at this
  exact this

theorem labelIndex_lt (a e : List Int) (x : Int) (hx : x ∈ a ++ e) :
    umapGet (computeLabelsVec a e []) x < (computeLabelsVec a e []).length := by
  obtain ⟨i, hi, _, hidx⟩ := labelIndex_of_mem a e x hx
  rw [hidx, (labelIndex_spec a e).1]
  exact hi

theorem labelIndex_lt_iff (a e : List Int) (x y : Int) (hx : x ∈ a ++ e) (hy : y ∈ a ++ e) :
    x < y ↔ umapGet (computeLabelsVec a e []) x < umapGet (computeLabelsVec a e []) y := by
  obtain ⟨i, hi, hxi, hidx⟩ := labelIndex_of_mem a e x hx
  obtain ⟨j, hj, hyj, hjdx⟩ := labelIndex_of_mem a e y hy
  have hs := labelsVec_sorted a e
  have hp := List.pairwise_iff_getElem.mp hs
  rw [hidx, hjdx, ← hxi, ← hyj]
  constructor
  · intro hlt
    by_contra hnot
    rcases Nat.lt_or_eq_of_le (Nat.le_of_not_lt hnot) with h | h
    · have := hp j i hj hi h
      omega
    · subst h
      omega
  · intro hlt
    exact hp i j hi hj hlt

theorem labelIndex_inj (a e : List Int) (x y : Int) (hx : x ∈ a ++ e) (hy : y ∈ a ++ e)
    (h : umapGet (computeLabelsVec a e []) x = umapGet (computeLabelsVec a e []) y) :
    x = y := by
  have h1 := labelIndex_lt_iff a e x y hx hy
  have h2 := labelIndex_lt_iff a e y x hy hx
  rw [h] at h1
  rw [h] at h2
  have n1 : ¬ x < y := fun hlt => absurd (h1.mp hlt) (Nat.lt_irrefl _)
  have n2 : ¬ y < x := fun hlt => absurd (h2.mp hlt) (Nat.lt_irrefl _)
  omega

theorem labelIndex_surj (a e : List Int) (i : Nat)
    (hi : i < (computeLabelsVec a e []).length) :
    ∃ x, x ∈ a ++ e ∧ umapGet (computeLabelsVec a e []) x = i := by
  rw [(labelIndex_spec a e).1] at hi
  refine ⟨(unique ((a ++ e).insertionSort (· ≤ ·)))[i], ?_, ?_⟩
  · exact (labelsVec_mem a e _).mp (List.getElem_mem _)
  · have := (labelIndex_spec a e).2 i hi
    rw [List.getD_eq_getElem _ _ hi] at this
    exact this

theorem labelMap_card (a e : List Int) :
    (computeLabelsVec a e []).length = (a ++ e).toFinset.card := by
  rw [(labelIndex_spec a e).1]
  have hnd : (unique ((a ++ e).insertionSort (· ≤ ·))).Nodup := (labelsVec_sorted a e).nodup
  rw [← List.toFinset_card_of_nodup hnd]
  congr 1
  ext x
  simp only [List.mem_toFinset]
  exact labelsVec_mem a e x

end LabelIndexLemmas

section CountLemmas

theorem sumTo_succ {α : Type} [AddMonoid α] (n : Nat) (f : Nat → α) :
    sumTo (n + 1) f = sumTo n f + f n := by
  simp [sumTo, List.range_succ]

theorem sumTo_eq_sum {α : Type} [AddCommMonoid α] (n : Nat) (f : Nat → α) :
    sumTo n f = ∑ i in Finset.range n, f i := by
  induction n with
  | zero => simp [sumTo]
  | succ n ih => rw [sumTo_succ, Finset.sum_range_succ, ih]

theorem countPositions_succ (n : Nat) (p : Nat → Bool) :
    countPositions (n + 1) p = countPositions n p + if p n then 1 else 0 := by
  unfold countPositions
  rw [List.range_succ, List.countP_append]
  simp [List.countP_cons]

theorem countPositions_eq_sumTo (n : Nat) (p : Nat → Bool) :
    ((countPositions n p : Nat) : Int) = sumTo n fun i => if p i then (1 : Int) else 0 := by
  induction n with
  | zero => simp [countPositions, sumTo]
  | succ n ih =>
    rw [countPositions_succ, sumTo_succ, ← ih]
    split_ifs <;> simp

theorem countPositions_le (n : Nat) (p : Nat → Bool) : countPositions n p ≤ n := by
  unfold countPositions
  have h := List.countP_le_length p (l := List.range n)
  rw [List.length_range] at h
  exact h

theorem countPositions_eq_iff (n : Nat) (p : Nat → Bool) :
    countPositions n p = n ↔ ∀ i, i < n → p i = true := by
  unfold countPositions
  constructor
  · intro h i hi
    have hlen : (List.range n).countP p = (List.range n).length := by
      rw [h, List.length_range]
    exact (List.countP_eq_length.mp hlen) i (List.mem_range.mpr hi)
  · intro h
    have : (List.range n).countP p = (List.range n).length :=
      List.countP_eq_length.mpr fun i hi => h i (List.mem_range.mp hi)
    rw [this, List.length_range]

end CountLemmas

section ComputeLemmas

theorem compute_fold (gt lab : List Int) (M : List (Int × Nat)) (k : Nat)
    (hlen : lab.length = gt.length)
    (hr : ∀ i, i < gt.length → umapGet M (gt.getD i 0) < k)
    (hc : ∀ i, i < gt.length → umapGet M (lab.getD i 0) < k) :
    ∀ j, j ≤ gt.length →
      (List.range j).foldlM (computeStep gt lab M) (Mat.ofFn k k fun _ _ => (0 : Int))
        = some (Mat.ofFn k k fun r c => sumTo j fun i =>
            if umapGet M (gt.getD i 0) = r ∧ umapGet M (lab.getD i 0) = c
            then (1 : Int) else 0) := by
  intro j
  induction j with
  | zero =>
    intro _
    simp only [List.range_zero, List.foldlM_nil, Option.pure_def, Option.some.injEq]
    apply Mat.ofFn_ext
    intro r c _ _
    simp [sumTo]
  | succ j ih =>
    intro hj
    rw [List.range_succ, List.foldlM_append, ih (by omega)]
    simp only [Option.bind_eq_bind, Option.some_bind, List.foldlM_cons, List.foldlM_nil]
    unfold computeStep
    have hl : lab[j]? = some (lab.getD j 0) := by
      rw [List.getD_eq_getElem _ _ (by omega : j < lab.length)]
      exact List.getElem?_eq_getElem _
    have hg : gt[j]? = some (gt.getD j 0) := by
      rw [List.getD_eq_getElem _ _ (by omega : j < gt.length)]
      exact List.getElem?_eq_getElem _
    rw [hl, hg]
    simp only [Option.bind_eq_bind, Option.some_bind]
    unfold increment
    simp only [Mat.ofFn_rows, Mat.ofFn_cols]
    rw [if_pos ⟨hr j (by omega), hc j (by omega)⟩]
    simp only [Option.pure_def, Option.bind_some]
    congr 1
    apply Mat.ofFn_ext
    intro r c hrk hck
    rw [Mat.get_ofFn _ _ _ hrk hck, sumTo_succ]
    by_cases h : r = umapGet M (gt.getD j 0) ∧ c = umapGet M (lab.getD j 0)
    · rw [if_pos h, if_pos ⟨h.1.symm, h.2.symm⟩]
    · rw [if_neg h, if_neg (fun h2 => h ⟨h2.1.symm, h2.2.symm⟩), add_zero]

end ComputeLemmas

section IndicatorLemmas

theorem indicator_inner (k : Nat) (c0 : Nat) (P : Prop) [Decidable P] (hc : c0 < k) :
    (∑ c in Finset.range k, if P ∧ c0 = c then (1 : Int) else 0) = if P then 1 else 0 := by
  by_cases hP : P
  · simp [hP, Finset.sum_ite_eq, hc]
  · simp [hP]

theorem indicator_total (k n : Nat) (ri ci : Nat → Nat) (hr : ∀ i, i < n → ri i < k)
    (hc : ∀ i, i < n → ci i < k) :
    (sumTo k fun r => sumTo k fun c => sumTo n fun i =>
      if ri i = r ∧ ci i = c then (1 : Int) else 0) = (n : Int) := by
  simp only [sumTo_eq_sum]
  have h1 : ∀ r, (∑ c in Finset.range k, ∑ i in Finset.range n,
      if ri i = r ∧ ci i = c then (1 : Int) else 0)
      = ∑ i in Finset.range n, ∑ c in Finset.range k,
        if ri i = r ∧ ci i = c then (1 : Int) else 0 := fun r => Finset.sum_comm
  simp only [h1]
  rw [Finset.sum_comm]
  have h2 : ∀ i, i ∈ Finset.range n →
      (∑ r in Finset.range k, ∑ c in Finset.range k,
        if ri i = r ∧ ci i = c then (1 : Int) else 0) = 1 := by
    intro i hi
    have hi2 := Finset.mem_range.mp hi
    have h3 : ∀ r, (∑ c in Finset.range k, if ri i = r ∧ ci i = c then (1 : Int) else 0)
        = if ri i = r then 1 else 0 := fun r => indicator_inner k (ci i) (ri i = r) (hc i hi2)
    simp only [h3]
    simp [Finset.sum_ite_eq, hr i hi2]
  rw [Finset.sum_congr rfl h2]
  simp

theorem indicator_trace (k n : Nat) (ri ci : Nat → Nat) (hr : ∀ i, i < n → ri i < k) :
    (sumTo k fun r => sumTo n fun i => if ri i = r ∧ ci i = r then (1 : Int) else 0)
      = sumTo n fun i => if ri i = ci i then (1 : Int) else 0 := by
  simp only [sumTo_eq_sum]
  rw [Finset.sum_comm]
  apply Finset.sum_congr rfl
  intro i hi
  have hi2 := Finset.mem_range.mp hi
  by_cases h : ri i = ci i
  · rw [if_pos h]
    have h3 : ∀ r, (if ri i = r ∧ ci i = r then (1 : Int) else 0)
        = if ri i = r then 1 else 0 := by
      intro r
      by_cases hr2 : ri i = r
      · rw [if_pos ⟨hr2, by rw [← h]; exact hr2⟩, if_pos hr2]
      · rw [if_neg (fun hh => hr2 hh.1), if_neg hr2]
    simp only [h3]
    simp [Finset.sum_ite_eq, hr i hi2]
  · rw [if_neg h]
    apply Finset.sum_eq_zero
    intro r _
    rw [if_neg]
    rintro ⟨h1, h2⟩
    exact h (h1.trans h2.symm)

theorem countPositions_congr (n : Nat) (p q : Nat → Bool) (h : ∀ i, i < n → p i = q i) :
    countPositions n p = countPositions n q := by
  unfold countPositions
  apply List.countP_congr
  intro i hi
  rw [h i (List.mem_range.mp hi)]

end IndicatorLemmas

section ResultsLemmas

theorem getD_mem_append_left (a e : List Int) (i : Nat) (hi : i < a.length) :
    a.getD i 0 ∈ a ++ e := by
  rw [List.getD_eq_getElem _ _ hi]
  exact List.mem_append_left _ (List.getElem_mem _)

theorem getD_mem_append_right (a e : List Int) (i : Nat) (hi : i < e.length) :
    e.getD i 0 ∈ a ++ e := by
  rw [List.getD_eq_getElem _ _ hi]
  exact List.mem_append_right _ (List.getElem_mem _)

theorem compute_spec (a e : List Int) (hlen : a.length = e.length) :
    compute e a [] = some (computeLabelsVec a e [],
      Mat.ofFn (computeLabelsVec a e []).length (computeLabelsVec a e []).length fun r c =>
        sumTo e.length fun i =>
          if umapGet (computeLabelsVec a e []) (e.getD i 0) = r ∧
            umapGet (computeLabelsVec a e []) (a.getD i 0) = c then (1 : Int) else 0) := by
  unfold compute
  simp only [Option.bind_eq_bind]
  rw [compute_fold e a (computeLabelsVec a e []) (computeLabelsVec a e []).length hlen
    (fun i hi => labelIndex_lt a e _ (getD_mem_append_right a e i hi))
    (fun i hi => labelIndex_lt a e _ (getD_mem_append_left a e i (by omega)))
    e.length (Nat.le_refl _)]
  rfl

theorem ensureComputed_create (a e : List Int) (hlen : a.length = e.length) :
    (Results.create a e).ensureComputed = some
      { mGroundTruth := e, mLabels := a, mLabelMap := computeLabelsVec a e [],
        mConfusionMatrix :=
          Mat.ofFn (computeLabelsVec a e []).length (computeLabelsVec a e []).length
            fun r c => sumTo e.length fun i =>
              if umapGet (computeLabelsVec a e []) (e.getD i 0) = r ∧
                umapGet (computeLabelsVec a e []) (a.getD i 0) = c then (1 : Int) else 0 } := by
  unfold Results.ensureComputed Results.create
  simp only [Mat.isEmpty, Mat.empty, beq_self_eq_true, Bool.or_self, if_true]
  rw [compute_spec a e hlen]
  rfl

theorem confusion_sum (a e : List Int) (hlen : a.length = e.length) :
    (Mat.ofFn (computeLabelsVec a e []).length (computeLabelsVec a e []).length
      fun r c => sumTo e.length fun i =>
        if umapGet (computeLabelsVec a e []) (e.getD i 0) = r ∧
          umapGet (computeLabelsVec a e []) (a.getD i 0) = c then (1 : Int) else 0).sum
      = (e.length : Int) := by
  rw [Mat.sum_ofFn]
  exact indicator_total _ _ _ _
    (fun i hi => labelIndex_lt a e _ (getD_mem_append_right a e i hi))
    (fun i hi => labelIndex_lt a e _ (getD_mem_append_left a e i (by omega)))

theorem confusion_trace (a e : List Int) (hlen : a.length = e.length) :
    (Mat.ofFn (computeLabelsVec a e []).length (computeLabelsVec a e []).length
      fun r c => sumTo e.length fun i =>
        if umapGet (computeLabelsVec a e []) (e.getD i 0) = r ∧
          umapGet (computeLabelsVec a e []) (a.getD i 0) = c then (1 : Int) else 0).trace
      = (countPositions e.length fun i => decide (a.getD i 0 = e.getD i 0) : Nat) := by
  unfold Mat.trace
  simp only [Mat.ofFn_rows, Mat.ofFn_cols, Nat.min_self]
  rw [sumTo_congr _ _ (fun r => sumTo e.length fun i =>
        if umapGet (computeLabelsVec a e []) (e.getD i 0) = r ∧
          umapGet (computeLabelsVec a e []) (a.getD i 0) = r then (1 : Int) else 0)
      (fun r hr => Mat.get_ofFn _ _ _ hr hr)]
  rw [indicator_trace _ _ _ _
    (fun i hi => labelIndex_lt a e _ (getD_mem_append_right a e i hi))]
  rw [countPositions_eq_sumTo]
  apply sumTo_congr
  intro i hi
  have hiff : umapGet (computeLabelsVec a e []) (e.getD i 0)
      = umapGet (computeLabelsVec a e []) (a.getD i 0) ↔ a.getD i 0 = e.getD i 0 := by
    constructor
    · intro h
      exact (labelIndex_inj a e _ _ (getD_mem_append_right a e i hi)
        (getD_mem_append_left a e i (by omega)) h).symm
    · intro h
      rw [h]
  by_cases h : a.getD i 0 = e.getD i 0
  · rw [if_pos (hiff.mpr h), if_pos (decide_eq_true h)]
  · rw [if_neg (fun hh => h (hiff.mp hh)), if_neg (fun hd => h (of_decide_eq_true hd))]

end ResultsLemmas

section AccuracyLemmas

variable {α : Type} [LinearOrderedField α]

theorem getAccuracy_create (a e : List Int) (hlen : a.length = e.length)
    (hne : 0 < e.length) :
    ((Results.create a e).getAccuracy : Option (α × Results)).map (fun p => p.1)
      = some (((countPositions e.length fun i => decide (a.getD i 0 = e.getD i 0) : Nat) : α)
          / (e.length : α)) := by
  unfold Results.getAccuracy
  rw [ensureComputed_create a e hlen]
  simp only [Option.bind_eq_bind, Option.some_bind, Option.map_some']
  rw [confusion_sum a e hlen, confusion_trace a e hlen]
  congr 1
  have hn : (e.length : α) ≠ 0 := Nat.cast_ne_zero.mpr (by omega)
  push_cast
  field_simp

theorem getConfusionMatrix_create (a e : List Int) (hlen : a.length = e.length) :
    ∃ r1 : Results,
      (Results.create a e).getConfusionMatrix = some (r1.mConfusionMatrix, r1) ∧
      r1.mLabelMap = computeLabelsVec a e [] ∧
      r1.mConfusionMatrix =
        Mat.ofFn (computeLabelsVec a e []).length (computeLabelsVec a e []).length
          fun r c => sumTo e.length fun i =>
            if umapGet (computeLabelsVec a e []) (e.getD i 0) = r ∧
              umapGet (computeLabelsVec a e []) (a.getD i 0) = c then (1 : Int) else 0 := by
  unfold Results.getConfusionMatrix
  rw [ensureComputed_create a e hlen]
  exact ⟨_, rfl, rfl, rfl⟩

theorem countPositions_agree_iff (a e : List Int) (hlen : a.length = e.length) :
    (countPositions e.length fun i => decide (a.getD i 0 = e.getD i 0)) = e.length
      ↔ a = e := by
  rw [countPositions_eq_iff]
  constructor
  · intro h
    apply List.ext_getElem hlen
    intro i h1 h2
    have := of_decide_eq_true (h i h2)
    rw [List.getD_eq_getElem _ _ h1, List.getD_eq_getElem _ _ h2] at this
    exact this
  · intro h i _
    rw [h]
    exact decide_eq_true rfl

end AccuracyLemmas

section AccuracyClaims

variable {α : Type} [LinearOrderedField α]

/-- C28: for equally long, non-empty column vectors of integer labels,
`Results(actual, expected).getAccuracy()` returns the number of positions `i` with
`actual[i] = expected[i]` divided by the number of positions; the value lies in `[0, 1]` and
is `1` exactly when the two vectors are equal. -/
theorem getAccuracy_eq (actual expected : List Int)
    (hlen : actual.length = expected.length) (hne : 0 < expected.length) :
    ∃ (acc : α) (r1 : Results),
      (Results.create actual expected).getAccuracy = some (acc, r1) ∧
      acc = ((countPositions expected.length
          fun i => decide (actual.getD i 0 = expected.getD i 0) : Nat) : α)
        / (expected.length : α) ∧
      0 ≤ acc ∧ acc ≤ 1 ∧ (acc = 1 ↔ actual = expected) := by
  obtain ⟨⟨acc, r1⟩, h, hacc⟩ :=
    Option.map_eq_some'.mp (getAccuracy_create (α := α) actual expected hlen hne)
  simp only at hacc
  subst hacc
  have hpos : (0 : α) < (expected.length : α) := Nat.cast_pos.mpr hne
  have hle := countPositions_le expected.length
    fun i => decide (actual.getD i 0 = expected.getD i 0)
  have hle2 : ((countPositions expected.length
      fun i => decide (actual.getD i 0 = expected.getD i 0) : Nat) : α)
      ≤ (expected.length : α) := Nat.cast_le.mpr hle
  refine ⟨_, r1, h, rfl, ?_, ?_, ?_⟩
  · exact div_nonneg (Nat.cast_nonneg _) (le_of_lt hpos)
  · exact (div_le_one hpos).mpr hle2
  · rw [div_eq_one_iff_eq (ne_of_gt hpos), Nat.cast_inj]
    exact countPositions_agree_iff actual expected hlen

/-- Witness for C28: predicted labels `(2, 7, 7, -1, 2)` against expected labels
`(2, 7, 2, -1, 7)` agree in three of five positions. -/
theorem getAccuracy_eq_witness :
    (([2, 7, 7, -1, 2] : List Int).length = ([2, 7, 2, -1, 7] : List Int).length ∧
      0 < ([2, 7, 2, -1, 7] : List Int).length) ∧
    (∃ (acc : ℚ) (r1 : Results),
      (Results.create [2, 7, 7, -1, 2] [2, 7, 2, -1, 7]).getAccuracy = some (acc, r1) ∧
      acc = ((countPositions ([2, 7, 2, -1, 7] : List Int).length
          fun i => decide (([2, 7, 7, -1, 2] : List Int).getD i 0
            = ([2, 7, 2, -1, 7] : List Int).getD i 0) : Nat) : ℚ)
        / (([2, 7, 2, -1, 7] : List Int).length : ℚ) ∧
      0 ≤ acc ∧ acc ≤ 1 ∧ (acc = 1 ↔ ([2, 7, 7, -1, 2] : List Int) = [2, 7, 2, -1, 7])) ∧
    ((Results.create [2, 7, 7, -1, 2] [2, 7, 2, -1, 7]).getAccuracy :
      Option (ℚ × Results)).map (fun p => p.1) = some (3 / 5) :=
  ⟨by decide, getAccuracy_eq [2, 7, 7, -1, 2] [2, 7, 2, -1, 7] (by decide) (by decide),
    by decide!⟩

end AccuracyClaims

section ConfusionClaims

/-- C29: for equally long label vectors the label map sends the `k` distinct labels occurring
in either vector onto `0, …, k - 1` in increasing label order, the confusion matrix is
`k × k`, its entry `(r, c)` is the number of positions whose expected label has index `r`
and whose predicted label has index `c`, and its entries sum to the number of positions. -/
theorem getConfusionMatrix_counts (actual expected : List Int)
    (hlen : actual.length = expected.length) :
    ∃ (cm : Mat Int) (r1 : Results),
      (Results.create actual expected).getConfusionMatrix = some (cm, r1) ∧
      r1.mLabelMap.length = (actual ++ expected).toFinset.card ∧
      (∀ x, x ∈ actual ++ expected → umapGet r1.mLabelMap x < r1.mLabelMap.length) ∧
      (∀ x y, x ∈ actual ++ expected → y ∈ actual ++ expected →
        (x < y ↔ umapGet r1.mLabelMap x < umapGet r1.mLabelMap y)) ∧
      (∀ i, i < r1.mLabelMap.length →
        ∃ x, x ∈ actual ++ expected ∧ umapGet r1.mLabelMap x = i) ∧
      cm.rows = r1.mLabelMap.length ∧ cm.cols = r1.mLabelMap.length ∧
      (∀ r c, r < r1.mLabelMap.length → c < r1.mLabelMap.length →
        cm.get r c = (countPositions expected.length fun i =>
          decide (umapGet r1.mLabelMap (expected.getD i 0) = r ∧
            umapGet r1.mLabelMap (actual.getD i 0) = c) : Nat)) ∧
      cm.sum = (expected.length : Int) := by
  obtain ⟨r1, hget, hmap, hcm⟩ := getConfusionMatrix_create actual expected hlen
  refine ⟨r1.mConfusionMatrix, r1, hget, ?_, ?_, ?_, ?_, ?_, ?_, ?_, ?_⟩
  · rw [hmap]
    exact labelMap_card actual expected
  · rw [hmap]
    exact labelIndex_lt actual expected
  · rw [hmap]
    exact labelIndex_lt_iff actual expected
  · rw [hmap]
    exact labelIndex_surj actual expected
  · rw [hcm, hmap]
    rfl
  · rw [hcm, hmap]
    rfl
  · rw [hcm, hmap]
    intro r c hr hc
    rw [Mat.get_ofFn _ _ _ hr hc, countPositions_eq_sumTo]
    apply sumTo_congr
    intro i _
    by_cases h : umapGet (computeLabelsVec actual expected []) (expected.getD i 0) = r ∧
        umapGet (computeLabelsVec actual expected []) (actual.getD i 0) = c
    · rw [if_pos h, if_pos (decide_eq_true h)]
    · rw [if_neg h, if_neg (fun hd => h (of_decide_eq_true hd))]
  · rw [hcm]
    exact confusion_sum actual expected hlen

/-- Witness for C29: predicted labels `(2, 7, 7, -1, 2)` against expected labels
`(2, 7, 2, -1, 7)`; the labels `-1, 2, 7` get the indices `0, 1, 2`. -/
theorem getConfusionMatrix_counts_witness :
    ([2, 7, 7, -1, 2] : List Int).length = ([2, 7, 2, -1, 7] : List Int).length ∧
    (∃ (cm : Mat Int) (r1 : Results),
      (Results.create [2, 7, 7, -1, 2] [2, 7, 2, -1, 7]).getConfusionMatrix = some (cm, r1) ∧
      r1.mLabelMap.length = (([2, 7, 7, -1, 2] : List Int) ++ [2, 7, 2, -1, 7]).toFinset.card ∧
      (∀ x, x ∈ ([2, 7, 7, -1, 2] : List Int) ++ [2, 7, 2, -1, 7] →
        umapGet r1.mLabelMap x < r1.mLabelMap.length) ∧
      (∀ x y, x ∈ ([2, 7, 7, -1, 2] : List Int) ++ [2, 7, 2, -1, 7] →
        y ∈ ([2, 7, 7, -1, 2] : List Int) ++ [2, 7, 2, -1, 7] →
        (x < y ↔ umapGet r1.mLabelMap x < umapGet r1.mLabelMap y)) ∧
      (∀ i, i < r1.mLabelMap.length →
        ∃ x, x ∈ ([2, 7, 7, -1, 2] : List Int) ++ [2, 7, 2, -1, 7] ∧
          umapGet r1.mLabelMap x = i) ∧
      cm.rows = r1.mLabelMap.length ∧ cm.cols = r1.mLabelMap.length ∧
      (∀ r c, r < r1.mLabelMap.length → c < r1.mLabelMap.length →
        cm.get r c = (countPositions ([2, 7, 2, -1, 7] : List Int).length fun i =>
          decide (umapGet r1.mLabelMap (([2, 7, 2, -1, 7] : List Int).getD i 0) = r ∧
            umapGet r1.mLabelMap (([2, 7, 7, -1, 2] : List Int).getD i 0) = c) : Nat)) ∧
      cm.sum = (([2, 7, 2, -1, 7] : List Int).length : Int)) ∧
    ((Results.create [2, 7, 7, -1, 2] [2, 7, 2, -1, 7]).getConfusionMatrix).map
      (fun p => (p.1, umapGet p.2.mLabelMap (-1), umapGet p.2.mLabelMap 2,
        umapGet p.2.mLabelMap 7))
      = some (⟨3, 3, [[1, 0, 0], [0, 1, 1], [0, 1, 1]]⟩, 0, 1, 2) :=
  ⟨by decide, getConfusionMatrix_counts [2, 7, 7, -1, 2] [2, 7, 2, -1, 7] (by decide),
    by decide!⟩

end ConfusionClaims

section GuardClaims

variable {α : Type} [LinearOrderedField α] [ExpLog α]

end GuardClaims

section SingleLayerClaims

variable {α : Type}

/-- C34, failing input (every topology with one trainable layer, for instance
`singleLayerModel`): with one activation kind `weightEnd` is `0`, the first matrix is
allocated as `(nodes[0] + 1) × startNodes`, and the final assignment reads
`mWeights[weightEnd - 1] = mWeights[-1]`, an index outside the weight list; `setWeights`
and with it `learn` do not complete. -/
theorem setWeights_single_layer_fails :
    (∀ (m : MultilayerPerceptron α) (g : RNG α) (startNodes : Nat) (a : String),
      setWeights { m with mActivationsTypes := [a] } g startNodes = none) ∧
    (∀ ws : List (Mat α), vget (vresize 1 ws) ((1 : Int) - 1 - 1) = none) ∧
    (learn singleLayerModel exampleRNG trainInput ⟨1, 1, [[1]]⟩).isNone = true := by
  refine ⟨?_, ?_, by decide!⟩
  · intro m g startNodes a
    cases h : setWeights { m with mActivationsTypes := [a] } g startNodes with
    | none => rfl
    | some r =>
      exfalso
      unfold setWeights at h
      simp only [Option.bind_eq_bind] at h
      obtain ⟨n0, _, h⟩ := Option.bind_eq_some.mp h
      obtain ⟨ws0, h0, h⟩ := Option.bind_eq_some.mp h
      obtain ⟨st, hst, h⟩ := Option.bind_eq_some.mp h
      obtain ⟨nEnd, _, h⟩ := Option.bind_eq_some.mp h
      obtain ⟨wPrev, hprev, _⟩ := Option.bind_eq_some.mp h
      have hlen : (vresize [a].length m.mWeights).length = 1 := vresize_length _ _
      simp only [hlen] at hprev
      unfold vget at hprev
      simp at hprev
  · intro ws
    unfold vget
    simp

end SingleLayerClaims

section UnknownDerivativeClaims

variable {α : Type} [Field α] [LinearOrder α] [ExpLog α]

/-- C35: for every activation kind other than `relu`, `logistic`, `softmax` and `softplus`,
`applyDerivative` returns its input `Z`; so for a layer with such an activation the error
that `computeErrors` stores is the propagated signal `weights[L]ᵀ · errors[L + 1]` multiplied
entry by entry with the pre-activation output `outputs[L - 1]` of that layer. -/
theorem applyDerivative_unknown (type : String) (Z out : Mat α)
    (activationTypes : List String) (weights outputs errors : List (Mat α)) (L : Nat)
    (w e aux o : Mat α)
    (h1 : type ≠ "relu") (h2 : type ≠ "logistic") (h3 : type ≠ "softmax")
    (h4 : type ≠ "softplus")
    (hw : weights[L]? = some w) (he : errors[L + 1]? = some e)
    (haux : gemm w e 1 none 0 true false = some aux)
    (ht : activationTypes[L - 1]? = some type) (ho : outputs[L - 1]? = some o)
    (hL : L < errors.length) :
    applyDerivative type Z out = Z ∧
    errorLayer activationTypes weights outputs errors L
      = (multiply aux o).map (fun eL => errors.set L eL) ∧
    (∀ eL, multiply aux o = some eL → ∀ i j, i < aux.rows → j < aux.cols →
      eL.get i j = aux.get i j * o.get i j) := by
  have hd : ∀ X Y : Mat α, applyDerivative type X Y = X := by
    intro X Y
    unfold applyDerivative
    rw [if_neg h1, if_neg h2, if_neg h3, if_neg h4]
  refine ⟨hd Z out, ?_, ?_⟩
  · unfold errorLayer
    simp only [hw, he, haux, ht, ho, hd, Option.bind_eq_bind, Option.some_bind, hL, if_true]
    cases multiply aux o with
    | none => rfl
    | some eL => rfl
  · intro eL hm i j hi hj
    rw [multiply_eq hm]
    unfold Mat.hadamard Mat.zipWith
    exact Mat.get_ofFn _ _ _ hi hj

/-- Witness for C35: the kind `identity` in the hidden layer of `fwdModel`. -/
theorem applyDerivative_unknown_witness :
    ("identity" ≠ "relu" ∧ "identity" ≠ "logistic" ∧ "identity" ≠ "softmax" ∧
      "identity" ≠ "softplus") ∧
    errorLayer ["identity", ""] fwdWeights fwdOutputs
      [Mat.empty, Mat.empty, ⟨1, 1, [[2]]⟩] 1
      = some [Mat.empty, ⟨2, 1, [[6], [-4]]⟩, ⟨1, 1, [[2]]⟩] := by
  have h := (applyDerivative_unknown "identity" (Mat.empty : Mat ℚ) Mat.empty
    ["identity", ""] fwdWeights fwdOutputs [Mat.empty, Mat.empty, ⟨1, 1, [[2]]⟩] 1
    ⟨1, 2, [[1, 1]]⟩ ⟨1, 1, [[2]]⟩ ⟨2, 1, [[2], [2]]⟩ ⟨2, 1, [[3], [-2]]⟩
    (by decide) (by decide) (by decide) (by decide) (by decide!) (by decide!) (by decide!)
    (by decide!) (by decide!) (by decide)).2.1
  refine ⟨by decide, ?_⟩
  rw [h]
  decide!

end UnknownDerivativeClaims

section AugmentClaims

variable {α : Type} [Field α] [LinearOrder α] [ExpLog α]

/-- C36: for every input matrix with `n` rows and `d` columns there is one matrix `A` with
`d + 1` rows and `n` columns, `A[j][i] = input[i][j]` for `j < d` and `A[d][i] = 1`, such that
`predict` runs its forward pass (`predictFull`) on `A` and `_learn` allocates the weights for
`A.rows` input nodes and runs its training loop on `A`. -/
theorem bias_augmentation (m : MultilayerPerceptron α) (g : RNG α) (isUMat : Bool)
    (inp labels : Mat α) :
    ∃ A : Mat α, A.rows = inp.cols + 1 ∧ A.cols = inp.rows ∧
      (∀ i j, i < inp.rows → j < inp.cols → A.get j i = inp.get i j) ∧
      (∀ i, i < inp.rows → A.get inp.cols i = 1) ∧
      predict m inp = (predictFull m A [] []).map (fun r => (r.1, r.2.1)) ∧
      _learn m g isUMat inp labels
        = (setWeights m g A.rows).bind fun p =>
            (learnLoop p.1 isUMat A labels.t p.1.mMaxIterations [] p.1.mWeights).bind fun q =>
              (copyBack q.1 p.1.mWeights).map fun ws =>
                ({ p.1 with mWeights := ws }, p.2, q.2) := by
  have hcat : hconcat inp (Mat.ofFn inp.rows 1 fun _ _ => (1 : α))
      = some (Mat.ofFn inp.rows (inp.cols + 1) fun i j =>
          if j < inp.cols then inp.get i j
          else (Mat.ofFn inp.rows 1 fun _ _ => (1 : α)).get i (j - inp.cols)) := by
    unfold hconcat
    exact if_pos rfl
  refine ⟨(Mat.ofFn inp.rows (inp.cols + 1) fun i j =>
      if j < inp.cols then inp.get i j
      else (Mat.ofFn inp.rows 1 fun _ _ => (1 : α)).get i (j - inp.cols)).t,
    rfl, rfl, ?_, ?_, ?_, ?_⟩
  · intro i j hi hj
    unfold Mat.t
    simp only [Mat.ofFn_rows, Mat.ofFn_cols]
    rw [Mat.get_ofFn _ _ _ (by omega) hi, Mat.get_ofFn _ _ _ hi (by omega), if_pos hj]
  · intro i hi
    unfold Mat.t
    simp only [Mat.ofFn_rows, Mat.ofFn_cols]
    rw [Mat.get_ofFn _ _ _ (by omega) hi, Mat.get_ofFn _ _ _ hi (by omega),
      if_neg (Nat.lt_irrefl _), Nat.sub_self, Mat.get_ofFn _ _ _ hi (by omega)]
  · simp only [predict, hcat, Option.bind_eq_bind, Option.some_bind]
    cases predictFull m (Mat.ofFn inp.rows (inp.cols + 1) fun i j =>
      if j < inp.cols then inp.get i j
      else (Mat.ofFn inp.rows 1 fun _ _ => (1 : α)).get i (j - inp.cols)).t [] [] with
    | none => rfl
    | some r => rfl
  · simp only [_learn, hcat, Option.bind_eq_bind, Option.some_bind]
    cases setWeights m g (Mat.ofFn inp.rows (inp.cols + 1) fun i j =>
      if j < inp.cols then inp.get i j
      else (Mat.ofFn inp.rows 1 fun _ _ => (1 : α)).get i (j - inp.cols)).t.rows with
    | none => rfl
    | some p =>
      obtain ⟨m1, g1⟩ := p
      simp only [Option.some_bind]
      cases learnLoop m1 isUMat (Mat.ofFn inp.rows (inp.cols + 1) fun i j =>
        if j < inp.cols then inp.get i j
        else (Mat.ofFn inp.rows 1 fun _ _ => (1 : α)).get i (j - inp.cols)).t labels.t
        m1.mMaxIterations [] m1.mWeights with
      | none => rfl
      | some q =>
        obtain ⟨ws, steps⟩ := q
        simp only [Option.some_bind]
        cases copyBack ws m1.mWeights with
        | none => rfl
        | some w => rfl

end AugmentClaims

section MeanAccuracyClaims

variable {α : Type} [Field α] [LinearOrder α]

/-- C37, failing input (every freshly constructed object, for instance predicted labels
`(2, 7, 7, -1, 2)` against expected labels `(2, 7, 2, -1, 7)`): `getMeanAccuracy` does not
compute the confusion matrix, so on a fresh object it runs over the empty cached matrix and
ends in the quotient `0.f / 0` by the class count `mConfusionMatrix.rows = 0`; only after
another method has filled the cache does it return the mean of the class accuracies (`2/3`
in the example). -/
theorem getMeanAccuracy_fresh :
    (∀ actual expected : List Int,
      ((Results.create actual expected).getMeanAccuracy : Option α) = none ∧
      (Results.create actual expected).mConfusionMatrix.rows = 0) ∧
    ((Results.create [2, 7, 7, -1, 2] [2, 7, 2, -1, 7]).getMeanAccuracy : Option ℚ) = none ∧
    ((Results.create [2, 7, 7, -1, 2] [2, 7, 2, -1, 7]).getConfusionMatrix.bind
      fun p => (p.2.getMeanAccuracy : Option ℚ)) = some (2 / 3) := by
  refine ⟨fun actual expected => ⟨rfl, rfl⟩, by decide!, by decide!⟩

end MeanAccuracyClaims

section FoldLemmas

theorem foldStep_scan (S : List Nat) (hS : S.Sorted (· < ·)) :
    ∀ j, ∃ t train,
      (List.range j).foldl (foldStep S) ([], [], 0) = (S.take t, train, t) ∧
      t ≤ S.length ∧ (S.take t ++ train).Perm (List.range j) ∧
      ∀ x, x ∈ S.drop t → j ≤ x := by
  intro j
  induction j with
  | zero =>
    exact ⟨0, [], rfl, Nat.zero_le _, by simp, fun x _ => Nat.zero_le x⟩
  | succ j ih =>
    obtain ⟨t, train, hst, ht, hperm, hge⟩ := ih
    rw [List.range_succ, List.foldl_append, hst]
    simp only [List.foldl_cons, List.foldl_nil]
    unfold foldStep
    simp only []
    by_cases hc : t < S.length ∧ S[t]? = some j
    · rw [if_pos hc]
      obtain ⟨htl, hget⟩ := hc
      have hget2 : S[t] = j := by
        rw [List.getElem?_eq_getElem htl] at hget
        exact Option.some.inj hget
      have htake : S.take (t + 1) = S.take t ++ [j] := by
        rw [List.take_succ, List.getElem?_eq_getElem htl, hget2]
        rfl
      have hdrop : S.drop t = j :: S.drop (t + 1) := by
        rw [List.drop_eq_getElem_cons htl, hget2]
      refine ⟨t + 1, train, by rw [htake], by omega, ?_, ?_⟩
      · rw [htake]
        have h1 : (S.take t ++ [j] ++ train).Perm (S.take t ++ train ++ [j]) := by
          rw [List.append_assoc, List.append_assoc]
          exact List.Perm.append_left _ List.perm_append_comm
        exact h1.trans (List.Perm.append_right _ hperm)
      · intro x hx
        have hsd : (S.drop t).Sorted (· < ·) := List.Pairwise.sublist (List.drop_sublist t S) hS
        rw [hdrop] at hsd
        have := (List.sorted_cons.mp hsd).1 x hx
        omega
    · rw [if_neg hc]
      refine ⟨t, train ++ [j], rfl, ht, ?_, ?_⟩
      · rw [← List.append_assoc]
        exact List.Perm.append_right _ hperm
      · intro x hx
        have hjx := hge x hx
        by_cases htl : t < S.length
        · have hdrop : S.drop t = S[t] :: S.drop (t + 1) := List.drop_eq_getElem_cons htl
          have hhead : j ≤ S[t] := hge _ (by rw [hdrop]; exact List.mem_cons_self _ _)
          have hne : S[t] ≠ j := by
            intro he
            apply hc
            exact ⟨htl, by rw [List.getElem?_eq_getElem htl, he]⟩
          have hsd : (S.drop t).Sorted (· < ·) := List.Pairwise.sublist (List.drop_sublist t S) hS
          rw [hdrop] at hsd hx
          rcases List.mem_cons.mp hx with h | h
          · rw [h]
            omega
          · have := (List.sorted_cons.mp hsd).1 x h
            omega
        · rw [List.drop_eq_nil_of_le (by omega)] at hx
          simp at hx

theorem splitFold_spec (len : Nat) (S : List Nat) (hS : S.Sorted (· < ·))
    (hlt : ∀ x, x ∈ S → x < len) :
    (splitFold len S).1 = S ∧
    ((splitFold len S).1 ++ (splitFold len S).2).Perm (List.range len) := by
  obtain ⟨t, train, hst, ht, hperm, hge⟩ := foldStep_scan S hS len
  have hnil : S.drop t = [] := by
    cases hd : S.drop t with
    | nil => rfl
    | cons x rest =>
      exfalso
      have hx : x ∈ S.drop t := by rw [hd]; exact List.mem_cons_self _ _
      have h1 := hge x hx
      have h2 := hlt x (List.mem_of_mem_drop hx)
      omega
  have htake : S.take t = S := by
    have := List.take_append_drop t S
    rw [hnil, List.append_nil] at this
    exact this
  unfold splitFold
  simp only [hst]
  rw [htake] at hperm ⊢
  exact ⟨rfl, hperm⟩

theorem segment_mem (ordering : List Nat) (offset foldLen x : Nat)
    (hx : x ∈ (ordering.drop offset).take foldLen) :
    ∃ i, ∃ h : offset + i < ordering.length, i < foldLen ∧ ordering[offset + i] = x := by
  obtain ⟨i, hi, hxi⟩ := List.getElem_of_mem hx
  have hi2 : i < foldLen ∧ i < (ordering.drop offset).length := by
    rw [List.length_take] at hi
    omega
  have hi3 : offset + i < ordering.length := by
    have := hi2.2
    rw [List.length_drop] at this
    omega
  refine ⟨i, hi3, hi2.1, ?_⟩
  rw [List.getElem_take, List.getElem_drop] at hxi
  exact hxi

theorem segments_disjoint (ordering : List Nat) (hnd : ordering.Nodup)
    (o1 o2 foldLen : Nat) (h12 : o1 + foldLen ≤ o2) (x : Nat)
    (h1 : x ∈ (ordering.drop o1).take foldLen) (h2 : x ∈ (ordering.drop o2).take foldLen) :
    False := by
  obtain ⟨i, hi, hil, hxi⟩ := segment_mem ordering o1 foldLen x h1
  obtain ⟨k, hk, hkl, hxk⟩ := segment_mem ordering o2 foldLen x h2
  have heq : ordering[o1 + i] = ordering[o2 + k] := by rw [hxi, hxk]
  have := (List.Nodup.getElem_inj_iff hnd).mp heq
  omega

end FoldLemmas

section FoldClaims

/-- C38: for `1 ≤ nfolds ≤ len` and an ordering that is a permutation of `0, …, len - 1`,
every fold is built without error, its test and training lists together hold every sample
index exactly once, its test list has `len / nfolds` entries (the integer quotient), and the
test lists of two different folds have no index in common. -/
theorem crossValidation_partition (len nfolds : Nat) (ordering : List Nat)
    (hn : 1 ≤ nfolds) (_hle : nfolds ≤ len) (hperm : ordering.Perm (List.range len))
    (fold : Nat) (hf : fold < nfolds) :
    ∃ test train, crossValidationFold len nfolds ordering fold = some (test, train) ∧
      (test ++ train).Perm (List.range len) ∧
      test.length = len / nfolds ∧
      ∀ fold2 test2 train2, fold2 < nfolds → fold2 ≠ fold →
        crossValidationFold len nfolds ordering fold2 = some (test2, train2) →
        ∀ x, x ∈ test → x ∉ test2 := by
  have hlen : ordering.length = len := by rw [hperm.length_eq, List.length_range]
  have hnd : ordering.Nodup := hperm.nodup_iff.mpr (List.nodup_range len)
  have hn0 : ¬ nfolds = 0 := by omega
  have hbound : ∀ f, f < nfolds → len / nfolds + len / nfolds * f ≤ ordering.length := by
    intro f hf2
    rw [hlen]
    have h1 : len / nfolds * (f + 1) ≤ len / nfolds * nfolds := Nat.mul_le_mul_left _ hf2
    have h2 : len / nfolds * nfolds ≤ len := Nat.div_mul_le_self len nfolds
    have h3 : len / nfolds * (f + 1) = len / nfolds + len / nfolds * f := by ring
    omega
  have hseg : ∀ f, f < nfolds → ∃ train,
      crossValidationFold len nfolds ordering f
        = some (((ordering.drop (len / nfolds * f)).take (len / nfolds)).insertionSort
            (· ≤ ·), train) ∧
      ((((ordering.drop (len / nfolds * f)).take (len / nfolds)).insertionSort (· ≤ ·))
        ++ train).Perm (List.range len) := by
    intro f hf2
    have hsub : ((ordering.drop (len / nfolds * f)).take (len / nfolds)).Sublist ordering :=
      (List.take_sublist _ _).trans (List.drop_sublist _ _)
    have hp := List.perm_insertionSort (· ≤ ·)
      ((ordering.drop (len / nfolds * f)).take (len / nfolds))
    have hsnd : (((ordering.drop (len / nfolds * f)).take (len / nfolds)).insertionSort
        (· ≤ ·)).Nodup := hp.nodup_iff.mpr (hnd.sublist hsub)
    have hsorted : (((ordering.drop (len / nfolds * f)).take (len / nfolds)).insertionSort
        (· ≤ ·)).Sorted (· < ·) :=
      (List.sorted_insertionSort (· ≤ ·) _).lt_of_le hsnd
    have hlt : ∀ x, x ∈ ((ordering.drop (len / nfolds * f)).take (len / nfolds)).insertionSort
        (· ≤ ·) → x < len := by
      intro x hx
      have hx2 : x ∈ ordering := hsub.subset (hp.mem_iff.mp hx)
      exact List.mem_range.mp (hperm.mem_iff.mp hx2)
    obtain ⟨hs1, hs2⟩ := splitFold_spec len _ hsorted hlt
    refine ⟨(splitFold len (((ordering.drop (len / nfolds * f)).take
      (len / nfolds)).insertionSort (· ≤ ·))).2, ?_, ?_⟩
    · unfold crossValidationFold
      rw [if_neg hn0]
      simp only []
      rw [if_pos (hbound f hf2)]
      congr 1
      exact Prod.ext hs1 rfl
    · rw [hs1] at hs2
      exact hs2
  obtain ⟨train, hcv, hpart⟩ := hseg fold hf
  refine ⟨_, train, hcv, hpart, ?_, ?_⟩
  · rw [List.length_insertionSort, List.length_take, List.length_drop]
    have := hbound fold hf
    omega
  · intro fold2 test2 train2 hf2 hne hcv2 x hx hx2
    obtain ⟨train3, hcv3, _⟩ := hseg fold2 hf2
    rw [hcv3] at hcv2
    have ht2 : test2 = (((ordering.drop (len / nfolds * fold2)).take
        (len / nfolds)).insertionSort (· ≤ ·)) := by
      have := congrArg (fun p => p.1) (Option.some.inj hcv2)
      simp only at this
      exact this.symm
    rw [ht2] at hx2
    have hm1 := (List.perm_insertionSort (· ≤ ·) _).mem_iff.mp hx
    have hm2 := (List.perm_insertionSort (· ≤ ·) _).mem_iff.mp hx2
    rcases Nat.lt_or_gt_of_ne hne with h | h
    · have h1 : len / nfolds * (fold2 + 1) ≤ len / nfolds * fold := Nat.mul_le_mul_left _ h
      have h3 : len / nfolds * (fold2 + 1) = len / nfolds * fold2 + len / nfolds := by ring
      exact segments_disjoint ordering hnd _ _ _ (by omega) x hm2 hm1
    · have h1 : len / nfolds * (fold + 1) ≤ len / nfolds * fold2 := Nat.mul_le_mul_left _ h
      have h3 : len / nfolds * (fold + 1) = len / nfolds * fold + len / nfolds := by ring
      exact segments_disjoint ordering hnd _ _ _ (by omega) x hm1 hm2

/-- Witness for C38: five samples in two folds with the ordering `(3, 0, 4, 1, 2)`; the
first fold tests the samples `0` and `3`. -/
theorem crossValidation_partition_witness :
    (1 ≤ 2 ∧ 2 ≤ 5 ∧ [3, 0, 4, 1, 2].Perm (List.range 5) ∧ 0 < 2) ∧
    (∃ test train, crossValidationFold 5 2 [3, 0, 4, 1, 2] 0 = some (test, train) ∧
      (test ++ train).Perm (List.range 5) ∧
      test.length = 5 / 2 ∧
      ∀ fold2 test2 train2, fold2 < 2 → fold2 ≠ 0 →
        crossValidationFold 5 2 [3, 0, 4, 1, 2] fold2 = some (test2, train2) →
        ∀ x, x ∈ test → x ∉ test2) ∧
    crossValidationFold 5 2 [3, 0, 4, 1, 2] 0 = some ([0, 3], [1, 2, 4]) ∧
    crossValidationFold 5 2 [3, 0, 4, 1, 2] 1 = some ([1, 4], [0, 2, 3]) :=
  ⟨⟨by decide, by decide, by decide, by decide⟩,
    crossValidation_partition 5 2 [3, 0, 4, 1, 2] (by decide) (by decide) (by decide) 0
      (by decide),
    by decide, by decide⟩

end FoldClaims

section EntryLemmas

variable {α : Type} [Field α]

end EntryLemmas

section ForwardByValue

variable {α : Type} [Field α] [LinearOrder α] [ExpLog α]

theorem forwardLayerByValue_activations (m : MultilayerPerceptron α) (isUMat : Bool)
    (weights : List (Mat α)) (activationTypes : List String) (dropout : List α)
    (st st2 : List (Mat α) × List (Mat α)) (l : Nat) (h : st.2 = st2.2) :
    (forwardLayerByValue m isUMat weights activationTypes dropout st l).map Prod.snd
      = (forwardLayer m isUMat weights activationTypes dropout st2 l).map Prod.snd := by
  unfold forwardLayerByValue forwardLayer
  simp only [Option.bind_eq_bind, h]
  cases weights[l]? with
  | none => rfl
  | some W =>
    simp only [Option.some_bind]
    cases st2.2[l]? with
    | none => rfl
    | some a =>
      simp only [Option.some_bind]
      cases gemm W a 1 none 0 false false with
      | none => rfl
      | some x =>
        simp only [Option.some_bind]
        cases activationTypes[l]? with
        | none => rfl
        | some ty =>
          simp only [Option.some_bind]
          cases dropout[l]? with
          | none => rfl
          | some d =>
            simp only [Option.some_bind]
            by_cases hd : 0.05 < d ∧ d < 0.8
            · rw [if_pos hd, if_pos hd]
              cases m.mDropouts[l]? with
              | none => rfl
              | some mask =>
                simp only [Option.some_bind]
                cases multiply mask (applyActivation ty isUMat x) with
                | none => rfl
                | some r => rfl
            · rw [if_neg hd, if_neg hd]
              rfl

theorem forwardByValue_fold_activations (m : MultilayerPerceptron α) (isUMat : Bool)
    (weights : List (Mat α)) (activationTypes : List String) (dropout : List α) :
    ∀ (ls : List Nat) (st st2 : List (Mat α) × List (Mat α)), st.2 = st2.2 →
      (ls.foldlM (forwardLayerByValue m isUMat weights activationTypes dropout) st).map
          Prod.snd
        = (ls.foldlM (forwardLayer m isUMat weights activationTypes dropout) st2).map
          Prod.snd := by
  intro ls
  induction ls with
  | nil =>
    intro st st2 h
    simp only [List.foldlM_nil, Option.pure_def, Option.map_some', h]
  | cons x xs ih =>
    intro st st2 h
    have hstep := forwardLayerByValue_activations m isUMat weights activationTypes dropout
      st st2 x h
    simp only [List.foldlM_cons, Option.bind_eq_bind]
    cases hf : forwardLayerByValue m isUMat weights activationTypes dropout st x with
    | none =>
      cases hg : forwardLayer m isUMat weights activationTypes dropout st2 x with
      | none => rfl
      | some t2 =>
        rw [hf, hg] at hstep
        simp at hstep
    | some t =>
      cases hg : forwardLayer m isUMat weights activationTypes dropout st2 x with
      | none =>
        rw [hf, hg] at hstep
        simp at hstep
      | some t2 =>
        rw [hf, hg] at hstep
        simp only [Option.map_some', Option.some.injEq] at hstep
        simp only [Option.some_bind]
        exact ih t t2 hstep

theorem doForwardPassByValue_activations (m : MultilayerPerceptron α) (isUMat : Bool)
    (input : Mat α) (weights : List (Mat α)) (activationTypes : List String)
    (dropout : List α) (outputs0 activations0 : List (Mat α)) :
    (doForwardPassByValue m isUMat input weights activationTypes dropout outputs0
        activations0).map Prod.snd
      = (doForwardPass m isUMat input weights activationTypes dropout outputs0
        activations0).map Prod.snd := by
  unfold doForwardPassByValue doForwardPass
  exact forwardByValue_fold_activations m isUMat weights activationTypes dropout _ _ _ rfl

/-- The shared buffer reaches the backward pass.  In one call of `learnWeights` on `fwdModel`
against the target `1`, `dRelu` receives `outputs[0]` with the entries `3` and `0` of
`activations[1]`, and the second row of `weights[0]` stays as it was; read with value semantics,
`dRelu` receives the product with the entries `3` and `-2`, and that row changes. -/
theorem learnWeights_shared_buffer_example :
    (learnWeights fwdModel false fwdInput ⟨1, 1, [[1]]⟩ ["relu", ""] [1 / 2, 0] []
        fwdWeights).map Prod.snd
      = some [⟨2, 2, [[4 / 5, 9 / 5], [-3, 1]]⟩, ⟨1, 2, [[2 / 5, 1]]⟩] ∧
    (learnWeightsByValue fwdModel false fwdInput ⟨1, 1, [[1]]⟩ ["relu", ""] [1 / 2, 0] []
        fwdWeights).map Prod.snd
      = some [⟨2, 2, [[4 / 5, 9 / 5], [-16 / 5, 4 / 5]]⟩, ⟨1, 2, [[2 / 5, 1]]⟩] := by
  decide!

end ForwardByValue

section TwoLayerLemmas

variable {α : Type} [Field α] [LinearOrder α] [ExpLog α]

end TwoLayerLemmas

section GradientAlgebra

end GradientAlgebra

section GradientEntries

end GradientEntries

section GradientCalculus

end GradientCalculus

section GradientCode

end GradientCode

section GradientPartials

end GradientPartials

section GradientClaims

end GradientClaims

section NormalizeLemmas

variable {α : Type} [LinearOrderedField α]

theorem sumTo_nonneg (n : Nat) (f : Nat → α) (h : ∀ i, i < n → 0 ≤ f i) : 0 ≤ sumTo n f := by
  rw [sumTo_eq_sum]
  exact Finset.sum_nonneg fun i hi => h i (Finset.mem_range.mp hi)

theorem sumTo_ge_term (n : Nat) (f : Nat → α) (h : ∀ i, i < n → 0 ≤ f i) (k : Nat)
    (hk : k < n) : f k ≤ sumTo n f := by
  rw [sumTo_eq_sum]
  exact Finset.single_le_sum (fun i hi => h i (Finset.mem_range.mp hi))
    (Finset.mem_range.mpr hk)

theorem sumTo_div (n : Nat) (f : Nat → α) (c : α) :
    sumTo n (fun i => f i / c) = sumTo n f / c := by
  rw [sumTo_eq_sum, sumTo_eq_sum, Finset.sum_div]

theorem normalizeCols_fold_value (r c : Nat) (g : Nat → Nat → α)
    (hpos : ∀ i j, i < r → j < c → 0 < g i j)
    (hnorm : ∀ j, j < c → DBL_EPSILON < sumTo r fun i => g i j) :
    ∀ k, k ≤ c →
      (List.range k).foldl normalizeColL1 (Mat.ofFn r c g)
        = Mat.ofFn r c fun i j =>
            if j < k then g i j / (sumTo r fun i1 => g i1 j) else g i j := by
  intro k
  induction k with
  | zero =>
    intro _
    simp only [List.range_zero, List.foldl_nil]
    apply Mat.ofFn_ext
    intro i j _ _
    rw [if_neg (Nat.not_lt_zero j)]
  | succ k ih =>
    intro hk
    have hkc : k < c := by omega
    rw [List.range_succ, List.foldl_append, ih (by omega)]
    simp only [List.foldl_cons, List.foldl_nil]
    unfold normalizeColL1
    simp only [Mat.ofFn_rows, Mat.ofFn_cols]
    have hcol : ∀ i, i < r →
        (Mat.ofFn r c fun i j =>
          if j < k then g i j / (sumTo r fun i1 => g i1 j) else g i j).get i k = g i k := by
      intro i hi
      rw [Mat.get_ofFn _ _ _ hi hkc, if_neg (Nat.lt_irrefl k)]
    have hnormk : (sumTo r fun i =>
        if (Mat.ofFn r c fun i j =>
            if j < k then g i j / (sumTo r fun i1 => g i1 j) else g i j).get i k < 0
        then - (Mat.ofFn r c fun i j =>
            if j < k then g i j / (sumTo r fun i1 => g i1 j) else g i j).get i k
        else (Mat.ofFn r c fun i j =>
            if j < k then g i j / (sumTo r fun i1 => g i1 j) else g i j).get i k)
        = sumTo r fun i => g i k := by
      apply sumTo_congr
      intro i hi
      rw [hcol i hi, if_neg (not_lt.mpr (le_of_lt (hpos i k hi hkc)))]
    rw [hnormk, if_pos (hnorm k hkc)]
    apply Mat.ofFn_ext
    intro i j hi hj
    rw [Mat.get_ofFn _ _ _ hi hj]
    by_cases hjk : j = k
    · subst hjk
      rw [if_pos rfl, if_neg (Nat.lt_irrefl j), if_pos (Nat.lt_succ_self j)]
      ring
    · rw [if_neg hjk]
      by_cases hlt : j < k
      · rw [if_pos hlt, if_pos (by omega)]
      · rw [if_neg hlt, if_neg (by omega)]

theorem normalizeCols_map_value (inp : Mat α) (f : α → α)
    (hpos : ∀ x, (FLT_EPSILON : α) ≤ f x) (hrows : 0 < inp.rows) :
    normalizeCols (inp.map f)
      = Mat.ofFn inp.rows inp.cols fun i j =>
          f (inp.get i j) / (sumTo inp.rows fun i1 => f (inp.get i1 j)) := by
  have heps : (0 : α) < FLT_EPSILON := by
    unfold FLT_EPSILON
    positivity
  have hde : (DBL_EPSILON : α) < FLT_EPSILON := by
    unfold DBL_EPSILON FLT_EPSILON
    exact one_div_lt_one_div_of_lt (by norm_num) (by norm_num)
  have hfp : ∀ x, 0 < f x := fun x => lt_of_lt_of_le heps (hpos x)
  unfold normalizeCols Mat.map
  simp only [Mat.ofFn_cols]
  rw [normalizeCols_fold_value inp.rows inp.cols (fun i j => f (inp.get i j))
    (fun i j _ _ => hfp _) ?_ inp.cols (Nat.le_refl _)]
  · apply Mat.ofFn_ext
    intro i j _ hj
    rw [if_pos hj]
  · intro j _
    have h0 := sumTo_ge_term inp.rows (fun i => f (inp.get i j))
      (fun i _ => le_of_lt (hfp _)) 0 hrows
    have h1 := hpos (inp.get 0 j)
    exact lt_of_lt_of_le hde (le_trans h1 h0)

end NormalizeLemmas

section SoftmaxClaims

/-- C32: for a real input matrix with at least one row, every entry of the host softmax is
`min(exp(x), 1e10) + eps` divided by the sum of those values over its column; it is strictly
positive and at most `1`, and the entries of every column sum to exactly `1`. -/
theorem softmax_distribution (inp : Mat ℝ) (hrows : 0 < inp.rows) :
    (∀ i j, i < inp.rows → j < inp.cols →
      (softmax false inp).get i j
        = (min (Real.exp (inp.get i j)) 10000000000 + FLT_EPSILON)
          / (sumTo inp.rows fun i1 =>
              min (Real.exp (inp.get i1 j)) 10000000000 + FLT_EPSILON) ∧
      0 < (softmax false inp).get i j ∧ (softmax false inp).get i j ≤ 1) ∧
    (∀ j, j < inp.cols → (sumTo inp.rows fun i => (softmax false inp).get i j) = 1) ∧
    (softmax false inp).rows = inp.rows ∧ (softmax false inp).cols = inp.cols ∧
    applyActivation "softmax" false inp = softmax false inp := by
  have heps : (0 : ℝ) < FLT_EPSILON := by
    unfold FLT_EPSILON
    positivity
  have hf : ∀ x : ℝ, (FLT_EPSILON : ℝ) ≤ min (Real.exp x) 10000000000 + FLT_EPSILON := by
    intro x
    have : (0 : ℝ) ≤ min (Real.exp x) 10000000000 :=
      le_min (le_of_lt (Real.exp_pos x)) (by norm_num)
    linarith
  have hfp : ∀ x : ℝ, 0 < min (Real.exp x) 10000000000 + FLT_EPSILON :=
    fun x => lt_of_lt_of_le heps (hf x)
  have hsm : softmax false inp
      = Mat.ofFn inp.rows inp.cols fun i j =>
          (min (Real.exp (inp.get i j)) 10000000000 + FLT_EPSILON)
            / (sumTo inp.rows fun i1 =>
                min (Real.exp (inp.get i1 j)) 10000000000 + FLT_EPSILON) := by
    unfold softmax
    simp only [Bool.false_eq_true, if_false]
    exact normalizeCols_map_value inp
      (fun x => min (Real.exp x) 10000000000 + FLT_EPSILON) hf hrows
  have hN : ∀ j, 0 < sumTo inp.rows fun i1 =>
      min (Real.exp (inp.get i1 j)) 10000000000 + FLT_EPSILON := by
    intro j
    have h0 := sumTo_ge_term inp.rows
      (fun i => min (Real.exp (inp.get i j)) 10000000000 + FLT_EPSILON)
      (fun i _ => le_of_lt (hfp _)) 0 hrows
    exact lt_of_lt_of_le (hfp _) h0
  have hentry : ∀ i j, i < inp.rows → j < inp.cols →
      (softmax false inp).get i j
        = (min (Real.exp (inp.get i j)) 10000000000 + FLT_EPSILON)
          / (sumTo inp.rows fun i1 =>
              min (Real.exp (inp.get i1 j)) 10000000000 + FLT_EPSILON) := by
    intro i j hi hj
    rw [hsm, Mat.get_ofFn _ _ _ hi hj]
  refine ⟨?_, ?_, ?_, ?_, applyActivation_softmax false inp⟩
  · intro i j hi hj
    refine ⟨hentry i j hi hj, ?_, ?_⟩
    · rw [hentry i j hi hj]
      exact div_pos (hfp _) (hN j)
    · rw [hentry i j hi hj, div_le_one (hN j)]
      exact sumTo_ge_term inp.rows
        (fun i => min (Real.exp (inp.get i j)) 10000000000 + FLT_EPSILON)
        (fun i _ => le_of_lt (hfp _)) i hi
  · intro j hj
    rw [sumTo_congr _ _ (fun i => (min (Real.exp (inp.get i j)) 10000000000 + FLT_EPSILON)
        / (sumTo inp.rows fun i1 =>
            min (Real.exp (inp.get i1 j)) 10000000000 + FLT_EPSILON))
      (fun i hi => hentry i j hi hj)]
    rw [sumTo_div]
    exact div_self (ne_of_gt (hN j))
  · rw [hsm]
    rfl
  · rw [hsm]
    rfl

/-- Witness for C32: the `1 × 1` input `(0)`. -/
theorem softmax_distribution_witness :
    0 < (Mat.ofFn 1 1 fun _ _ => (0 : ℝ)).rows ∧
    (sumTo (Mat.ofFn 1 1 fun _ _ => (0 : ℝ)).rows fun i =>
      (softmax false (Mat.ofFn 1 1 fun _ _ => (0 : ℝ))).get i 0) = 1 :=
  ⟨Nat.zero_lt_one,
    (softmax_distribution (Mat.ofFn 1 1 fun _ _ => (0 : ℝ)) Nat.zero_lt_one).2.1 0
      Nat.zero_lt_one⟩

end SoftmaxClaims

end ssig
